import Mathlib

/-!
# ArduinOS: file table, operand stacks, variable arena, process table, interpreter

Shallow embedding of `src/main.cpp`.

Platform conventions (AVR, ATmega328P, the target of the sketch):
* `int` is 16 bits wide; values are `Int` and every data computation is wrapped
  with `toInt16`.  Loop counters and array indices are left unwrapped.
* `sizeof(int) = 2`, `sizeof(FATEntry) = 16`, `sizeof(variable) = 9`.
* A C array is a total map `Int → α`.  Cells inside the declared bounds are the
  array; cells outside stand for the memory next to it, which some loops of the
  source read (`FAT[noOfFiles - 1]` on an empty table, `FAT[i + 1]` at the last
  index).  The model keeps them as cells of their own.
* The EEPROM is a total map from addresses to bytes; addresses beyond
  `EEPROM.length()` are cells of their own (no wrap-around).
-/

namespace ArduinOS

/-! ## Machine integers -/

/-- Wrap to the range of a 16-bit two's-complement `int`. -/
def toInt16 (x : Int) : Int := (x + 32768) % 65536 - 32768

/-- Wrap to the range of a signed 8-bit `char`. -/
def toInt8 (x : Int) : Int := (x + 128) % 256 - 128

/-- Arduino `lowByte(w)`: `(uint8_t)((w) & 0xff)`. -/
def lowByte (w : Int) : Nat := (w % 256).toNat

/-- Arduino `highByte(w)`: `(uint8_t)((w) >> 8)`. -/
def highByte (w : Int) : Nat := ((w / 256) % 256).toNat

/-- Arduino `word(h, l)`: `(h << 8) | l` as `uint16_t`, here already converted to `int`. -/
def word (h l : Nat) : Int := toInt16 ((h % 256 : Nat) * 256 + (l % 256 : Nat))

/-- `for (int i = lo; i < hi; i++) body` for a bound `hi` the body does not change:
`cnt` iterations from index `i`. -/
def forLoopAux {σ : Type} (body : Int → σ → σ) : Nat → Int → σ → σ
  | 0, _, s => s
  | cnt + 1, i, s => forLoopAux body cnt (i + 1) (body i s)

/-- `for (int i = lo; i < hi; i++) body`. -/
def forLoop {σ : Type} (lo hi : Int) (body : Int → σ → σ) (s : σ) : σ :=
  forLoopAux body (hi - lo).toNat lo s

/-- Assignment `a[i] = v` on an array modelled as a map. -/
def setCell {α : Type} (a : Int → α) (i : Int) (v : α) : Int → α :=
  fun j => if j = i then v else a j

/-! ## C strings -/

/-- The characters of a C string held in a buffer: everything before the first NUL. -/
def cstr (s : List Nat) : List Nat := s.takeWhile (fun c => c ≠ 0)

/-- C `strlen`. -/
def strlen (s : List Nat) : Nat := (cstr s).length

/-- Result of `strcmp(a, b) == 0` for two buffers of which at least one holds a terminating
zero.  (Two buffers without a zero are compared to their ends here; `strcmp` reads on behind
them.  This happens only for a name of 12 characters in `name[12]`.) -/
def strcmpEq (a b : List Nat) : Bool := cstr a = cstr b

/-- The bytes of a string literal. -/
def ascii (s : String) : List Nat := s.toList.map Char.toNat

/-- A zero-initialised `char[12]` after `strcpy(buf, s)` (for `strlen(s) < 12`). -/
def strcpy12 (s : List Nat) : List Nat := (cstr s ++ List.replicate 12 0).take 12

/-! ## Bubble sort shared by `sortFAT` and `sortMemory` -/

/-- Swap of the adjacent cells `i` and `i + 1`. -/
def swapAt {α : Type} (t : Int → α) (i : Int) : Int → α :=
  fun j => if j = i then t (i + 1) else if j = i + 1 then t i else t j

/-- The inner `for (int i = 0; i < n - 1; i++)` loop of the sort: `cnt` iterations left
at index `i`; the state is the table and the `sorted` flag. -/
def bubblePass {α : Type} (key : α → Int) : Nat → Int → (Int → α) × Bool → (Int → α) × Bool
  | 0, _, s => s
  | cnt + 1, i, (t, sorted) =>
    if key (t i) > key (t (i + 1)) then bubblePass key cnt (i + 1) (swapAt t i, false)
    else bubblePass key cnt (i + 1) (t, sorted)

/-- The outer `while (!sorted)` loop, with a bound on the number of passes;
`none` when the bound is used up before a pass leaves `sorted` set. -/
def bubbleLoop {α : Type} (key : α → Int) (n : Int) : Nat → (Int → α) → Option (Int → α)
  | 0, _ => none
  | fuel + 1, t =>
    let r := bubblePass key (n - 1).toNat 0 (t, true)
    if r.2 then some r.1 else bubbleLoop key n fuel r.1

/-- Sum of the absolute values of the keys of the first `n` cells. -/
def absSum {α : Type} (key : α → Int) (t : Int → α) : Nat → Nat
  | 0 => 0
  | n + 1 => absSum key t n + (key (t (n : Int))).natAbs

/-- A number of passes that is always enough (see `bubbleLoop_terminates`). -/
def bubbleFuel {α : Type} (key : α → Int) (n : Int) (t : Int → α) : Nat :=
  2 * n.toNat * absSum key t n.toNat + 1

/-- The sort loop run to completion. -/
def bubbleSort {α : Type} (key : α → Int) (n : Int) (t : Int → α) : Int → α :=
  match bubbleLoop key n (bubbleFuel key n t) t with
  | some r => r
  | none => t

/-! ## Serial console and hardware events -/

/-- A `float` as its four bytes in memory order (`b0` at the lowest address). -/
structure F32 where
  b0 : Nat
  b1 : Nat
  b2 : Nat
  b3 : Nat
deriving DecidableEq

/-- One call on the serial console or on a pin. -/
inductive Out where
  | str (s : String)
  | bytes (s : List Nat)
  | char (c : Nat)
  | int (i : Int)
  | float (f : F32) (digits : Nat)
  | ln
  | pinMode (pin mode : Int)
  | digitalWrite (pin status : Int)
deriving DecidableEq

/-! ## Data model -/

/-- `struct FATEntry`: `char name[12]; int beginPosition; int length;`. -/
structure FATEntry where
  name : List Nat
  beginPosition : Int
  length : Int
deriving DecidableEq

/-- `struct variable`: `byte name; int type; int length; int adress; int procID;`. -/
structure Variable where
  name : Nat
  type : Int
  length : Int
  adress : Int
  procID : Int
deriving DecidableEq

/-- `struct process`. -/
structure process where
  name : List Nat
  procID : Int
  state : Nat
  sp : Int
  pc : Int
  fp : Int
  address : Int
deriving DecidableEq

def MAX_PROCESSES : Int := 10
def MAX_VARIABLES : Int := 20
def sizeofInt : Int := 2
def sizeofFATEntry : Int := 12 + 2 * sizeofInt
def sizeofVariable : Int := 1 + 4 * sizeofInt
def MAXRAM : Int := sizeofVariable * MAX_VARIABLES
def PROCESS_TABLE_SIZE : Int := 10
def STACKSIZE : Int := 16

/-- `EEPROM.length()` of the ATmega328P. -/
def EEPROM_length : Int := 1024

abbrev EEPROM := Int → Nat

/-- The operand stacks `byte stack[PROCESS_TABLE_SIZE][STACKSIZE]` as the flat memory the
array occupies: `stack[p][i]` is cell `p * STACKSIZE + i`.  The cells `0 .. PROCESS_TABLE_SIZE
* STACKSIZE - 1` are the array.  The other cells stand for the memory around it, which the
source reaches with a row `p` outside `0 .. PROCESS_TABLE_SIZE - 1`; what the source holds
there is not known, so a statement about the source takes `p` and the positions inside the
array (`rowHolds`). -/
abbrev Stack := Int → Nat

/-- The global variables of the sketch, the EEPROM and the console.  The arrays `FAT`,
`memoryTable`, `RAM` and `processTable` are total maps: the indices of the declared arrays
are `0 .. MAX_PROCESSES - 1`, `0 .. MAX_VARIABLES - 1`, `0 .. MAXRAM - 1` and
`0 .. PROCESS_TABLE_SIZE - 1`.  A cell at another index stands for the memory the source
reaches with that index, a neighbouring global whose content is not known here; a statement
about the source keeps the accesses inside the arrays (section "Accesses inside the arrays of
the source") or shows the access that leaves them. -/
structure Kernel where
  eeprom : EEPROM
  noOfFiles : Int
  FAT : Int → FATEntry
  noOfVars : Int
  memoryTable : Int → Variable
  RAM : Int → Nat
  noOfProc : Int
  processCounter : Int
  processTable : Int → process
  stack : Stack
  out : List Out

/-- `Serial.print` of one item. -/
def Kernel.print (k : Kernel) (o : Out) : Kernel := { k with out := k.out ++ [o] }

/-- `Serial.println(F(s))`. -/
def Kernel.println (k : Kernel) (s : String) : Kernel :=
  { k with out := k.out ++ [Out.str s, Out.ln] }

/-! ## EEPROM -/

/-- `EEPROM.read(idx)`. -/
def EEPROM.read (e : EEPROM) (idx : Int) : Nat := e idx % 256

/-- `EEPROM.write(idx, val)`. -/
def EEPROM.write (e : EEPROM) (idx : Int) (val : Nat) : EEPROM :=
  fun a => if a = idx then val % 256 else e a

/-- `EEPROM.put(address, v)` for an `int` (little-endian). -/
def EEPROM.putInt (e : EEPROM) (address : Int) (v : Int) : EEPROM :=
  EEPROM.write (EEPROM.write e address (lowByte v)) (address + 1) (highByte v)

/-- `EEPROM.get(address, v)` for an `int`. -/
def EEPROM.getInt (e : EEPROM) (address : Int) : Int :=
  word (EEPROM.read e (address + 1)) (EEPROM.read e address)

/-- Consecutive writes of a byte sequence. -/
def EEPROM.putBytes (e : EEPROM) : Int → List Nat → EEPROM
  | _, [] => e
  | address, b :: bs => EEPROM.putBytes (EEPROM.write e address b) (address + 1) bs

/-- Consecutive reads of `n` bytes. -/
def EEPROM.getBytes (e : EEPROM) : Int → Nat → List Nat
  | _, 0 => []
  | address, n + 1 => EEPROM.read e address :: EEPROM.getBytes e (address + 1) n

/-- `EEPROM.put(address, entry)` for a `FATEntry`. -/
def EEPROM.putFATEntry (e : EEPROM) (address : Int) (entry : FATEntry) : EEPROM :=
  EEPROM.putInt
    (EEPROM.putInt (EEPROM.putBytes e address ((entry.name ++ List.replicate 12 0).take 12))
      (address + 12) entry.beginPosition)
    (address + 14) entry.length

/-- `EEPROM.get(address, entry)` for a `FATEntry`. -/
def EEPROM.getFATEntry (e : EEPROM) (address : Int) : FATEntry :=
  { name := EEPROM.getBytes e address 12
    beginPosition := EEPROM.getInt e (address + 12)
    length := EEPROM.getInt e (address + 14) }

/-! ## File table -/

/-- Source `setFATEntry`: writes one record of the persisted table. -/
def setFATEntry (k : Kernel) (index : Int) (entry : FATEntry) : Kernel :=
  let address := sizeofInt + index * sizeofFATEntry
  { k with eeprom := EEPROM.putFATEntry k.eeprom address entry }

/-- Source `getFATEntry`: reads one record of the persisted table. -/
def getFATEntry (k : Kernel) (index : Int) : FATEntry :=
  let address := sizeofInt + index * sizeofFATEntry
  EEPROM.getFATEntry k.eeprom address

/-- Source `writeFAT`: the count, then the first `noOfFiles` records. -/
def writeFAT (k : Kernel) : Kernel :=
  let e := EEPROM.putInt k.eeprom 0 k.noOfFiles
  let e := forLoop 0 k.noOfFiles
    (fun i e => EEPROM.putFATEntry e (sizeofInt + i * sizeofFATEntry) (k.FAT i)) e
  { k with eeprom := e }

/-- Source `readFAT`: the count, then all `MAX_PROCESSES` records. -/
def readFAT (k : Kernel) : Kernel :=
  let k := { k with noOfFiles := EEPROM.getInt k.eeprom 0 }
  forLoop 0 MAX_PROCESSES (fun i k => { k with FAT := setCell k.FAT i (getFATEntry k i) }) k

/-- Source `sortFAT`: bubble sort of the first `noOfFiles` entries by `beginPosition`. -/
def sortFAT (k : Kernel) : Kernel :=
  { k with FAT := bubbleSort FATEntry.beginPosition k.noOfFiles k.FAT }

/-- The `int systemMemory` of `findAvailablePosition` and `freespaceEEPROM`:
`(sizeof(FATEntry) * MAX_PROCESSES) + 1`. -/
def systemMemory : Int := sizeofFATEntry * MAX_PROCESSES + 1

/-- The "space between blocks" loop of `findAvailablePosition`: `cnt` iterations left at `i`;
`some p` when the loop returns `p`. -/
def findBetween (FAT : Int → FATEntry) (fileSize : Int) : Nat → Int → Option Int
  | 0, _ => none
  | cnt + 1, i =>
    let currentBlockEnd := toInt16 ((FAT i).beginPosition + (FAT i).length)
    let nextBlockStart := (FAT (i + 1)).beginPosition
    let availableSpace := toInt16 (nextBlockStart - currentBlockEnd)
    if availableSpace ≥ fileSize then some currentBlockEnd
    else findBetween FAT fileSize cnt (i + 1)

/-- Source `findAvailablePosition`; the table is left sorted. -/
def findAvailablePosition (k : Kernel) (fileSize : Int) : Kernel × Int :=
  let k := sortFAT k
  let firstBlockEnd := toInt16 ((k.FAT 0).beginPosition + (k.FAT 0).length)
  if toInt16 (firstBlockEnd - systemMemory) ≥ fileSize then (k, systemMemory)
  else
    match findBetween k.FAT fileSize (k.noOfFiles - 1).toNat 0 with
    | some p => (k, p)
    | none =>
      let lastBlockEnd := toInt16 ((k.FAT (k.noOfFiles - 1)).beginPosition
        + (k.FAT (k.noOfFiles - 1)).length)
      let remainingSpace := toInt16 (EEPROM_length - lastBlockEnd)
      if remainingSpace ≥ fileSize then
        if k.noOfFiles = 0 then (k, toInt16 (lastBlockEnd + systemMemory))
        else (k, lastBlockEnd)
      else (k, -1)

/-- The search loop of `getFileInFAT`: `cnt` iterations left at `i`. -/
def findName (FAT : Int → FATEntry) (fileName : List Nat) : Nat → Int → Int
  | 0, _ => -1
  | cnt + 1, i => if strcmpEq (FAT i).name fileName then i else findName FAT fileName cnt (i + 1)

/-- Source `getFileInFAT`: reloads the table, then searches the valid entries. -/
def getFileInFAT (k : Kernel) (fileName : List Nat) : Kernel × Int :=
  let k := readFAT k
  (k, findName k.FAT fileName k.noOfFiles.toNat 0)

/-- The bytes `fileData[0 .. fileSize - 1]` after the read loop of `storeFile`: the `i`-th
console byte when one is there, else a blank (32). -/
def readFileData (input : List Nat) (fileSize : Int) : List Nat :=
  (List.range fileSize.toNat).map (fun i => (input.getD i 32) % 256)

/-- Source `storeFile`.  `input` is what the console delivers after the prompt; with no
input the wait loop never ends (`none`).  The write loop runs `fileSize + 1` times; `extra`
is the byte it reads at `fileData[fileSize]`, one past the buffer. -/
def storeFile (k : Kernel) (filename : List Nat) (fileSize : Int) (input : List Nat)
    (extra : Nat) : Option Kernel :=
  let k := k.println "Give input for file:"
  if input = [] then none
  else
    let fileData := readFileData input fileSize
    let k := readFAT k
    if k.noOfFiles ≥ MAX_PROCESSES then
      some (k.println "File cannot be stored, limit reached.")
    else
      let (k, idx) := getFileInFAT k filename
      if idx ≠ -1 then
        some (k.println "File cannot be stored, given name already exists.")
      else
        let (k, position) := findAvailablePosition k fileSize
        if position = -1 then some (k.println "Error: No space left for file.")
        else
          let file : FATEntry :=
            { name := strcpy12 filename, beginPosition := position, length := fileSize }
          let k := { k with FAT := setCell k.FAT k.noOfFiles file }
          let k := { k with noOfFiles := k.noOfFiles + 1 }
          let k := sortFAT k
          let k := writeFAT k
          let k := { k with
            eeprom := EEPROM.putBytes k.eeprom position
              ((fileData ++ [extra]).take (fileSize + 1).toNat) }
          some (k.println "File has been stored.")

/-- Source `retrieveFile`. -/
def retrieveFile (k : Kernel) (filename : List Nat) : Kernel :=
  let k := readFAT k
  let (k, fatIndex) := getFileInFAT k filename
  if fatIndex = -1 then k.println "File not found."
  else
    let fileIndex := (k.FAT fatIndex).beginPosition
    let k := k.print (Out.str "\nContent: ")
    let k := forLoop 0 (k.FAT fatIndex).length
      (fun i k => k.print (Out.char (EEPROM.read k.eeprom (fileIndex + i)))) k
    let k := k.print (Out.str "\n")
    k.println "End of File Content."

/-- Source `eraseFile`.  `emptyEntry` is the value of the uninitialised local of that
name. -/
def eraseFile (k : Kernel) (fileName : List Nat) (emptyEntry : FATEntry) : Kernel :=
  let k := readFAT k
  let (k, fatIndex) := getFileInFAT k fileName
  if fatIndex = -1 then k.println "File not found."
  else
    let k := forLoop fatIndex k.noOfFiles
      (fun i k => { k with FAT := setCell k.FAT i (k.FAT (i + 1)) }) k
    let k := { k with FAT := setCell k.FAT (k.noOfFiles - 1) emptyEntry }
    let k := { k with noOfFiles := k.noOfFiles - 1 }
    let k := writeFAT k
    let k := k.print (Out.str "Erased: ")
    (k.print (Out.bytes (cstr fileName))).print Out.ln

/-- Source `freespaceEEPROM`. -/
def freespaceEEPROM (k : Kernel) : Kernel :=
  let k := readFAT k
  let usedSpace := forLoop 0 k.noOfFiles (fun i u => toInt16 (u + (k.FAT i).length)) (0 : Int)
  let totalAvailable := toInt16 (EEPROM_length - systemMemory - usedSpace)
  ((k.print (Out.str "Available space: ")).print (Out.int totalAvailable)).print Out.ln

/-- Source `clearEeprom`. -/
def clearEeprom (k : Kernel) : Kernel :=
  let k := { k with eeprom := forLoop 0 EEPROM_length (fun i e => EEPROM.write e i 0) k.eeprom }
  k.println "\nEEPROM CLEARED\n"

/-! ## Operand stacks -/

/-- Source `pushByte`: `stack[procID][sp++] = b`. -/
def pushByte (stack : Stack) (procID sp : Int) (b : Nat) : Stack × Int :=
  (setCell stack (procID * STACKSIZE + sp) (b % 256), sp + 1)

/-- Source `popByte`: `return stack[procID][--sp]`. -/
def popByte (stack : Stack) (procID sp : Int) : Nat × Int :=
  (stack (procID * STACKSIZE + (sp - 1)) % 256, sp - 1)

/-- Source `pushChar`. -/
def pushChar (stack : Stack) (procID sp : Int) (c : Nat) : Stack × Int :=
  let r := pushByte stack procID sp c
  pushByte r.1 procID r.2 0x01

/-- Source `popChar`. -/
def popChar (stack : Stack) (procID sp : Int) : Nat × Int :=
  popByte stack procID sp

/-- Source `pushInt`. -/
def pushInt (stack : Stack) (procID sp : Int) (i : Int) : Stack × Int :=
  let r := pushByte stack procID sp (highByte i)
  let r := pushByte r.1 procID r.2 (lowByte i)
  pushByte r.1 procID r.2 0x02

/-- Source `popInt`. -/
def popInt (stack : Stack) (procID sp : Int) : Int × Int :=
  let lb := popByte stack procID sp
  let hb := popByte stack procID lb.2
  (word hb.1 lb.1, hb.2)

/-- Source `pushFloat`: the bytes `b[3]`, `b[2]`, `b[1]`, `b[0]`, then the tag. -/
def pushFloat (stack : Stack) (procID sp : Int) (f : F32) : Stack × Int :=
  let r := pushByte stack procID sp f.b3
  let r := pushByte r.1 procID r.2 f.b2
  let r := pushByte r.1 procID r.2 f.b1
  let r := pushByte r.1 procID r.2 f.b0
  pushByte r.1 procID r.2 0x04

/-- Source `popFloat`: `b[0]`, `b[1]`, `b[2]`, `b[3]` in pop order. -/
def popFloat (stack : Stack) (procID sp : Int) : F32 × Int :=
  let p0 := popByte stack procID sp
  let p1 := popByte stack procID p0.2
  let p2 := popByte stack procID p1.2
  let p3 := popByte stack procID p2.2
  ({ b0 := p0.1, b1 := p1.1, b2 := p2.1, b3 := p3.1 }, p3.2)

/-- The character loop of `pushString`. -/
def pushBytes (stack : Stack) (procID : Int) : Int → List Nat → Stack × Int
  | sp, [] => (stack, sp)
  | sp, c :: cs =>
    let r := pushByte stack procID sp c
    pushBytes r.1 procID r.2 cs

/-- Source `pushString`: the characters, the terminating zero, `strlen(s) + 1`, the tag. -/
def pushString (stack : Stack) (procID sp : Int) (s : List Nat) : Stack × Int :=
  let r := pushBytes stack procID sp (cstr s)
  let r := pushByte r.1 procID r.2 0x00
  let r := pushByte r.1 procID r.2 (strlen s + 1)
  pushByte r.1 procID r.2 0x03

/-- The loop of `popString`: `cnt` bytes left to pop; `temp` holds the bytes already
placed at the higher indices. -/
def popStringLoop (stack : Stack) (procID : Int) : Nat → Int → List Nat → List Nat × Int
  | 0, sp, temp => (temp, sp)
  | cnt + 1, sp, temp =>
    let r := popByte stack procID sp
    popStringLoop stack procID cnt r.2 (r.1 :: temp)

/-- Source `popString`: the `size` topmost bytes, lowest first. -/
def popString (stack : Stack) (procID sp : Int) (size : Int) : List Nat × Int :=
  popStringLoop stack procID size.toNat sp []

/-- A `float` value as `popVal` returns it: an integer converted to `float` (exact for
every 8- and 16-bit value and their sums), a bit pattern read as `float`, or the
indeterminate result of falling off the end of `popVal`. -/
inductive FloatVal where
  | int (i : Int)
  | bits (f : F32)
  | undef
deriving DecidableEq

/-- Source `popVal`. -/
def popVal (stack : Stack) (procID sp : Int) (type : Int) : FloatVal × Int :=
  if type = 1 then
    let r := popChar stack procID sp
    (FloatVal.int (toInt8 r.1), r.2)
  else if type = 2 then
    let r := popInt stack procID sp
    (FloatVal.int r.1, r.2)
  else if type = 4 then
    let r := popFloat stack procID sp
    (FloatVal.bits r.1, r.2)
  else (FloatVal.undef, sp)

/-- The floating-point operations of the target, which the model does not interpret. -/
structure FPU where
  /-- Sum of two `float`s. -/
  add : F32 → F32 → F32
  /-- Difference of two `float`s. -/
  sub : F32 → F32 → F32
  /-- Conversion of an integer to `float`. -/
  ofInt : Int → F32
  /-- Conversion of a `float` to an integer (truncation). -/
  toInt : F32 → Int

/-- Conversion `(int)v` of a `float`; an indeterminate value converts to 0. -/
def FloatVal.toInt (fpu : FPU) : FloatVal → Int
  | FloatVal.int i => toInt16 i
  | FloatVal.bits f => toInt16 (fpu.toInt f)
  | FloatVal.undef => 0

/-- Conversion `(char)v` of a `float`, as the byte stored; an indeterminate value
converts to 0. -/
def FloatVal.toChar (fpu : FPU) : FloatVal → Nat
  | FloatVal.int i => (i % 256).toNat
  | FloatVal.bits f => (fpu.toInt f % 256).toNat
  | FloatVal.undef => 0

/-- The `float` itself, as bytes; an indeterminate value gives zero bytes. -/
def FloatVal.toF32 (fpu : FPU) : FloatVal → F32
  | FloatVal.int i => fpu.ofInt i
  | FloatVal.bits f => f
  | FloatVal.undef => { b0 := 0, b1 := 0, b2 := 0, b3 := 0 }

/-! ## Variable table and RAM arena -/

/-- Source `saveChar`. -/
def saveChar (RAM : Int → Nat) (c : Nat) (adress : Int) : Int → Nat :=
  setCell RAM adress (c % 256)

/-- Source `loadChar`. -/
def loadChar (RAM : Int → Nat) (adress : Int) : Nat := RAM adress % 256

/-- Source `saveInt`. -/
def saveInt (RAM : Int → Nat) (i : Int) (adress : Int) : Int → Nat :=
  setCell (setCell RAM adress (highByte i)) (adress + 1) (lowByte i)

/-- Source `loadInt`. -/
def loadInt (RAM : Int → Nat) (adress : Int) : Int :=
  word (RAM adress % 256) (RAM (adress + 1) % 256)

/-- Source `saveFloat`: `RAM[adress + i] = b[i]` for `i = 3, 2, 1, 0`. -/
def saveFloat (RAM : Int → Nat) (f : F32) (adress : Int) : Int → Nat :=
  setCell (setCell (setCell (setCell RAM (adress + 3) (f.b3 % 256)) (adress + 2) (f.b2 % 256))
    (adress + 1) (f.b1 % 256)) (adress + 0) (f.b0 % 256)

/-- Source `loadFloat`. -/
def loadFloat (RAM : Int → Nat) (adress : Int) : F32 :=
  { b0 := RAM (adress + 0) % 256, b1 := RAM (adress + 1) % 256, b2 := RAM (adress + 2) % 256,
    b3 := RAM (adress + 3) % 256 }

/-- The character loop of `saveString`. -/
def saveBytes (RAM : Int → Nat) : Int → List Nat → Int → Nat
  | _, [] => RAM
  | adress, c :: cs => saveBytes (setCell RAM adress (c % 256)) (adress + 1) cs

/-- Source `saveString`: the characters of `s`, then the terminating zero. -/
def saveString (RAM : Int → Nat) (s : List Nat) (adress : Int) : Int → Nat :=
  setCell (saveBytes RAM adress (cstr s)) (adress + strlen s) 0x00

/-- Source `loadString`: the `length` bytes at `adress`. -/
def loadString (RAM : Int → Nat) (adress : Int) (length : Int) : List Nat :=
  (List.range length.toNat).map (fun (i : Nat) => RAM (adress + (i : Int)) % 256)

/-- Source `sortMemory`: bubble sort of the first `noOfVars` entries by `adress`. -/
def sortMemory (k : Kernel) : Kernel :=
  { k with memoryTable := bubbleSort Variable.adress k.noOfVars k.memoryTable }

/-- The "between blocks" loop of `getAvailableSpace`: `cnt` iterations left at `i`. -/
def findSpaceBetween (memoryTable : Int → Variable) (size : Int) : Nat → Int → Option Int
  | 0, _ => none
  | cnt + 1, i =>
    let availableSpace := toInt16 ((memoryTable (i + 1)).adress
      - toInt16 ((memoryTable i).adress + (memoryTable i).length))
    if availableSpace ≥ size then some (toInt16 ((memoryTable i).adress + (memoryTable i).length))
    else findSpaceBetween memoryTable size cnt (i + 1)

/-- Source `getAvailableSpace`. -/
def getAvailableSpace (k : Kernel) (size : Int) : Kernel × Int :=
  if (k.memoryTable 0).adress ≥ size then (k, 0)
  else
    match findSpaceBetween k.memoryTable size (k.noOfVars - 1).toNat 0 with
    | some a => (k, a)
    | none =>
      let lastEntry := toInt16 ((k.memoryTable (k.noOfVars - 1)).adress
        + (k.memoryTable (k.noOfVars - 1)).length)
      if toInt16 (MAXRAM - lastEntry) ≥ size then (k, lastEntry)
      else (k.println "No space found", -1)

/-- The loop of `findFileInMemory`: `cnt` iterations left at `i`. -/
def findVar (memoryTable : Int → Variable) (name : Nat) (procID : Int) : Nat → Int → Int
  | 0, _ => -1
  | cnt + 1, i =>
    if (memoryTable i).name = name ∧ (memoryTable i).procID = procID then i
    else findVar memoryTable name procID cnt (i + 1)

/-- Source `findFileInMemory`. -/
def findFileInMemory (k : Kernel) (name : Nat) (procID : Int) : Int :=
  findVar k.memoryTable name procID k.noOfVars.toNat 0

/-- The loop `for (i = from; i < noOfVars; i++) memoryTable[i] = memoryTable[i + 1]`. -/
def shiftVars (k : Kernel) (start : Int) : Kernel :=
  forLoop start k.noOfVars
    (fun i k => { k with memoryTable := setCell k.memoryTable i (k.memoryTable (i + 1)) }) k

/-- The overwrite step of `addMemoryEntry`: when `index` is not `-1`, the entries after it
move one place left and `noOfVars` drops by one. -/
def dropVar (k : Kernel) (index : Int) : Kernel :=
  if index ≠ -1 then
    let k := shiftVars k index
    { k with noOfVars := k.noOfVars - 1 }
  else k

/-- The allocation step of `addMemoryEntry`: `sortMemory()`, then
`(noOfVars > 0) ? getAvailableSpace(size) : 0`. -/
def newAdressFor (k : Kernel) (size : Int) : Kernel × Int :=
  let k := sortMemory k
  if k.noOfVars > 0 then getAvailableSpace k size else (k, 0)

/-- The `switch (type)` of `addMemoryEntry`: pops the payload and writes it to the arena. -/
def savePayload (fpu : FPU) (k : Kernel) (procID stackP type size newAdress : Int) :
    Kernel × Int :=
  if type = 1 then
    let v := popVal k.stack procID stackP type
    ({ k with RAM := saveChar k.RAM (v.1.toChar fpu) newAdress }, v.2)
  else if type = 2 then
    let v := popVal k.stack procID stackP type
    ({ k with RAM := saveInt k.RAM (v.1.toInt fpu) newAdress }, v.2)
  else if type = 3 then
    let s := popString k.stack procID stackP size
    ({ k with RAM := saveString k.RAM s.1 newAdress }, s.2)
  else if type = 4 then
    let v := popVal k.stack procID stackP type
    ({ k with RAM := saveFloat k.RAM (v.1.toF32 fpu) newAdress }, v.2)
  else (k, stackP)

/-- Source `addMemoryEntry`; `stackP` is passed by reference and returned. -/
def addMemoryEntry (fpu : FPU) (k : Kernel) (name : Nat) (procID : Int) (stackP : Int) :
    Kernel × Int :=
  if k.noOfVars ≥ MAX_VARIABLES then
    (k.print (Out.str "Error. Not enough space in the memory table"), stackP)
  else
    let k := dropVar k (findFileInMemory k name procID)
    let index := k.noOfVars
    let type : Int := (popByte k.stack procID stackP).1
    let stackP := (popByte k.stack procID stackP).2
    let size : Int := if type ≠ 3 then type else (popByte k.stack procID stackP).1
    let stackP := if type ≠ 3 then stackP else (popByte k.stack procID stackP).2
    let a := newAdressFor k size
    let newVariable : Variable :=
      { name := name, type := type, length := size, adress := a.2, procID := procID }
    let k := { a.1 with memoryTable := setCell a.1.memoryTable index newVariable }
    let r := savePayload fpu k procID stackP type size a.2
    ({ r.1 with noOfVars := r.1.noOfVars + 1 }, r.2)

/-- Source `getMemoryEntry`; `stackP` is passed by reference and returned. -/
def getMemoryEntry (k : Kernel) (name : Nat) (procID : Int) (stackP : Int) : Kernel × Int :=
  let index := findFileInMemory k name procID
  if index = -1 then (k.println "Error. This variable doesn't exist.", stackP)
  else
    let type := (k.memoryTable index).type
    let length := (k.memoryTable index).length
    if type = 1 then
      let temp := loadChar k.RAM (k.memoryTable index).adress
      let r := pushChar k.stack procID stackP temp
      ({ k with stack := r.1 }, r.2)
    else if type = 2 then
      let temp := loadInt k.RAM (k.memoryTable index).adress
      let r := pushInt k.stack procID stackP temp
      ({ k with stack := r.1 }, r.2)
    else if type = 3 then
      let r := pushString k.stack procID stackP
        (loadString k.RAM (k.memoryTable index).adress length)
      ({ k with stack := r.1 }, r.2)
    else if type = 4 then
      let r := pushFloat k.stack procID stackP (loadFloat k.RAM (k.memoryTable index).adress)
      ({ k with stack := r.1 }, r.2)
    else (k, stackP)

/-- The outer loop of `deleteVars`, whose bound `noOfVars` shrinks inside the body: at most
`fuel` further iterations from index `j`.  The loop runs at most as many times as
`noOfVars` holds at entry. -/
def deleteVarsLoop (procID : Int) : Nat → Int → Kernel → Kernel
  | 0, _, k => k
  | fuel + 1, j, k =>
    if j < k.noOfVars then
      let k := if (k.memoryTable j).procID = procID then
          let k := shiftVars k j
          { k with noOfVars := k.noOfVars - 1 }
        else k
      deleteVarsLoop procID fuel (j + 1) k
    else k

/-- Source `deleteVars`. -/
def deleteVars (k : Kernel) (procID : Int) : Kernel :=
  deleteVarsLoop procID k.noOfVars.toNat 0 k

/-! ## Process table -/

/-- The opcode numbers of `instruction_set.h`.  The header is not among the sources, so the
numbers are a parameter; a `switch` needs them pairwise distinct. -/
structure InstructionSet where
  CHAR : Nat
  INT : Nat
  STRING : Nat
  FLOAT : Nat
  SET : Nat
  GET : Nat
  INCREMENT : Nat
  DECREMENT : Nat
  PLUS : Nat
  MINUS : Nat
  DELAY : Nat
  DELAYUNTIL : Nat
  MILLIS : Nat
  PINMODE : Nat
  DIGITALWRITE : Nat
  STOP : Nat
  FORK : Nat
  WAITUNTILDONE : Nat

/-- The process states `'r'`, `'p'` and `'0'`. -/
def RUNNING : Nat := 114
def PAUSED : Nat := 112
def TERMINATED : Nat := 48

/-- The search loop of `getPid`: `cnt` iterations left at `i`. -/
def findPid (processTable : Int → process) (id : Int) : Nat → Int → Int
  | 0, _ => -1
  | cnt + 1, i => if (processTable i).procID = id then i else findPid processTable id cnt (i + 1)

/-- Source `getPid`: the slot of the process with the given id, or `-1`. -/
def getPid (k : Kernel) (id : Int) : Int :=
  findPid k.processTable id k.noOfProc.toNat 0

/-- Source `changeProcessState`. -/
def changeProcessState (k : Kernel) (processIndex : Int) (state : Nat) : Kernel :=
  if state ≠ RUNNING ∧ state ≠ PAUSED ∧ state ≠ TERMINATED then k.println "Not a valid state"
  else if (k.processTable processIndex).state = state then
    (((k.print (Out.str "Process already is in ")).print (Out.char state)).print
      (Out.str " state")).print Out.ln
  else
    { k with processTable :=
        setCell k.processTable processIndex { (k.processTable processIndex) with state := state } }

/-- Source `runProcess`.  The bytes of `newProcess.name` after the terminating zero, which
the source leaves uninitialised, are zero here. -/
def runProcess (k : Kernel) (filename : List Nat) : Kernel :=
  if k.noOfProc ≥ PROCESS_TABLE_SIZE then
    k.println "Error. Not enough space in the process table"
  else
    let f := getFileInFAT k filename
    let k := f.1
    let fileIndex := f.2
    if fileIndex = -1 then k.println "File does not exist."
    else
      let newProcess : process :=
        { name := strcpy12 filename, procID := k.processCounter, state := RUNNING, sp := 0,
          pc := 0, fp := 0, address := (k.FAT fileIndex).beginPosition }
      let k := { k with processCounter := toInt16 (k.processCounter + 1) }
      let k := { k with processTable := setCell k.processTable k.noOfProc newProcess }
      let k := { k with noOfProc := k.noOfProc + 1 }
      let k := k.print (Out.str "Proces: ")
      let k := k.print (Out.int newProcess.procID)
      k.println " has been started"

/-- Source `suspendProcess`. -/
def suspendProcess (k : Kernel) (id : Int) : Kernel :=
  let k := ((k.print (Out.str "Suspending process ")).print (Out.int id)).print Out.ln
  let processIndex := getPid k id
  if processIndex = -1 then k.println "processId doesn't exist"
  else if (k.processTable processIndex).state = TERMINATED then k.println "Process already ended"
  else
    let k := changeProcessState k processIndex PAUSED
    ((k.print (Out.str "Process with PID: ")).print (Out.int id)).println " has been suspended."

/-- Source `resumeProcess`. -/
def resumeProcess (k : Kernel) (id : Int) : Kernel :=
  let processIndex := getPid k id
  if processIndex = -1 then k.println "processId doesn't exist"
  else if (k.processTable processIndex).state = TERMINATED then k.println "Process already ended"
  else
    let k := changeProcessState k processIndex RUNNING
    ((k.print (Out.str "Process with PID: ")).print (Out.int id)).println " has been resumed."

/-- The loop `for (i = j; i < noOfProc; i++) processTable[i] = processTable[i + 1]`. -/
def shiftProcs (k : Kernel) (j : Int) : Kernel :=
  forLoop j k.noOfProc
    (fun i k => { k with processTable := setCell k.processTable i (k.processTable (i + 1)) }) k

/-- Source `stopProcess`. -/
def stopProcess (k : Kernel) (id : Int) : Kernel :=
  let processIndex := getPid k id
  if processIndex = -1 then k.println "processId doesn't exist"
  else if (k.processTable processIndex).state = TERMINATED then k.println "Process already ended"
  else
    let k := deleteVars k id
    let k := changeProcessState k processIndex TERMINATED
    let k := forLoop 0 k.noOfProc
      (fun j k => if (k.processTable j).procID = id then shiftProcs k j else k) k
    let k := ((k.print (Out.str "Process with PID: ")).print (Out.int id)).println
      " has been killed."
    { k with noOfProc := k.noOfProc - 1 }

/-- Source `showProcesses`. -/
def showProcesses (k : Kernel) : Kernel :=
  let k := k.println "List of active processes:"
  forLoop 0 k.noOfProc
    (fun i k =>
      if (k.processTable i).state ≠ TERMINATED then
        ((((((k.print (Out.str "PID: ")).print (Out.int (k.processTable i).procID)).print
          (Out.str " - Status: ")).print (Out.char (k.processTable i).state)).print
          (Out.str " - Name: ")).print (Out.bytes (cstr (k.processTable i).name))).print Out.ln
      else k) k

/-! ## Interpreter -/

/-- Sum of two `float`s: exact on integers of the sizes that occur, else by the
floating-point unit. -/
def FloatVal.add (fpu : FPU) : FloatVal → FloatVal → FloatVal
  | FloatVal.int a, FloatVal.int b => FloatVal.int (a + b)
  | FloatVal.int a, FloatVal.bits g => FloatVal.bits (fpu.add (fpu.ofInt a) g)
  | FloatVal.bits f, FloatVal.int b => FloatVal.bits (fpu.add f (fpu.ofInt b))
  | FloatVal.bits f, FloatVal.bits g => FloatVal.bits (fpu.add f g)
  | _, _ => FloatVal.undef

/-- Difference of two `float`s. -/
def FloatVal.sub (fpu : FPU) : FloatVal → FloatVal → FloatVal
  | FloatVal.int a, FloatVal.int b => FloatVal.int (a - b)
  | FloatVal.int a, FloatVal.bits g => FloatVal.bits (fpu.sub (fpu.ofInt a) g)
  | FloatVal.bits f, FloatVal.int b => FloatVal.bits (fpu.sub f (fpu.ofInt b))
  | FloatVal.bits f, FloatVal.bits g => FloatVal.bits (fpu.sub f g)
  | _, _ => FloatVal.undef

/-- Source `increment`. -/
def increment (fpu : FPU) (value : FloatVal) : FloatVal := FloatVal.add fpu value (FloatVal.int 1)

/-- Source `decrement`. -/
def decrement (fpu : FPU) (value : FloatVal) : FloatVal := FloatVal.sub fpu value (FloatVal.int 1)

/-- The call `unary[findUnaryFunction(operatorNum)].func(type, value)`; when the operator is
not in the table the source indexes `unary[-1]`, and the result is indeterminate. -/
def applyUnary (isa : InstructionSet) (fpu : FPU) (operatorNum : Nat) (value : FloatVal) :
    FloatVal :=
  if isa.INCREMENT = operatorNum then increment fpu value
  else if isa.DECREMENT = operatorNum then decrement fpu value
  else FloatVal.undef

/-- The call `binary[findBinaryFunction(operatorNum)].func(x, y)`; when the operator is not
in the table the source indexes `binary[-1]`, and the result is indeterminate. -/
def applyBinary (isa : InstructionSet) (fpu : FPU) (operatorNum : Nat) (x y : FloatVal) :
    FloatVal :=
  if isa.PLUS = operatorNum then FloatVal.add fpu x y
  else if isa.MINUS = operatorNum then FloatVal.sub fpu x y
  else FloatVal.undef

/-- `processTable[index].sp = sp`: the write through the reference `stackP`. -/
def setSp (k : Kernel) (index sp : Int) : Kernel :=
  { k with processTable := setCell k.processTable index { (k.processTable index) with sp := sp } }

/-- `processTable[index].pc = pc`. -/
def setPc (k : Kernel) (index pc : Int) : Kernel :=
  { k with processTable := setCell k.processTable index { (k.processTable index) with pc := pc } }

/-- `EEPROM.read(address + processTable[index].pc++)`. -/
def fetch (k : Kernel) (index address : Int) : Nat × Kernel :=
  (EEPROM.read k.eeprom (address + (k.processTable index).pc),
    setPc k index ((k.processTable index).pc + 1))

/-- The `do ... while (string[pointer - 1] != 0)` loop of the STRING opcode: reads up to
`cnt` further bytes into `string`, stopping after a zero byte.  The buffer `char string[12]`
of the source has 12 bytes and `execute` calls the loop with `cnt = 12`: when the zero is
among the first 12 operand bytes the result is the buffer and the program counter of the
source.  When it is not, the source goes on reading and writes behind the buffer, while the
model stops after 12 bytes; `executeInBounds` asks for the zero among the 12 bytes. -/
def fetchString (index address : Int) : Nat → Kernel → List Nat → List Nat × Kernel
  | 0, k, string => (string, k)
  | cnt + 1, k, string =>
    let r := fetch k index address
    if r.1 = 0 then (string ++ [r.1], r.2)
    else fetchString index address cnt r.2 (string ++ [r.1])

/-- The result of pushing a typed result in the unary and binary cases of `execute`:
`switch (type)` with `pushChar((char)v)`, `pushInt((int)v)`, `pushFloat((float)v)` and the
default message. -/
def pushResult (isa : InstructionSet) (fpu : FPU) (k : Kernel) (index procID sp : Int)
    (type : Int) (v : FloatVal) : Kernel :=
  if type = isa.CHAR then
    let r := pushChar k.stack procID sp (v.toChar fpu)
    setSp { k with stack := r.1 } index r.2
  else if type = isa.INT then
    let r := pushInt k.stack procID sp (v.toInt fpu)
    setSp { k with stack := r.1 } index r.2
  else if type = isa.FLOAT then
    let r := pushFloat k.stack procID sp (v.toF32 fpu)
    setSp { k with stack := r.1 } index r.2
  else (setSp k index sp).println "Execute: Default case"

/-- Source `execute`: one instruction of the process in slot `index`.  `millis` is the clock
reading of this step.  `stackP` is a reference to `processTable[index].sp`; the model keeps the
pointer in a local and writes it back where the source writes through the reference. -/
def execute (isa : InstructionSet) (fpu : FPU) (millis : Nat) (k : Kernel) (index : Int) :
    Kernel :=
  let address := (k.processTable index).address
  let procID := (k.processTable index).procID
  let stackP := (k.processTable index).sp
  let c := fetch k index address
  let currentCommand := c.1
  let k := c.2
  if currentCommand = isa.CHAR then
    let t := fetch k index address
    let r := pushChar t.2.stack procID stackP t.1
    setSp { t.2 with stack := r.1 } index r.2
  else if currentCommand = isa.INT then
    let h := fetch k index address
    let l := fetch h.2 index address
    let r := pushInt l.2.stack procID stackP (word h.1 l.1)
    setSp { l.2 with stack := r.1 } index r.2
  else if currentCommand = isa.STRING then
    let s := fetchString index address 12 k []
    let r := pushString s.2.stack procID stackP s.1
    setSp { s.2 with stack := r.1 } index r.2
  else if currentCommand = isa.FLOAT then
    let b3 := fetch k index address
    let b2 := fetch b3.2 index address
    let b1 := fetch b2.2 index address
    let b0 := fetch b1.2 index address
    let r := pushFloat b0.2.stack procID stackP { b0 := b0.1, b1 := b1.1, b2 := b2.1, b3 := b3.1 }
    setSp { b0.2 with stack := r.1 } index r.2
  else if currentCommand = isa.STOP then
    let k := ((k.print (Out.str "Process with pid: ")).print (Out.int procID)).println
      " is finished."
    let k := deleteVars k procID
    let k := stopProcess k procID
    k.print Out.ln
  else if 51 ≤ currentCommand ∧ currentCommand ≤ 52 then
    let t := popByte k.stack procID stackP
    let type : Int := t.1
    let k :=
      if type = isa.CHAR then
        let v := popChar k.stack procID t.2
        (setSp k index v.2).print (Out.char v.1)
      else if type = isa.INT then
        let v := popInt k.stack procID t.2
        (setSp k index v.2).print (Out.int v.1)
      else if type = isa.STRING then
        let size := popByte k.stack procID t.2
        let v := popString k.stack procID size.2 size.1
        (setSp k index v.2).print (Out.bytes (cstr v.1))
      else if type = isa.FLOAT then
        let v := popFloat k.stack procID t.2
        (setSp k index v.2).print (Out.float v.1 5)
      else setSp k index t.2
    if currentCommand = 52 then k.print Out.ln else k
  else if currentCommand = isa.SET then
    let name := fetch k index address
    let r := addMemoryEntry fpu name.2 name.1 procID stackP
    setSp r.1 index r.2
  else if currentCommand = isa.GET then
    let name := fetch k index address
    let r := getMemoryEntry name.2 name.1 procID stackP
    setSp r.1 index r.2
  else if currentCommand = isa.DELAY then k
  else if currentCommand = isa.DELAYUNTIL then
    let t := popByte k.stack procID stackP
    let temp := popInt k.stack procID t.2
    let mil := toInt16 millis
    if temp.1 > mil then
      let k := setPc k index ((k.processTable index).pc - 1)
      let r := pushInt k.stack procID temp.2 temp.1
      setSp { k with stack := r.1 } index r.2
    else setSp k index temp.2
  else if currentCommand = isa.MILLIS then
    let r := pushInt k.stack procID stackP (toInt16 millis)
    setSp { k with stack := r.1 } index r.2
  else if currentCommand = isa.PINMODE then
    let t := popByte k.stack procID stackP
    let direction := popInt k.stack procID t.2
    let t := popByte k.stack procID direction.2
    let pin := popInt k.stack procID t.2
    (setSp k index pin.2).print (Out.pinMode pin.1 direction.1)
  else if currentCommand = isa.DIGITALWRITE then
    let t := popByte k.stack procID stackP
    let status := popInt k.stack procID t.2
    let t := popByte k.stack procID status.2
    let pin := popInt k.stack procID t.2
    (setSp k index pin.2).print (Out.digitalWrite pin.1 status.1)
  else if currentCommand = isa.FORK then
    let type := popByte k.stack procID stackP
    let size := popByte k.stack procID type.2
    let fileName := popString k.stack procID size.2 size.1
    let k := setSp k index fileName.2
    let k := runProcess k fileName.1
    let r := pushInt k.stack procID fileName.2 (toInt16 (procID + 1))
    setSp { k with stack := r.1 } index r.2
  else if currentCommand = isa.WAITUNTILDONE then
    let t := popByte k.stack procID stackP
    let runningID := popInt k.stack procID t.2
    let k := setSp k index runningID.2
    let state := (k.processTable runningID.1).state
    if state = RUNNING ∨ state = PAUSED then
      let k := setPc k procID ((k.processTable procID).pc - 1)
      let r := pushInt k.stack procID runningID.2 runningID.1
      setSp { k with stack := r.1 } index r.2
    else k
  else if 7 ≤ currentCommand ∧ currentCommand ≤ 8 then
    let t := popByte k.stack procID stackP
    let type : Int := t.1
    let value := popVal k.stack procID t.2 type
    let newValue := applyUnary isa fpu currentCommand value.1
    pushResult isa fpu k index procID value.2 type newValue
  else if 9 ≤ currentCommand ∧ currentCommand ≤ 10 then
    let ty := popByte k.stack procID stackP
    let typeY : Int := ty.1
    let y := popVal k.stack procID ty.2 typeY
    let tx := popByte k.stack procID y.2
    let typeX : Int := tx.1
    let x := popVal k.stack procID tx.2 typeY
    let newValue := applyBinary isa fpu currentCommand x.1 y.1
    let returnType := max typeY typeX
    pushResult isa fpu k index procID x.2 returnType newValue
  else k.println "Error. Unkown commandList."

/-- The loop of `runProcesses`; its bound `noOfProc` changes when an instruction stops or
starts a process.  `fuel` bounds the iterations from slot `i`. -/
def runProcessesLoop (isa : InstructionSet) (fpu : FPU) (millis : Nat) :
    Nat → Int → Kernel → Kernel
  | 0, _, k => k
  | fuel + 1, i, k =>
    if i < k.noOfProc then
      let k := if (k.processTable i).state = RUNNING then execute isa fpu millis k i else k
      runProcessesLoop isa fpu millis fuel (i + 1) k
    else k

/-- Source `runProcesses`: one scheduler pass.  The table never holds more than
`PROCESS_TABLE_SIZE` processes after a `runProcess`, so the loop index stays below
`max(noOfProc, PROCESS_TABLE_SIZE)`. -/
def runProcesses (isa : InstructionSet) (fpu : FPU) (millis : Nat) (k : Kernel) : Kernel :=
  runProcessesLoop isa fpu millis (max k.noOfProc PROCESS_TABLE_SIZE).toNat 0 k

/-! ## Scenario states and checks -/

/-- The table whose cells `0, 1, ...` hold the given entries and whose other cells hold
`d`. -/
def tableOf {α : Type} (entries : List α) (d : α) : Int → α :=
  fun i => if 0 ≤ i then entries.getD i.toNat d else d

/-- A zeroed `FATEntry`. -/
def zeroEntry : FATEntry := { name := List.replicate 12 0, beginPosition := 0, length := 0 }

/-- The machine after reset with a zeroed EEPROM: statics are zero-initialised, and so is
the memory around the tables. -/
def boot : Kernel :=
  { eeprom := fun _ => 0
    noOfFiles := 0
    FAT := fun _ => zeroEntry
    noOfVars := 0
    memoryTable := fun _ => { name := 0, type := 0, length := 0, adress := 0, procID := 0 }
    RAM := fun _ => 0
    noOfProc := 0
    processCounter := 0
    processTable := fun _ =>
      { name := List.replicate 12 0, procID := 0, state := 0, sp := 0, pc := 0, fp := 0,
        address := 0 }
    stack := fun _ => 0
    out := [] }

/-- The booted machine whose EEPROM holds the given file table. -/
def diskWith (files : List FATEntry) : Kernel :=
  writeFAT { boot with FAT := tableOf files zeroEntry, noOfFiles := files.length }

/-- A file-table entry for a short name. -/
def fileAt (name : String) (beginPosition length : Int) : FATEntry :=
  { name := strcpy12 (ascii name), beginPosition := beginPosition, length := length }

/-- The last console message is the success message of `storeFile`. -/
def stored (k : Kernel) : Bool :=
  k.out.reverse.take 2 = [Out.ln, Out.str "File has been stored."]

/-- The characters `retrieveFile` prints for a name. -/
def fileContent (k : Kernel) (name : List Nat) : List Nat :=
  (retrieveFile { k with out := [] } name).out.filterMap
    (fun o => match o with
      | Out.char c => some c
      | _ => none)

/-- The valid entries of the in-memory file table as `(first character, begin, length)`. -/
def fatList (k : Kernel) : List (List Nat × Int × Int) :=
  (List.range k.noOfFiles.toNat).map
    (fun i => (cstr (k.FAT i).name, (k.FAT i).beginPosition, (k.FAT i).length))

/-- The size of the persisted table header: the count, then `MAX_PROCESSES` records;
the layout of `writeFAT` and `getFATEntry`. -/
def headerSize : Int := sizeofInt + MAX_PROCESSES * sizeofFATEntry

/-- The three conditions of the file-table invariant on the valid entries, for a reserved
area of `reserved` bytes: each payload starts at or after the reserved area, ends inside the
store, and no two overlap. -/
def fatInvariant (reserved : Int) (k : Kernel) : Bool :=
  (List.range k.noOfFiles.toNat).all (fun (i : Nat) =>
    decide (reserved ≤ (k.FAT i).beginPosition) &&
    decide ((k.FAT i).beginPosition + (k.FAT i).length ≤ EEPROM_length) &&
    (List.range i).all (fun (j : Nat) =>
      decide ((k.FAT j).beginPosition + (k.FAT j).length ≤ (k.FAT i).beginPosition) ||
      decide ((k.FAT i).beginPosition + (k.FAT i).length ≤ (k.FAT j).beginPosition)))

/-- The candidate gaps of the placement algorithm of spec section 4.1, in probing order,
for a table of `n ≥ 1` entries sorted by `begin` and a reserved area of `reserved` bytes:
before the first entry, between adjacent entries, after the last entry. -/
def specGaps (reserved : Int) (FAT : Int → FATEntry) (n : Nat) : List (Int × Int) :=
  [(reserved, (FAT 0).beginPosition)]
    ++ (List.range (n - 1)).map (fun (i : Nat) =>
        ((FAT i).beginPosition + (FAT i).length, (FAT ((i : Int) + 1)).beginPosition))
    ++ [((FAT ((n : Int) - 1)).beginPosition + (FAT ((n : Int) - 1)).length, EEPROM_length)]

/-- Placement as spec section 4.1 words it: sort by `begin`, return the start of the first
gap that is at least `size` long, `-1` (NO_SPACE) when there is none. -/
def specPlace (reserved : Int) (k : Kernel) (size : Int) : Int :=
  match (specGaps reserved (sortFAT k).FAT k.noOfFiles.toNat).find?
      (fun g => decide (g.2 - g.1 ≥ size)) with
  | some g => g.1
  | none => -1

/-- A `store` command on the console, with the one-past-the-buffer byte read as 0. -/
def thenStore (k : Option Kernel) (name : String) (size : Int) (input : List Nat) :
    Option Kernel :=
  k.bind (fun k => storeFile k (ascii name) size input 0)

/-- An `erase` command on the console. -/
def thenErase (k : Option Kernel) (name : String) : Option Kernel :=
  k.map (fun k => eraseFile k (ascii name) zeroEntry)

/-- Scenario 2 of spec section 8 for files of `s` bytes:
`store a s`, `store b s`, `store c s`, `erase b`, `store d s`. -/
def gapRefill (k : Kernel) (s : Int) : Option Kernel :=
  let input := List.replicate s.toNat 120
  thenStore (thenErase (thenStore (thenStore (thenStore (some k) "a" s input) "b" s input)
    "c" s input) "b") "d" s input

/-- Nine files of five bytes, each where `findAvailablePosition` puts it when the files
are stored one after the other. -/
def nineFiles : Kernel :=
  diskWith (["a", "b", "c", "d", "e", "f", "g", "h", "i"].map (fun n => fileAt n 161 5))

/-! ## Tagged values -/

/-- A value of one of the four types of the virtual machine. -/
inductive Value where
  | char (c : Nat)
  | int (i : Int)
  | float (f : F32)
  | string (s : List Nat)
deriving DecidableEq

/-- A CHAR is one byte, an INT a 16-bit value, a FLOAT four bytes, a STRING a sequence of
non-NUL bytes. -/
def Value.valid : Value → Prop
  | Value.char c => c < 256
  | Value.int i => -32768 ≤ i ∧ i ≤ 32767
  | Value.float f => f.b0 < 256 ∧ f.b1 < 256 ∧ f.b2 < 256 ∧ f.b3 < 256
  | Value.string s => ∀ x ∈ s, x ≠ 0 ∧ x < 256

instance (v : Value) : Decidable v.valid := by
  cases v <;> unfold Value.valid <;> infer_instance

/-- The number of stack bytes the push of a value writes. -/
def Value.width : Value → Int
  | Value.char _ => 2
  | Value.int _ => 3
  | Value.float _ => 5
  | Value.string s => s.length + 3

/-- The push of the source that matches the type of the value. -/
def pushValue (stack : Stack) (procID sp : Int) : Value → Stack × Int
  | Value.char c => pushChar stack procID sp c
  | Value.int i => pushInt stack procID sp i
  | Value.float f => pushFloat stack procID sp f
  | Value.string s => pushString stack procID sp (s ++ [0])

/-- The valid entries of the variable table, in table order. -/
def varList (k : Kernel) : List Variable :=
  (List.range k.noOfVars.toNat).map (fun (i : Nat) => k.memoryTable (i : Int))

/-- The arena invariant on the valid entries: each region lies inside the arena and no
two regions overlap. -/
def arenaInvariant (k : Kernel) : Bool :=
  (List.range k.noOfVars.toNat).all (fun (i : Nat) =>
    decide (0 ≤ (k.memoryTable i).adress) &&
    decide ((k.memoryTable i).adress + (k.memoryTable i).length ≤ MAXRAM) &&
    (List.range i).all (fun (j : Nat) =>
      decide ((k.memoryTable j).adress + (k.memoryTable j).length ≤ (k.memoryTable i).adress) ||
      decide ((k.memoryTable i).adress + (k.memoryTable i).length ≤ (k.memoryTable j).adress)))

/-- A floating-point unit for scenarios without FLOAT values. -/
def noFPU : FPU :=
  { add := fun a _ => a, sub := fun a _ => a,
    ofInt := fun _ => { b0 := 0, b1 := 0, b2 := 0, b3 := 0 }, toInt := fun _ => 0 }

/-- The effect of `SET name` by process `procID` on a value pushed at depth `sp`: the push
of the value, then `addMemoryEntry`. -/
def setValue (k : Kernel) (name : Nat) (procID sp : Int) (v : Value) : Kernel × Int :=
  addMemoryEntry noFPU { k with stack := (pushValue k.stack procID sp v).1 } name procID
    (pushValue k.stack procID sp v).2

/-- The booted machine with the given variable table. -/
def arenaWith (vars : List Variable) : Kernel :=
  { boot with
    memoryTable := tableOf vars (boot.memoryTable 0)
    noOfVars := vars.length }

/-- Fifteen variables `a` .. `o` of process 0, each an 11-character string (12 bytes with
the terminating zero), at the addresses `addMemoryEntry` gives them one after the other:
0, 12, ..., 168.  They fill the 180 bytes of the arena. -/
def fifteenStrings : Kernel :=
  arenaWith ((List.range 15).map (fun (i : Nat) =>
    { name := 97 + i, type := 3, length := 12, adress := 12 * (i : Int), procID := 0 }))

/-- Two CHAR variables `x` and `y` of process 0, at the addresses 0 and 1. -/
def twoChars : Kernel :=
  arenaWith [{ name := 120, type := 1, length := 1, adress := 0, procID := 0 },
    { name := 121, type := 1, length := 1, adress := 1, procID := 0 }]

/-! ## Measures and relations used in the proofs about the sort -/

/-- Position-weighted sum of the keys of the first `m` cells; every swap of the sort
increases it. -/
def wsum {α : Type} (key : α → Int) (t : Int → α) : Nat → Int
  | 0 => 0
  | m + 1 => wsum key t m + (m : Int) * key (t (m : Int))

/-- Table `r` holds, outside `[0, n)`, the cells of `t`, and inside `[0, n)` only cells
that `t` holds inside `[0, n)`. -/
def cellsFrom {α : Type} (n : Int) (t r : Int → α) : Prop :=
  (∀ x : Int, x < 0 ∨ n ≤ x → r x = t x) ∧
  (∀ x : Int, 0 ≤ x → x < n → ∃ y : Int, 0 ≤ y ∧ y < n ∧ r x = t y)

/-- The entry `addMemoryEntry` has just written: the last valid one. -/
def lastVar (k : Kernel) : Variable := k.memoryTable (k.noOfVars - 1)

/-- The region of a variable lies inside the arena `RAM[0 .. MAXRAM - 1]`. -/
def insideArena (e : Variable) : Prop := 0 ≤ e.adress ∧ e.adress + e.length ≤ MAXRAM

instance (e : Variable) : Decidable (insideArena e) := by
  unfold insideArena
  infer_instance

/-- No two valid entries of the variable table have the same `(name, procID)`. -/
def uniqueKeys (k : Kernel) : Prop :=
  ∀ i j : Int, 0 ≤ i → i < k.noOfVars → 0 ≤ j → j < k.noOfVars →
    (k.memoryTable i).name = (k.memoryTable j).name →
    (k.memoryTable i).procID = (k.memoryTable j).procID → i = j

/-! ## Scenario machines -/

/-- Opcode numbers used in the scenarios.  `main.cpp` fixes 1 to 4 (the type tags), 7 to 10
and 51, 52 (its `case` ranges); the other numbers are an assumption about
`instruction_set.h`. -/
def instructionSet : InstructionSet :=
  { CHAR := 1, INT := 2, STRING := 3, FLOAT := 4, SET := 5, GET := 6, INCREMENT := 7,
    DECREMENT := 8, PLUS := 9, MINUS := 10, DELAY := 43, DELAYUNTIL := 44, MILLIS := 45,
    PINMODE := 46, DIGITALWRITE := 50, STOP := 135, FORK := 136, WAITUNTILDONE := 137 }

/-- A running process control block with an empty stack at the start of its program. -/
def started (name : String) (procID address : Int) : process :=
  { name := strcpy12 (ascii name), procID := procID, state := RUNNING, sp := 0, pc := 0, fp := 0,
    address := address }

/-- The booted machine with the given process table, two programs in the EEPROM at the
offsets 200 and 210, and the pid counter past the pids in use. -/
def machineWith (procs : List process) (code200 code210 : List Nat) (processCounter : Int) :
    Kernel :=
  { boot with
    eeprom := EEPROM.putBytes (EEPROM.putBytes boot.eeprom 200 code200) 210 code210
    processTable := tableOf procs (boot.processTable 0)
    noOfProc := procs.length
    processCounter := processCounter }

/-- The valid entries of the process table as `(procID, state, pc, sp)`. -/
def procList (k : Kernel) : List (Int × Nat × Int × Int) :=
  (List.range k.noOfProc.toNat).map (fun (i : Nat) =>
    ((k.processTable i).procID, (k.processTable i).state, (k.processTable i).pc,
      (k.processTable i).sp))

/-- Two running processes: pid 0 in slot 0 is about to execute `STOP`, pid 1 in slot 1 is
about to execute `CHAR 'A'`. -/
def stopThenChar : Kernel :=
  machineWith [started "a" 0 200, started "b" 1 210] [135] [1, 65, 135] 2

/-- Pids 1 and 2 in slots 0 and 1 (pid 0 has ended).  Pid 1 has pushed `INT 2` and is about
to execute `WAITUNTILDONE`; pid 2 is running. -/
def waitForTwo : Kernel :=
  let k := machineWith [{ started "p" 1 200 with sp := 3 }, started "q" 2 210] [137, 135]
    [43, 43, 135] 3
  { k with stack := (pushInt k.stack 1 0 2).1 }

/-- The payload size `addMemoryEntry` records for a value: 1, 2 and 4 bytes for CHAR, INT
and FLOAT, the characters and the terminating zero for a STRING. -/
def Value.size : Value → Int
  | Value.char _ => 1
  | Value.int _ => 2
  | Value.float _ => 4
  | Value.string s => s.length + 1

/-- The region of an entry lies inside the arena and does not meet `[g, g + size)`. -/
def clearOf (g size : Int) (e : Variable) : Prop :=
  0 ≤ e.adress ∧ 0 ≤ e.length ∧ e.adress + e.length ≤ MAXRAM ∧
    (g + size ≤ e.adress ∨ e.adress + e.length ≤ g)

/-- Every valid entry of the variable table lies inside the arena, and the arena has a gap
of `size` bytes: a region `[g, g + size)` inside the arena that meets no entry. -/
def hasGap (k : Kernel) (size : Int) : Prop :=
  ∃ g : Int, 0 ≤ g ∧ g + size ≤ MAXRAM ∧
    ∀ i : Int, 0 ≤ i → i < k.noOfVars → clearOf g size (k.memoryTable i)

/-! ## Scenario machines for the interpreter and the file table -/

/-- A disk with the files `p` and `q`: the program of `p` is `STRING "q"`, `FORK`, `STOP`,
the program of `q` is `DELAY`, `STOP`. -/
def forkDisk : Kernel :=
  let k := diskWith [fileAt "p" 200 5, fileAt "q" 210 2]
  { k with
    eeprom := EEPROM.putBytes (EEPROM.putBytes k.eeprom 200 [3, 113, 0, 136, 135]) 210 [43, 135] }

/-- The machine after `run p`, `run q` and one scheduler pass: pid 0 has pushed the string
`q` and is about to execute `FORK`; pid 1 is running. -/
def beforeFork : Kernel :=
  runProcesses instructionSet noFPU 0 (runProcess (runProcess forkDisk (ascii "p")) (ascii "q"))

/-- Pid 0 about to execute `PLUS` with `INT 5`, `CHAR 3` and `INT 300` on its stack
(`INT 300` on top). -/
def mixedOperands : Kernel :=
  let k := machineWith [{ started "p" 0 200 with sp := 8 }] [9, 135] [] 1
  let s := pushInt k.stack 0 0 5
  let s := pushChar s.1 0 s.2 3
  let s := pushInt s.1 0 s.2 300
  { k with stack := s.1 }

/-- Pid 0 with 15 bytes on its stack is about to execute `CHAR 'A'`; pid 1 has pushed
`CHAR 'B'`. -/
def fullRow : Kernel :=
  let k := machineWith [{ started "p" 0 200 with sp := 15 }, { started "q" 1 210 with sp := 2 }]
    [1, 65, 135] [43, 135] 2
  { k with stack := (pushChar k.stack 1 0 66).1 }

/-- A disk with the file `p`, whose program is `CHAR 'A'`, `STOP`. -/
def pDisk : Kernel :=
  let k := diskWith [fileAt "p" 200 3]
  { k with eeprom := EEPROM.putBytes k.eeprom 200 [1, 65, 135] }

/-- The commands `run p`, `kill <pid of that process>`, `n` times. -/
def runAndKill : Nat → Kernel → Kernel
  | 0, k => k
  | n + 1, k => runAndKill n (stopProcess (runProcess k (ascii "p")) k.processCounter)

/-- The machine after ten rounds of `run p`, `kill`, and an eleventh `run p`. -/
def eleventh : Kernel := runProcess (runAndKill 10 pDisk) (ascii "p")

/-- The booted machine (file count 0, zeroed table) with the memory in front of the array
`FAT` holding the given values where `FAT[-1].beginPosition` and `FAT[-1].length` are
read. -/
def beforeTable (beginPosition length : Int) : Kernel :=
  { boot with
    FAT := setCell boot.FAT (-1)
      { name := List.replicate 12 0, beginPosition := beginPosition, length := length } }

/-- The in-memory table of `nineFiles` with a tenth entry of 300 bytes, before it is
written to the EEPROM. -/
def tenEntries : Kernel :=
  let k := readFAT nineFiles
  { k with FAT := setCell k.FAT 9 (fileAt "j" 500 300), noOfFiles := 10 }

/-- The case labels of the `switch` of `execute`, in source order; the compiler accepts the
`switch` only when no two labels are equal. -/
def InstructionSet.caseLabels (isa : InstructionSet) : List Nat :=
  [isa.CHAR, isa.INT, isa.STRING, isa.FLOAT, isa.STOP, 51, 52, isa.SET, isa.GET, isa.DELAY,
    isa.DELAYUNTIL, isa.MILLIS, isa.PINMODE, isa.DIGITALWRITE, isa.FORK, isa.WAITUNTILDONE,
    7, 8, 9, 10]

/-- Pid 0 with `INT 100` on its stack is about to execute `DELAYUNTIL`. -/
def waitingUntil : Kernel :=
  let k := machineWith [{ started "p" 0 200 with sp := 3 }] [44, 135] [] 1
  { k with stack := (pushInt k.stack 0 0 100).1 }

/-- The bytecode of spec section 8, scenario 3, for the operands `a` and `b`:
`INT a`, `INT b`, `PLUS`, `PRINTLN`, `STOP`. -/
def sumProgram (isa : InstructionSet) (a b : Int) : List Nat :=
  [isa.INT, highByte a, lowByte a, isa.INT, highByte b, lowByte b, isa.PLUS, 52, isa.STOP]

/-- The booted machine with the program `INT 5`, `INT 7`, `PLUS`, `PRINTLN`, `STOP` at
offset 200 of the EEPROM, running as pid 0, the only process. -/
def fivePlusSeven : Kernel :=
  machineWith [started "sum" 0 200] (sumProgram instructionSet 5 7) [] 1

/-- The process table holds one process, in slot 0: pid `p`, RUNNING, with its program at
offset `A`, program counter `pc` and stack pointer `sp`; the variable table is empty. -/
def soleProcess (k : Kernel) (p A pc sp : Int) : Prop :=
  k.noOfProc = 1 ∧ k.noOfVars = 0 ∧ (k.processTable 0).procID = p ∧
    (k.processTable 0).state = RUNNING ∧ (k.processTable 0).address = A ∧
    (k.processTable 0).pc = pc ∧ (k.processTable 0).sp = sp

instance (k : Kernel) (p A pc sp : Int) : Decidable (soleProcess k p A pc sp) := by
  unfold soleProcess
  infer_instance

/-- Successive scheduler passes (`runProcesses` is called once per turn of `loop`), one for
each of the given clock readings. -/
def runPasses (isa : InstructionSet) (fpu : FPU) : List Nat → Kernel → Kernel
  | [], k => k
  | m :: ms, k => runPasses isa fpu ms (runProcesses isa fpu m k)

/-- The values a `FATEntry` in memory can have: twelve name bytes, two 16-bit `int`s. -/
def FATEntry.valid (entry : FATEntry) : Prop :=
  entry.name.length = 12 ∧ (∀ c ∈ entry.name, c < 256) ∧
    (-32768 ≤ entry.beginPosition ∧ entry.beginPosition ≤ 32767) ∧
    (-32768 ≤ entry.length ∧ entry.length ≤ 32767)

/-- A disk with the files `a`, `b` and `c`. -/
def threeFiles : Kernel := diskWith [fileAt "a" 200 5, fileAt "b" 300 7, fileAt "c" 400 9]

/-! ## Tables as lists -/

/-- The first `n` cells of a table, in index order. -/
def firstCells {α : Type} (t : Int → α) (n : Int) : List α :=
  (List.range n.toNat).map (fun (i : Nat) => t (i : Int))

/-- The table `twoChars` with `CHAR 'A'` pushed on the empty stack of process 0. -/
def twoCharsPushed : Kernel :=
  { twoChars with stack := (pushValue twoChars.stack 0 0 (Value.char 65)).1 }

/-- Twenty CHAR variables `a` .. `t` of process 0 at the addresses 0 .. 19, each holding
`'0'`: the variable table is full, 160 bytes of the arena are free. -/
def twentyChars : Kernel :=
  let k := arenaWith ((List.range 20).map (fun (i : Nat) =>
    { name := 97 + i, type := 1, length := 1, adress := (i : Int), procID := 0 }))
  { k with RAM := fun a => if 0 ≤ a ∧ a < 20 then 48 else 0 }

/-- The `n` bytes of stack row `p` from offset `sp` upwards. -/
def stackBytes (st : Stack) (p sp : Int) (n : Nat) : List Nat :=
  (List.range n).map (fun (i : Nat) => st (p * STACKSIZE + sp + (i : Int)))

/-- A disk with the file `b` of five bytes at offset 170, holding `HELLO`. -/
def helloAt170 : Kernel :=
  let k := diskWith [fileAt "b" 170 5]
  { k with eeprom := EEPROM.putBytes k.eeprom 170 (ascii "HELLO") }

/-- A full process table: pids 0 .. 9, all RUNNING; no file on the disk. -/
def tenProcs : Kernel :=
  machineWith ((List.range 10).map (fun (i : Nat) => started "p" (i : Int) 200)) [43, 135] [] 10

/-! ## Pids -/

/-- The pids in the process table are fresh: the pids of the first `noOfProc` entries are
pairwise distinct and all smaller than `processCounter`, which is not negative. -/
def pidsFresh (k : Kernel) : Prop :=
  (∀ i j : Int, 0 ≤ i → i < k.noOfProc → 0 ≤ j → j < k.noOfProc →
    (k.processTable i).procID = (k.processTable j).procID → i = j) ∧
  (∀ i : Int, 0 ≤ i → i < k.noOfProc → (k.processTable i).procID < k.processCounter) ∧
  0 ≤ k.processCounter

/-- What the freshness of pids depends on: the number of processes, the pid counter and the
pid of every table cell. -/
def pidView (k : Kernel) : Int × Int × (Int → Int) :=
  (k.noOfProc, k.processCounter, fun i => (k.processTable i).procID)

/-- The pids after a step from `k` to `r`: they are fresh in `r`, the pid counter did not
fall, and a process of `r` whose pid is below the counter of `k` is a process of `k`, so
that every process created by the step has a pid from the counter of `k` on. -/
def pidsAdvance (k r : Kernel) : Prop :=
  pidsFresh r ∧ k.processCounter ≤ r.processCounter ∧
  ∀ i : Int, 0 ≤ i → i < r.noOfProc → (r.processTable i).procID < k.processCounter →
    ∃ j : Int, 0 ≤ j ∧ j < k.noOfProc ∧ (k.processTable j).procID = (r.processTable i).procID

/-- What changes the process table: the shell commands `run`, `suspend`, `resume` and
`kill`, and the turn of one slot in a pass of `runProcesses`, which executes one
instruction of a running process (among them `FORK` and `STOP`). -/
inductive Event where
  | run (name : List Nat)
  | suspend (id : Int)
  | resume (id : Int)
  | kill (id : Int)
  | slot (millis : Nat) (i : Int)

/-- The state after one event.  The turn of slot `i` is the body of the loop of
`runProcesses`. -/
def Event.apply (isa : InstructionSet) (fpu : FPU) : Event → Kernel → Kernel
  | Event.run name, k => runProcess k name
  | Event.suspend id, k => suspendProcess k id
  | Event.resume id, k => resumeProcess k id
  | Event.kill id, k => stopProcess k id
  | Event.slot millis i, k =>
    if i < k.noOfProc then
      if (k.processTable i).state = RUNNING then execute isa fpu millis k i else k
    else k

/-- The state after a sequence of events. -/
def after (isa : InstructionSet) (fpu : FPU) (events : List Event) (k : Kernel) : Kernel :=
  events.foldl (fun k e => Event.apply isa fpu e k) k

/-- The commands `run p`, `kill c`, `run p`, `kill (c + 1)`, ..., `n` rounds. -/
def runKill (c : Int) : Nat → List Event
  | 0 => []
  | n + 1 => Event.run (ascii "p") :: Event.kill c :: runKill (c + 1) n

/-! ## Accesses inside the arrays of the source

The maps of `Kernel` are total, the arrays of the source are not.  The predicates of this
section say that an operation reads and writes only cells the source declares: rows
`0 .. PROCESS_TABLE_SIZE - 1` and positions `0 .. STACKSIZE - 1` of `stack`, `RAM[0 ..
MAXRAM - 1]`, `memoryTable[0 .. MAX_VARIABLES - 1]`, `processTable[0 .. PROCESS_TABLE_SIZE -
1]`, `FAT[0 .. MAX_PROCESSES - 1]`, the 12 bytes of a name buffer.  The one access they let
pass is the read of the entry behind a full table in the shift loops of `deleteVars` and
`stopProcess`, whose value lands in the last cell of the table, outside the valid prefix.
The EEPROM is a device, not an array of the program: its reads are not constrained. -/

/-- The number of pins `pinMode` and `digitalWrite` know on the boards with the ATmega328P
(`NUM_DIGITAL_PINS` of the Arduino core); with another pin number they index their tables
outside. -/
def NUM_DIGITAL_PINS : Int := 20

/-- The stack positions `lo .. hi - 1` of the row of `procID` exist in
`byte stack[PROCESS_TABLE_SIZE][STACKSIZE]`, whose row the source selects by `procID`.
Nothing is asked when no position is touched (`lo = hi`). -/
def rowHolds (procID lo hi : Int) : Prop :=
  lo < hi → 0 ≤ procID ∧ procID < PROCESS_TABLE_SIZE ∧ 0 ≤ lo ∧ hi ≤ STACKSIZE

instance (procID lo hi : Int) : Decidable (rowHolds procID lo hi) := by
  unfold rowHolds
  infer_instance

/-- The bytes `RAM[adress .. adress + size - 1]` exist in `byte RAM[MAXRAM]`. -/
def arenaHolds (adress size : Int) : Prop := 0 ≤ adress ∧ adress + size ≤ MAXRAM

instance (adress size : Int) : Decidable (arenaHolds adress size) := by
  unfold arenaHolds
  infer_instance

/-- The accesses of `addMemoryEntry(name, procID, stackP)` lie inside the arrays.  The count
is not negative.  With a full table the function returns at once; else the pops read
positions of the row of `procID` (from the stack pointer the call returns up to `stackP`), a
payload (type 1 to 4) is written inside the arena, into the region of the entry just added,
and the bytes popped for a STRING hold a zero, so that `strlen` in `saveString` stays inside
them and at most `size` bytes are written. -/
def setInBounds (fpu : FPU) (k : Kernel) (name : Nat) (procID stackP : Int) : Prop :=
  0 ≤ k.noOfVars ∧
  (k.noOfVars < MAX_VARIABLES →
    rowHolds procID (addMemoryEntry fpu k name procID stackP).2 stackP ∧
    ((1 : Int) ≤ (popByte k.stack procID stackP).1 ∧
        ((popByte k.stack procID stackP).1 : Int) ≤ 4 →
      insideArena (lastVar (addMemoryEntry fpu k name procID stackP).1)) ∧
    (((popByte k.stack procID stackP).1 : Int) = 3 →
      0 ∈ (popString k.stack procID (popByte k.stack procID (popByte k.stack procID stackP).2).2
        (popByte k.stack procID (popByte k.stack procID stackP).2).1).1))

instance (fpu : FPU) (k : Kernel) (name : Nat) (procID stackP : Int) :
    Decidable (setInBounds fpu k name procID stackP) := by
  unfold setInBounds
  infer_instance

/-- The accesses of `getMemoryEntry(name, procID, stackP)` lie inside the arrays: the count
is between 0 and `MAX_VARIABLES`, and when the variable is found its payload is read inside
the arena and pushed inside the row of `procID`; the bytes loaded for a STRING hold a zero,
so that `strlen` in `pushString` stays inside them. -/
def getInBounds (k : Kernel) (name : Nat) (procID stackP : Int) : Prop :=
  0 ≤ k.noOfVars ∧ k.noOfVars ≤ MAX_VARIABLES ∧
  (findFileInMemory k name procID ≠ -1 →
    (((k.memoryTable (findFileInMemory k name procID)).type = 1 →
      arenaHolds (k.memoryTable (findFileInMemory k name procID)).adress 1 ∧
      rowHolds procID stackP (stackP + 2)) ∧
    ((k.memoryTable (findFileInMemory k name procID)).type = 2 →
      arenaHolds (k.memoryTable (findFileInMemory k name procID)).adress 2 ∧
      rowHolds procID stackP (stackP + 3)) ∧
    ((k.memoryTable (findFileInMemory k name procID)).type = 3 →
      arenaHolds (k.memoryTable (findFileInMemory k name procID)).adress
        (k.memoryTable (findFileInMemory k name procID)).length ∧
      0 ∈ loadString k.RAM (k.memoryTable (findFileInMemory k name procID)).adress
        (k.memoryTable (findFileInMemory k name procID)).length ∧
      rowHolds procID stackP (getMemoryEntry k name procID stackP).2) ∧
    ((k.memoryTable (findFileInMemory k name procID)).type = 4 →
      arenaHolds (k.memoryTable (findFileInMemory k name procID)).adress 4 ∧
      rowHolds procID stackP (stackP + 5))))

instance (k : Kernel) (name : Nat) (procID stackP : Int) :
    Decidable (getInBounds k name procID stackP) := by
  unfold getInBounds
  infer_instance

/-- The number of stack bytes the `switch` on the result type of a unary or binary
operator pushes: a CHAR, an INT, a FLOAT, or nothing in the default case. -/
def resultWidth (isa : InstructionSet) (type : Int) : Int :=
  if type = isa.CHAR then 2 else if type = isa.INT then 3 else if type = isa.FLOAT then 5 else 0

/-- The accesses of `runProcess(filename)` lie inside the arrays.  With a full table the
function returns at once; else the persisted file count is at most `MAX_PROCESSES`, so that
the search of `getFileInFAT` reads entries of `FAT`, the name is shorter than the 12 bytes of
`newProcess.name` that `strcpy` fills, and the number of processes is not negative. -/
def runInBounds (k : Kernel) (filename : List Nat) : Prop :=
  k.noOfProc < PROCESS_TABLE_SIZE →
    0 ≤ k.noOfProc ∧ EEPROM.getInt k.eeprom 0 ≤ MAX_PROCESSES ∧ strlen filename < 12

instance (k : Kernel) (filename : List Nat) : Decidable (runInBounds k filename) := by
  unfold runInBounds
  infer_instance

/-- The accesses of `getPid`, `changeProcessState` and the shift loop of `stopProcess` lie
inside `processTable`: the number of processes is between 0 and `PROCESS_TABLE_SIZE`. -/
def tableInBounds (k : Kernel) : Prop := 0 ≤ k.noOfProc ∧ k.noOfProc ≤ PROCESS_TABLE_SIZE

instance (k : Kernel) : Decidable (tableInBounds k) := by
  unfold tableInBounds
  infer_instance

/-- The accesses of `deleteVars` lie inside `memoryTable`: the number of variables is
between 0 and `MAX_VARIABLES`. -/
def varsInBounds (k : Kernel) : Prop := 0 ≤ k.noOfVars ∧ k.noOfVars ≤ MAX_VARIABLES

instance (k : Kernel) : Decidable (varsInBounds k) := by
  unfold varsInBounds
  infer_instance

/-- The accesses of `execute(index)` lie inside the arrays; the cases follow the `switch` of
`execute`.  The slot is a slot of `processTable`.  An instruction that pushes or pops does so
inside the row of the pid of the process, between the lowest and the highest value the stack
pointer takes.  The operand of `STRING` has its zero among the 12 bytes of the buffer
`string`.  `SET` and `GET` are `addMemoryEntry` and `getMemoryEntry`.  `STOP` finds the two
tables within their sizes.  The string `FORK` pops holds a zero and a name that
`runProcess` can take.  `WAITUNTILDONE` reads `processTable[runningID]` and writes
`processTable[procID]` inside the table.  `PINMODE` and `DIGITALWRITE` name a pin of the
board.  A unary or binary operator is in the table of operators and pops its operand with a
type `popVal` knows. -/
def executeInBounds (isa : InstructionSet) (fpu : FPU) (k : Kernel) (index : Int) : Prop :=
  let address := (k.processTable index).address
  let procID := (k.processTable index).procID
  let stackP := (k.processTable index).sp
  let c := fetch k index address
  let currentCommand := c.1
  let k := c.2
  0 ≤ index ∧ index < PROCESS_TABLE_SIZE ∧
  (if currentCommand = isa.CHAR then rowHolds procID stackP (stackP + 2)
  else if currentCommand = isa.INT then rowHolds procID stackP (stackP + 3)
  else if currentCommand = isa.STRING then
    let s := fetchString index address 12 k []
    s.1.getLast? = some 0 ∧ rowHolds procID stackP (pushString s.2.stack procID stackP s.1).2
  else if currentCommand = isa.FLOAT then rowHolds procID stackP (stackP + 5)
  else if currentCommand = isa.STOP then varsInBounds k ∧ tableInBounds k
  else if 51 ≤ currentCommand ∧ currentCommand ≤ 52 then
    let t := popByte k.stack procID stackP
    let type : Int := t.1
    if type = isa.CHAR then rowHolds procID (popChar k.stack procID t.2).2 stackP
    else if type = isa.INT then rowHolds procID (popInt k.stack procID t.2).2 stackP
    else if type = isa.STRING then
      let size := popByte k.stack procID t.2
      let v := popString k.stack procID size.2 size.1
      rowHolds procID v.2 stackP ∧ 0 ∈ v.1
    else if type = isa.FLOAT then rowHolds procID (popFloat k.stack procID t.2).2 stackP
    else rowHolds procID t.2 stackP
  else if currentCommand = isa.SET then
    let name := fetch k index address
    setInBounds fpu name.2 name.1 procID stackP
  else if currentCommand = isa.GET then
    let name := fetch k index address
    getInBounds name.2 name.1 procID stackP
  else if currentCommand = isa.DELAY then True
  else if currentCommand = isa.DELAYUNTIL then
    let t := popByte k.stack procID stackP
    let temp := popInt k.stack procID t.2
    rowHolds procID temp.2 stackP
  else if currentCommand = isa.MILLIS then rowHolds procID stackP (stackP + 3)
  else if currentCommand = isa.PINMODE then
    let t := popByte k.stack procID stackP
    let direction := popInt k.stack procID t.2
    let t := popByte k.stack procID direction.2
    let pin := popInt k.stack procID t.2
    rowHolds procID pin.2 stackP ∧ 0 ≤ pin.1 ∧ pin.1 < NUM_DIGITAL_PINS
  else if currentCommand = isa.DIGITALWRITE then
    let t := popByte k.stack procID stackP
    let status := popInt k.stack procID t.2
    let t := popByte k.stack procID status.2
    let pin := popInt k.stack procID t.2
    rowHolds procID pin.2 stackP ∧ 0 ≤ pin.1 ∧ pin.1 < NUM_DIGITAL_PINS
  else if currentCommand = isa.FORK then
    let type := popByte k.stack procID stackP
    let size := popByte k.stack procID type.2
    let fileName := popString k.stack procID size.2 size.1
    rowHolds procID fileName.2 (max stackP (fileName.2 + 3)) ∧ 0 ∈ fileName.1 ∧
      runInBounds k fileName.1
  else if currentCommand = isa.WAITUNTILDONE then
    let t := popByte k.stack procID stackP
    let runningID := popInt k.stack procID t.2
    rowHolds procID runningID.2 stackP ∧ 0 ≤ runningID.1 ∧ runningID.1 < PROCESS_TABLE_SIZE
  else if 7 ≤ currentCommand ∧ currentCommand ≤ 8 then
    let t := popByte k.stack procID stackP
    let type : Int := t.1
    let value := popVal k.stack procID t.2 type
    (isa.INCREMENT = currentCommand ∨ isa.DECREMENT = currentCommand) ∧
      (type = 1 ∨ type = 2 ∨ type = 4) ∧
      rowHolds procID value.2 (max stackP (value.2 + resultWidth isa type))
  else if 9 ≤ currentCommand ∧ currentCommand ≤ 10 then
    let ty := popByte k.stack procID stackP
    let typeY : Int := ty.1
    let y := popVal k.stack procID ty.2 typeY
    let tx := popByte k.stack procID y.2
    let typeX : Int := tx.1
    let x := popVal k.stack procID tx.2 typeY
    (isa.PLUS = currentCommand ∨ isa.MINUS = currentCommand) ∧
      (typeY = 1 ∨ typeY = 2 ∨ typeY = 4) ∧
      rowHolds procID x.2 (max stackP (x.2 + resultWidth isa (max typeY typeX)))
  else True)

instance (isa : InstructionSet) (fpu : FPU) (k : Kernel) (index : Int) :
    Decidable (executeInBounds isa fpu k index) := by
  unfold executeInBounds
  infer_instance

/-- The accesses of an event lie inside the arrays of the source. -/
def Event.inBounds (isa : InstructionSet) (fpu : FPU) : Event → Kernel → Prop
  | Event.run name, k => runInBounds k name
  | Event.suspend _, k => tableInBounds k
  | Event.resume _, k => tableInBounds k
  | Event.kill _, k => tableInBounds k ∧ varsInBounds k
  | Event.slot _ i, k =>
    i < k.noOfProc → 0 ≤ i ∧ i < PROCESS_TABLE_SIZE ∧
      ((k.processTable i).state = RUNNING → executeInBounds isa fpu k i)

instance (isa : InstructionSet) (fpu : FPU) (e : Event) (k : Kernel) :
    Decidable (Event.inBounds isa fpu e k) := by
  cases e <;> unfold Event.inBounds <;> infer_instance

/-- Every event of the sequence, in the state it meets, has its accesses inside the arrays
of the source. -/
def inBoundsFrom (isa : InstructionSet) (fpu : FPU) : List Event → Kernel → Prop
  | [], _ => True
  | e :: es, k => Event.inBounds isa fpu e k ∧ inBoundsFrom isa fpu es (Event.apply isa fpu e k)

instance (isa : InstructionSet) (fpu : FPU) (es : List Event) :
    (k : Kernel) → Decidable (inBoundsFrom isa fpu es k) := by
  induction es with
  | nil => intro k; unfold inBoundsFrom; infer_instance
  | cons e es ih =>
    intro k
    unfold inBoundsFrom
    exact @instDecidableAnd _ _ _ (ih _)

/-- The events of the scenario on `forkDisk`: `run p`; pid 0 pushes the string `q`, executes
`FORK` (which starts pid 1) and, after a turn of pid 1, `STOP`; `kill 1`; `run q`. -/
def forkTrace : List Event :=
  [Event.run (ascii "p"), Event.slot 0 0, Event.slot 0 0, Event.slot 0 1, Event.slot 0 0,
    Event.kill 1, Event.run (ascii "q")]

/-- What the cells outside the arrays of the source hold: the content of `stack`,
`processTable`, `memoryTable`, `RAM` and `FAT` with the cells of the declared arrays blanked.
Two states with the same view differ in no cell that stands for memory outside the
arrays. -/
def outsideView (k : Kernel) :
    (Int → Nat) × (Int → process) × (Int → Variable) × (Int → Nat) × (Int → FATEntry) :=
  (fun a => if 0 ≤ a ∧ a < PROCESS_TABLE_SIZE * STACKSIZE then 0 else k.stack a,
    fun i => if 0 ≤ i ∧ i < PROCESS_TABLE_SIZE then boot.processTable 0 else k.processTable i,
    fun i => if 0 ≤ i ∧ i < MAX_VARIABLES then boot.memoryTable 0 else k.memoryTable i,
    fun a => if 0 ≤ a ∧ a < MAXRAM then 0 else k.RAM a,
    fun i => if 0 ≤ i ∧ i < MAX_PROCESSES then zeroEntry else k.FAT i)

/-! # Theorems -/

/-! ## File table -/

set_option maxRecDepth 100000 in
/-- C1 (defect in the code): with nine files in the table, `store j 5` with input bytes
`1 2 3 4 5` succeeds, and `retrieve j` then prints 261 bytes instead of those five.  The new
file is placed at offset 161 and becomes entry 9; its first data byte lands on the last byte
of the table header (offset 161, the high byte of entry 9's `length`). -/
theorem storeFile_retrieveFile_tenth_file :
    (storeFile nineFiles (ascii "j") 5 [1, 2, 3, 4, 5] 0).map stored = some true ∧
    (storeFile nineFiles (ascii "j") 5 [1, 2, 3, 4, 5] 0).map
        (fun k => (fatList (readFAT k)).drop 9) = some [([106], 161, 261)] ∧
    (storeFile nineFiles (ascii "j") 5 [1, 2, 3, 4, 5] 0).map
        (fun k => (fileContent k (ascii "j")).length) = some 261 ∧
    (storeFile nineFiles (ascii "j") 5 [1, 2, 3, 4, 5] 0).map
        (fun k => (fileContent k (ascii "j")).take 5) = some [1, 2, 3, 4, 5] := by
  decide

set_option maxRecDepth 100000 in
/-- C2 (defect in the code): a table holding the single file `a` at `[161, 166)` (where the
code puts the first file), or at `[162, 167)` (right after the 162 bytes of the header),
satisfies the three conditions of the invariant.  `store b 5` succeeds and puts `b` at
`[161, 166)`, on top of `a`: the table no longer satisfies them, whether the reserved area
is taken as the 161 bytes of `systemMemory` or as the 162 bytes of the header. -/
theorem storeFile_overlaps_existing_file :
    fatInvariant systemMemory (readFAT (diskWith [fileAt "a" 161 5])) = true ∧
    (storeFile (diskWith [fileAt "a" 161 5]) (ascii "b") 5 [1, 2, 3, 4, 5] 0).map stored
      = some true ∧
    (storeFile (diskWith [fileAt "a" 161 5]) (ascii "b") 5 [1, 2, 3, 4, 5] 0).map
        (fun k => fatList (readFAT k)) = some [([97], 161, 5), ([98], 161, 5)] ∧
    (storeFile (diskWith [fileAt "a" 161 5]) (ascii "b") 5 [1, 2, 3, 4, 5] 0).map
        (fun k => fatInvariant systemMemory (readFAT k)) = some false ∧
    fatInvariant headerSize (readFAT (diskWith [fileAt "a" 162 5])) = true ∧
    (storeFile (diskWith [fileAt "a" 162 5]) (ascii "b") 5 [1, 2, 3, 4, 5] 0).map stored
      = some true ∧
    (storeFile (diskWith [fileAt "a" 162 5]) (ascii "b") 5 [1, 2, 3, 4, 5] 0).map
        (fun k => fatList (readFAT k)) = some [([98], 161, 5), ([97], 162, 5)] ∧
    (storeFile (diskWith [fileAt "a" 162 5]) (ascii "b") 5 [1, 2, 3, 4, 5] 0).map
        (fun k => (fatInvariant systemMemory (readFAT k), fatInvariant headerSize (readFAT k)))
      = some (false, false) := by
  decide

set_option maxRecDepth 100000 in
/-- C3 (defect in the code): on the table holding the single file `a` at `[161, 166)`,
`findAvailablePosition(5)` returns 161, the start of `a`; the first gap of at least five
bytes in the spec's probing order is the trailing gap, which starts at 166.  The same holds
for `a` at `[162, 167)`: the code returns 161, the first fitting gap starts at 167, whether
the reserved area is taken as 161 or as 162 bytes. -/
theorem findAvailablePosition_first_gap :
    (findAvailablePosition (readFAT (diskWith [fileAt "a" 161 5])) 5).2 = 161 ∧
    specGaps systemMemory (readFAT (diskWith [fileAt "a" 161 5])).FAT 1
      = [(161, 161), (166, 1024)] ∧
    specPlace systemMemory (readFAT (diskWith [fileAt "a" 161 5])) 5 = 166 ∧
    (findAvailablePosition (readFAT (diskWith [fileAt "a" 162 5])) 5).2 = 161 ∧
    specPlace systemMemory (readFAT (diskWith [fileAt "a" 162 5])) 5 = 167 ∧
    specPlace headerSize (readFAT (diskWith [fileAt "a" 162 5])) 5 = 167 := by
  decide

set_option maxRecDepth 100000 in
/-- C4 (defect in the code): scenario 2 of the spec with files of 3 bytes, from a zeroed
EEPROM and from an empty table that still holds the record of an erased file: every file is
placed at offset 161, so `d.begin = a.begin` instead of `a.begin + 3`, and the table in
ascending `begin` order is `[a, c, d]`. -/
theorem gapRefill_places_d_on_a :
    (gapRefill boot 3).map (fun k => fatList (readFAT k))
      = some [([97], 161, 3), ([99], 161, 3), ([100], 161, 3)] ∧
    (readFAT (eraseFile (diskWith [fileAt "z" 161 3]) (ascii "z") zeroEntry)).noOfFiles = 0 ∧
    (gapRefill (eraseFile (diskWith [fileAt "z" 161 3]) (ascii "z") zeroEntry) 3).map
        (fun k => fatList (readFAT k))
      = some [([97], 161, 3), ([99], 161, 3), ([100], 161, 3)] := by
  decide

/-! ## Operand stacks -/

/-- `word` undoes `highByte` and `lowByte` on every 16-bit value. -/
theorem word_highByte_lowByte (i : Int) (h1 : -32768 ≤ i) (h2 : i ≤ 32767) :
    word (highByte i) (lowByte i) = i := by
  unfold word highByte lowByte toInt16
  omega

/-- A NUL-free string followed by its terminator reads back as itself. -/
theorem cstr_append_zero (s : List Nat) (hs : ∀ c ∈ s, c ≠ 0) : cstr (s ++ [0]) = s := by
  induction s with
  | nil => simp [cstr]
  | cons a t ih =>
    have ha : a ≠ 0 := hs a (by simp)
    have := ih (fun c hc => hs c (by simp [hc]))
    simp [cstr, List.takeWhile_cons, ha] at this ⊢
    exact this

/-- The character loop of `pushString` writes the characters at `sp, sp + 1, ...` and
nothing else. -/
theorem pushBytes_spec (p : Int) (cs : List Nat) : ∀ (st : Stack) (sp : Int),
    (pushBytes st p sp cs).2 = sp + cs.length ∧
    (∀ a : Int, a < p * STACKSIZE + sp ∨ p * STACKSIZE + sp + cs.length ≤ a →
      (pushBytes st p sp cs).1 a = st a) ∧
    (∀ (k : Nat) (hk : k < cs.length),
      (pushBytes st p sp cs).1 (p * STACKSIZE + sp + (k : Int)) = cs[k] % 256) := by
  induction cs with
  | nil => intro st sp; simp [pushBytes]
  | cons c cs ih =>
    intro st sp
    obtain ⟨h1, h2, h3⟩ := ih (pushByte st p sp c).1 (pushByte st p sp c).2
    refine ⟨?_, ?_, ?_⟩
    · simp only [pushBytes, h1]; simp [pushByte]; omega
    · intro a ha
      simp only [pushBytes]
      rw [h2 a (by simp [pushByte] at ha ⊢; omega)]
      simp [pushByte, setCell]; intro h; simp at ha; omega
    · intro k hk
      simp only [pushBytes]
      cases k with
      | zero =>
        rw [h2 _ (by simp [pushByte])]
        simp [pushByte, setCell]
      | succ k =>
        have := h3 k (by simpa using hk)
        simp only [pushByte] at this
        simp only [pushByte, List.getElem_cons_succ]
        have e : p * STACKSIZE + sp + ((k + 1 : Nat) : Int) = p * STACKSIZE + (sp + 1) + (k : Int) := by
          push_cast; ring
        rw [e, this]

/-- The loop of `popString` returns the `n` cells below `sp`, lowest first. -/
theorem popStringLoop_spec (st : Stack) (p : Int) (n : Nat) : ∀ (sp : Int) (temp : List Nat),
    popStringLoop st p n sp temp =
      ((List.range n).map (fun (k : Nat) => st (p * STACKSIZE + (sp - (n : Int)) + (k : Int)) % 256)
        ++ temp, sp - (n : Int)) := by
  induction n with
  | zero => intro sp temp; simp [popStringLoop]
  | succ n ih =>
    intro sp temp
    simp only [popStringLoop, popByte, ih, List.range_succ, List.map_append, List.map_cons,
      List.map_nil, List.append_assoc, List.singleton_append]
    refine Prod.ext ?_ ?_
    · simp only
      congr 1
      · apply List.map_congr_left; intro k _; congr 2; push_cast; ring
      · congr 2; congr 1; push_cast; ring
    · simp only; push_cast; ring

/-- C5: operand-stack round trip.  On every stack row `p` and at every depth `sp` that
leaves room for the value, pushing a CHAR, an INT, a FLOAT or a NUL-free STRING, then popping
the tag byte (for STRING also the length byte) and calling the matching pop returns the
value pushed (for STRING the characters followed by the terminating zero) and leaves `sp`
where it was before the push. -/
theorem push_pop_roundtrip (stack : Stack) (p sp : Int) (c : Nat) (i : Int) (f : F32)
    (s : List Nat) (hp : 0 ≤ p ∧ p < PROCESS_TABLE_SIZE) (hsp : 0 ≤ sp) (hc : c < 256)
    (hi : -32768 ≤ i ∧ i ≤ 32767)
    (hf : f.b0 < 256 ∧ f.b1 < 256 ∧ f.b2 < 256 ∧ f.b3 < 256)
    (hs : ∀ x ∈ s, x ≠ 0 ∧ x < 256) :
    (sp + 2 ≤ STACKSIZE →
      let r := pushChar stack p sp c
      let tag := popByte r.1 p r.2
      tag.1 = 1 ∧ popChar r.1 p tag.2 = (c, sp)) ∧
    (sp + 3 ≤ STACKSIZE →
      let r := pushInt stack p sp i
      let tag := popByte r.1 p r.2
      tag.1 = 2 ∧ popInt r.1 p tag.2 = (i, sp)) ∧
    (sp + 5 ≤ STACKSIZE →
      let r := pushFloat stack p sp f
      let tag := popByte r.1 p r.2
      tag.1 = 4 ∧ popFloat r.1 p tag.2 = (f, sp)) ∧
    (sp + (s.length : Int) + 3 ≤ STACKSIZE →
      let r := pushString stack p sp (s ++ [0])
      let tag := popByte r.1 p r.2
      let len := popByte r.1 p tag.2
      tag.1 = 3 ∧ len.1 = s.length + 1 ∧ popString r.1 p len.2 len.1 = (s ++ [0], sp)) := by
  refine ⟨?_, ?_, ?_, ?_⟩
  · intro _
    have e1 : ¬ (p * STACKSIZE + (sp + 1 - 1) = p * STACKSIZE + (sp + 1)) := by omega
    simp [pushChar, pushByte, popByte, popChar, setCell, e1, Nat.mod_eq_of_lt hc]
  · intro _
    have hw := word_highByte_lowByte i hi.1 hi.2
    have hl : lowByte i < 256 := by unfold lowByte; omega
    have hh : highByte i < 256 := by unfold highByte; omega
    have e2 : ¬ sp = sp + 1 + 1 := by omega
    simp [pushInt, pushByte, popByte, popInt, setCell, Nat.mod_eq_of_lt hl, Nat.mod_eq_of_lt hh,
      e2, hw]
  · intro _
    have e2 : ¬ sp = sp + 1 + 1 := by omega
    have e3 : ¬ sp = sp + 1 + 1 + 1 := by omega
    have e4 : ¬ sp = sp + 1 + 1 + 1 + 1 := by omega
    simp [pushFloat, pushByte, popByte, popFloat, setCell, Nat.mod_eq_of_lt hf.1,
      Nat.mod_eq_of_lt hf.2.1, Nat.mod_eq_of_lt hf.2.2.1, Nat.mod_eq_of_lt hf.2.2.2, e2, e3, e4]
  · intro hroom
    have hnz : ∀ x ∈ s, x ≠ 0 := fun x hx => (hs x hx).1
    have hlen : s.length + 1 < 256 := by
      have : STACKSIZE = 16 := rfl
      omega
    obtain ⟨h1, h2, h3⟩ := pushBytes_spec p s stack sp
    simp only [pushString, strlen, cstr_append_zero s hnz]
    simp only [pushByte, popByte, h1, setCell]
    have a1 : ∀ x : Int, x + 1 + 1 + 1 - 1 = x + 1 + 1 := fun x => by ring
    have a2 : ∀ x : Int, x + 1 + 1 - 1 = x + 1 := fun x => by ring
    have e1 : ¬ (p * STACKSIZE + (sp + ↑s.length + 1) = p * STACKSIZE + (sp + ↑s.length + 1 + 1)) := by omega
    have m1 : (s.length + 1) % 256 = s.length + 1 := Nat.mod_eq_of_lt hlen
    simp only [a1, a2, if_true, e1, if_false, true_and, m1, Nat.mod_mod]
    unfold popString
    rw [popStringLoop_spec]
    simp only [Int.toNat_ofNat, List.append_nil, setCell]
    refine Prod.ext ?_ (by simp only; push_cast; ring)
    simp only
    apply List.ext_getElem
    · simp
    · intro k hk1 hk2
      simp only [List.getElem_map, List.getElem_range]
      simp only [List.length_map, List.length_range] at hk1
      have n1 : ¬ (p * STACKSIZE + (sp + ↑s.length + 1 - ((s.length + 1 : Nat) : Int)) + (k : Int)
          = p * STACKSIZE + (sp + ↑s.length + 1 + 1)) := by push_cast; omega
      have n2 : ¬ (p * STACKSIZE + (sp + ↑s.length + 1 - ((s.length + 1 : Nat) : Int)) + (k : Int)
          = p * STACKSIZE + (sp + ↑s.length + 1)) := by push_cast; omega
      simp only [n1, n2, if_false]
      by_cases hk : k < s.length
      · have n3 : ¬ (p * STACKSIZE + (sp + ↑s.length + 1 - ((s.length + 1 : Nat) : Int)) + (k : Int)
            = p * STACKSIZE + (sp + ↑s.length)) := by push_cast; omega
        have n4 : p * STACKSIZE + (sp + ↑s.length + 1 - ((s.length + 1 : Nat) : Int)) + (k : Int)
            = p * STACKSIZE + sp + (k : Int) := by push_cast; ring
        have n5 : ¬ (p * STACKSIZE + sp + (k : Int) = p * STACKSIZE + (sp + ↑s.length)) := by omega
        simp only [n4, n5, if_false, h3 k hk, Nat.mod_mod, List.getElem_append_left hk]
        exact Nat.mod_eq_of_lt (hs _ (List.getElem_mem _)).2
      · have hk3 : k = s.length := by omega
        subst hk3
        have n3 : p * STACKSIZE + (sp + ↑s.length + 1 - ((s.length + 1 : Nat) : Int)) + (s.length : Int)
            = p * STACKSIZE + (sp + ↑s.length) := by push_cast; ring
        have n6 : p * STACKSIZE + sp + (s.length : Int) = p * STACKSIZE + (sp + ↑s.length) := by ring
        simp [n3, n6]

/-- Instance of `push_pop_roundtrip`: row 1 at depth 2 with the values `'A'`, `-2`, the
bytes `1 2 3 4` and the string `"hi"`. -/
theorem push_pop_roundtrip_witness :
    (let r := pushChar boot.stack 1 2 65
      let tag := popByte r.1 1 r.2
      tag.1 = 1 ∧ popChar r.1 1 tag.2 = (65, 2)) ∧
    (let r := pushInt boot.stack 1 2 (-2)
      let tag := popByte r.1 1 r.2
      tag.1 = 2 ∧ popInt r.1 1 tag.2 = (-2, 2)) ∧
    (let r := pushFloat boot.stack 1 2 { b0 := 1, b1 := 2, b2 := 3, b3 := 4 }
      let tag := popByte r.1 1 r.2
      tag.1 = 4 ∧ popFloat r.1 1 tag.2 = ({ b0 := 1, b1 := 2, b2 := 3, b3 := 4 }, 2)) ∧
    (let r := pushString boot.stack 1 2 ([104, 105] ++ [0])
      let tag := popByte r.1 1 r.2
      let len := popByte r.1 1 tag.2
      tag.1 = 3 ∧ len.1 = [104, 105].length + 1 ∧
        popString r.1 1 len.2 len.1 = ([104, 105] ++ [0], 2)) :=
  have h := push_pop_roundtrip boot.stack 1 2 65 (-2) { b0 := 1, b1 := 2, b2 := 3, b3 := 4 }
    [104, 105] (by decide) (by decide) (by decide) (by decide) (by decide) (by decide)
  ⟨h.1 (by decide), h.2.1 (by decide), h.2.2.1 (by decide), h.2.2.2 (by decide)⟩

/-! ## Sorting, lookup and allocation in the variable table -/

theorem cellsFrom_refl {α : Type} (n : Int) (t : Int → α) : cellsFrom n t t :=
  ⟨fun _ _ => rfl, fun x h0 h1 => ⟨x, h0, h1, rfl⟩⟩

theorem cellsFrom_trans {α : Type} {n : Int} {t r q : Int → α} (h1 : cellsFrom n t r)
    (h2 : cellsFrom n r q) : cellsFrom n t q := by
  refine ⟨fun x hx => (h2.1 x hx).trans (h1.1 x hx), fun x h0 hn => ?_⟩
  obtain ⟨y, hy0, hyn, hy⟩ := h2.2 x h0 hn
  obtain ⟨z, hz0, hzn, hz⟩ := h1.2 y hy0 hyn
  exact ⟨z, hz0, hzn, hy.trans hz⟩

theorem cellsFrom_swapAt {α : Type} (n : Int) (t : Int → α) (i : Int) (h0 : 0 ≤ i)
    (h1 : i + 1 < n) : cellsFrom n t (swapAt t i) := by
  refine ⟨fun x hx => ?_, fun x hx0 hxn => ?_⟩
  · have e1 : ¬ x = i := by omega
    have e2 : ¬ x = i + 1 := by omega
    simp [swapAt, e1, e2]
  · by_cases e1 : x = i
    · exact ⟨i + 1, by omega, h1, by simp [swapAt, e1]⟩
    · by_cases e2 : x = i + 1
      · exact ⟨i, h0, by omega, by simp [swapAt, e1, e2]⟩
      · exact ⟨x, hx0, hxn, by simp [swapAt, e1, e2]⟩

theorem bubblePass_cellsFrom {α : Type} (key : α → Int) (n : Int) (cnt : Nat) :
    ∀ (i : Int) (t : Int → α) (sorted : Bool), 0 ≤ i → (cnt ≠ 0 → i + cnt ≤ n - 1) →
      cellsFrom n t (bubblePass key cnt i (t, sorted)).1 := by
  induction cnt with
  | zero => intro i t sorted _ _; exact cellsFrom_refl n t
  | succ cnt ih =>
    intro i t sorted h0 h1
    have h1 := h1 (by simp)
    push_cast at h1
    simp only [bubblePass]
    split
    · exact cellsFrom_trans (cellsFrom_swapAt n t i h0 (by omega))
        (ih (i + 1) _ false (by omega) (fun _ => by omega))
    · exact ih (i + 1) t sorted (by omega) (fun _ => by omega)

theorem bubbleLoop_cellsFrom {α : Type} (key : α → Int) (n : Int) (fuel : Nat) :
    ∀ (t r : Int → α), bubbleLoop key n fuel t = some r → cellsFrom n t r := by
  induction fuel with
  | zero => intro t r h; simp [bubbleLoop] at h
  | succ fuel ih =>
    intro t r h
    have hp : cellsFrom n t (bubblePass key (n - 1).toNat 0 (t, true)).1 :=
      bubblePass_cellsFrom key n _ 0 t true (le_refl 0) (fun h => by omega)
    simp only [bubbleLoop] at h
    split at h
    · cases h; exact hp
    · exact cellsFrom_trans hp (ih _ _ h)

theorem bubbleSort_cellsFrom {α : Type} (key : α → Int) (n : Int) (t : Int → α) :
    cellsFrom n t (bubbleSort key n t) := by
  unfold bubbleSort
  split
  · next r h => exact bubbleLoop_cellsFrom key n _ t r h
  · exact cellsFrom_refl n t
theorem wsum_congr {α : Type} (key : α → Int) (t r : Int → α) (m : Nat)
    (h : ∀ x : Nat, x < m → r (x : Int) = t (x : Int)) : wsum key r m = wsum key t m := by
  induction m with
  | zero => rfl
  | succ m ih =>
    simp only [wsum]
    rw [ih (fun x hx => h x (by omega)), h m (by omega)]

theorem absSum_congr {α : Type} (key : α → Int) (t r : Int → α) (m : Nat)
    (h : ∀ x : Nat, x < m → r (x : Int) = t (x : Int)) : absSum key r m = absSum key t m := by
  induction m with
  | zero => rfl
  | succ m ih =>
    simp only [absSum]
    rw [ih (fun x hx => h x (by omega)), h m (by omega)]

theorem swapAt_left {α : Type} (t : Int → α) (i : Int) : swapAt t i i = t (i + 1) := by
  simp [swapAt]

theorem swapAt_right {α : Type} (t : Int → α) (i : Int) : swapAt t i (i + 1) = t i := by
  simp [swapAt]

theorem swapAt_other {α : Type} (t : Int → α) (i x : Int) (h1 : x ≠ i) (h2 : x ≠ i + 1) :
    swapAt t i x = t x := by
  simp [swapAt, h1, h2]

theorem wsum_swapAt {α : Type} (key : α → Int) (t : Int → α) (a d : Nat) :
    wsum key (swapAt t (a : Int)) (a + 2 + d)
      = wsum key t (a + 2 + d) + (key (t (a : Int)) - key (t ((a : Int) + 1))) := by
  induction d with
  | zero =>
    have h0 : wsum key (swapAt t (a : Int)) a = wsum key t a :=
      wsum_congr key t _ a (fun x hx => swapAt_other t a x (by omega) (by omega))
    have e : ((a + 1 : Nat) : Int) = (a : Int) + 1 := by push_cast; ring
    simp only [Nat.add_zero, wsum, h0, swapAt_left, e, swapAt_right]
    ring
  | succ d ih =>
    have e : a + 2 + (d + 1) = (a + 2 + d) + 1 := by ring
    rw [e]
    simp only [wsum, ih]
    rw [swapAt_other t a _ (by push_cast; omega) (by push_cast; omega)]
    ring

theorem absSum_swapAt {α : Type} (key : α → Int) (t : Int → α) (a d : Nat) :
    absSum key (swapAt t (a : Int)) (a + 2 + d) = absSum key t (a + 2 + d) := by
  induction d with
  | zero =>
    have h0 : absSum key (swapAt t (a : Int)) a = absSum key t a :=
      absSum_congr key t _ a (fun x hx => swapAt_other t a x (by omega) (by omega))
    have e : ((a + 1 : Nat) : Int) = (a : Int) + 1 := by push_cast; ring
    simp only [Nat.add_zero, absSum, h0, swapAt_left, e, swapAt_right]
    ring
  | succ d ih =>
    have e : a + 2 + (d + 1) = (a + 2 + d) + 1 := by ring
    rw [e]
    simp only [absSum, ih]
    rw [swapAt_other t a _ (by push_cast; omega) (by push_cast; omega)]

theorem wsum_bounds {α : Type} (key : α → Int) (t : Int → α) (m : Nat) :
    -((m : Int) * (absSum key t m : Int)) ≤ wsum key t m ∧
    wsum key t m ≤ (m : Int) * (absSum key t m : Int) := by
  induction m with
  | zero => simp [wsum, absSum]
  | succ m ih =>
    simp only [wsum, absSum]
    have h1 : |key (t (m : Int))| = ((key (t (m : Int))).natAbs : Int) := Int.abs_eq_natAbs _
    have h2 := abs_le.mp (le_of_eq h1)
    have h3 : (0 : Int) ≤ (absSum key t m : Int) := Int.ofNat_nonneg _
    have h4 : (0 : Int) ≤ (m : Int) := Int.ofNat_nonneg _
    have h5 : (0 : Int) ≤ ((key (t (m : Int))).natAbs : Int) := Int.ofNat_nonneg _
    push_cast
    constructor
    · nlinarith [mul_nonneg h4 h5, mul_nonneg h4 (sub_nonneg.mpr h2.2), mul_nonneg h4 (sub_nonneg.mpr (neg_le.mp h2.1)), ih.1, ih.2]
    · nlinarith [mul_nonneg h4 h5, mul_nonneg h4 (sub_nonneg.mpr h2.2), mul_nonneg h4 (sub_nonneg.mpr (neg_le.mp h2.1)), ih.1, ih.2]
theorem bubblePass_measure {α : Type} (key : α → Int) (m : Nat) (cnt : Nat) :
    ∀ (i : Nat) (t : Int → α) (sorted : Bool), (cnt ≠ 0 → i + cnt + 1 ≤ m) →
      absSum key (bubblePass key cnt (i : Int) (t, sorted)).1 m = absSum key t m ∧
      wsum key t m ≤ wsum key (bubblePass key cnt (i : Int) (t, sorted)).1 m ∧
      ((bubblePass key cnt (i : Int) (t, sorted)).2 = false →
        sorted = false ∨ wsum key t m + 1 ≤ wsum key (bubblePass key cnt (i : Int) (t, sorted)).1 m) := by
  induction cnt with
  | zero => intro i t sorted _; simp [bubblePass]
  | succ cnt ih =>
    intro i t sorted h
    have h := h (by simp)
    have e : ((i : Int) + 1) = ((i + 1 : Nat) : Int) := by push_cast; ring
    simp only [bubblePass]
    split
    · next hgt =>
      obtain ⟨d, hd⟩ : ∃ d, m = i + 2 + d := ⟨m - (i + 2), by omega⟩
      have hw := wsum_swapAt key t i d
      have ha := absSum_swapAt key t i d
      rw [← hd] at hw ha
      rw [e]
      obtain ⟨h1, h2, _⟩ := ih (i + 1) (swapAt t (i : Int)) false (fun _ => by omega)
      refine ⟨h1.trans ha, by omega, fun _ => Or.inr (by omega)⟩
    · rw [e]
      exact ih (i + 1) t sorted (fun _ => by omega)

theorem bubbleLoop_terminates_aux {α : Type} (key : α → Int) (n : Int) (fuel : Nat) :
    ∀ t : Int → α,
      (n.toNat : Int) * (absSum key t n.toNat : Int) - wsum key t n.toNat < (fuel : Int) →
      ∃ r, bubbleLoop key n fuel t = some r := by
  induction fuel with
  | zero =>
    intro t h
    have := (wsum_bounds key t n.toNat).2
    omega
  | succ fuel ih =>
    intro t h
    obtain ⟨h1, h2, h3⟩ := bubblePass_measure key n.toNat (n - 1).toNat 0 t true
      (fun _ => by omega)
    simp only [bubbleLoop]
    split
    · exact ⟨_, rfl⟩
    · next hs =>
      have hs : (bubblePass key (n - 1).toNat 0 (t, true)).2 = false := by
        simpa using hs
      have h4 := h3 hs
      simp only [Bool.true_eq_false, false_or] at h4
      apply ih
      simp only [Nat.cast_zero] at h1 h4 ⊢
      rw [h1]
      push_cast at h ⊢
      omega

theorem bubbleLoop_terminates {α : Type} (key : α → Int) (n : Int) (t : Int → α) :
    bubbleLoop key n (bubbleFuel key n t) t = some (bubbleSort key n t) := by
  have h : ∃ r, bubbleLoop key n (bubbleFuel key n t) t = some r := by
    apply bubbleLoop_terminates_aux
    have h1 := (wsum_bounds key t n.toNat).1
    have h2 : (0 : Int) ≤ (n.toNat : Int) * (absSum key t n.toNat : Int) :=
      mul_nonneg (Int.ofNat_nonneg _) (Int.ofNat_nonneg _)
    unfold bubbleFuel
    push_cast
    nlinarith
  obtain ⟨r, hr⟩ := h
  unfold bubbleSort
  rw [hr]
theorem findVar_spec (t : Int → Variable) (name : Nat) (procID : Int) (cnt : Nat) :
    ∀ i : Int, 0 ≤ i →
      (findVar t name procID cnt i = -1 ∧
        ∀ j : Int, i ≤ j → j < i + cnt → ¬ ((t j).name = name ∧ (t j).procID = procID)) ∨
      (i ≤ findVar t name procID cnt i ∧ findVar t name procID cnt i < i + cnt ∧
        ((t (findVar t name procID cnt i)).name = name ∧
          (t (findVar t name procID cnt i)).procID = procID) ∧
        ∀ j : Int, i ≤ j → j < findVar t name procID cnt i →
          ¬ ((t j).name = name ∧ (t j).procID = procID)) := by
  induction cnt with
  | zero =>
    intro i _
    left
    exact ⟨rfl, fun j h1 h2 => by simp at h2; omega⟩
  | succ cnt ih =>
    intro i hi
    simp only [findVar]
    split
    · next hm =>
      right
      exact ⟨le_refl _, by push_cast; omega, hm, fun j h1 h2 => by omega⟩
    · next hm =>
      rcases ih (i + 1) (by omega) with ⟨h1, h2⟩ | ⟨h1, h2, h3, h4⟩
      · left
        refine ⟨h1, fun j hj1 hj2 => ?_⟩
        by_cases e : j = i
        · subst e; exact hm
        · exact h2 j (by omega) (by push_cast at hj2; omega)
      · right
        refine ⟨by omega, by push_cast; omega, h3, fun j hj1 hj2 => ?_⟩
        by_cases e : j = i
        · subst e; exact hm
        · exact h4 j (by omega) hj2

theorem shiftLoop_spec (cnt : Nat) : ∀ (i : Int) (k : Kernel),
    forLoopAux (fun i k => { k with memoryTable := setCell k.memoryTable i (k.memoryTable (i + 1)) })
        cnt i k
      = { k with memoryTable := fun j =>
            if i ≤ j ∧ j < i + cnt then k.memoryTable (j + 1) else k.memoryTable j } := by
  induction cnt with
  | zero =>
    intro i k
    simp only [forLoopAux]
    have : (fun j => if i ≤ j ∧ j < i + ((0 : Nat) : Int) then k.memoryTable (j + 1)
        else k.memoryTable j) = k.memoryTable := by
      funext j
      have : ¬ (i ≤ j ∧ j < i + ((0 : Nat) : Int)) := by push_cast; omega
      simp [this]
    rw [this]
  | succ cnt ih =>
    intro i k
    simp only [forLoopAux, ih]
    congr 1
    funext j
    simp only [setCell]
    by_cases h1 : j = i
    · subst h1
      have a1 : ¬ (j + 1 ≤ j ∧ j < j + 1 + (cnt : Int)) := by omega
      have a2 : (j ≤ j ∧ j < j + ((cnt : Int) + 1)) := by omega
      simp [a1, a2]
    · by_cases h2 : i + 1 ≤ j ∧ j < i + 1 + (cnt : Int)
      · have a2 : (i ≤ j ∧ j < i + ((cnt : Int) + 1)) := by omega
        have a3 : ¬ (j + 1 = i) := by omega
        simp [h2, a2, a3]
      · have a2 : ¬ (i ≤ j ∧ j < i + ((cnt : Int) + 1)) := by omega
        simp [h1, h2, a2]

theorem shiftVars_eq (k : Kernel) (start : Int) :
    shiftVars k start = { k with
      memoryTable := fun j =>
        if start ≤ j ∧ j < start + ((k.noOfVars - start).toNat : Int) then k.memoryTable (j + 1)
          else k.memoryTable j } := by
  unfold shiftVars forLoop
  exact shiftLoop_spec _ _ _

theorem dropVar_spec (k : Kernel) (name : Nat) (procID : Int) (h0 : 0 ≤ k.noOfVars)
    (huniq : ∀ i j : Int, 0 ≤ i → i < k.noOfVars → 0 ≤ j → j < k.noOfVars →
      (k.memoryTable i).name = (k.memoryTable j).name →
      (k.memoryTable i).procID = (k.memoryTable j).procID → i = j) :
    ∃ (tbl : Int → Variable) (m : Int),
      dropVar k (findFileInMemory k name procID) = { k with memoryTable := tbl, noOfVars := m } ∧
      0 ≤ m ∧ m ≤ k.noOfVars ∧
      (∀ j : Int, 0 ≤ j → j < m → ¬ ((tbl j).name = name ∧ (tbl j).procID = procID)) ∧
      ∀ j : Int, 0 ≤ j → j < m → ∃ y : Int, 0 ≤ y ∧ y < k.noOfVars ∧ tbl j = k.memoryTable y := by
  have hn : ((k.noOfVars.toNat : Nat) : Int) = k.noOfVars := Int.toNat_of_nonneg h0
  unfold findFileInMemory
  rcases findVar_spec k.memoryTable name procID k.noOfVars.toNat 0 (le_refl 0) with
    ⟨h1, h2⟩ | ⟨h1, h2, h3, h4⟩
  · rw [h1]
    have e : dropVar k (-1) = k := by simp [dropVar]
    rw [e]
    exact ⟨k.memoryTable, k.noOfVars, rfl, h0, le_refl _, fun j hj0 hj1 => h2 j hj0 (by omega),
      fun j hj0 hj1 => ⟨j, hj0, hj1, rfl⟩⟩
  · generalize findVar k.memoryTable name procID k.noOfVars.toNat 0 = idx at h1 h2 h3 h4
    have hne : idx ≠ -1 := by omega
    have e : dropVar k idx = { shiftVars k idx with noOfVars := (shiftVars k idx).noOfVars - 1 } := by
      simp [dropVar, hne]
    rw [e, shiftVars_eq]
    refine ⟨_, k.noOfVars - 1, rfl, by omega, by omega, fun j hj0 hj1 => ?_,
      fun j hj0 hj1 => ?_⟩
    · by_cases hc : idx ≤ j ∧ j < idx + ((k.noOfVars - idx).toNat : Int)
      · simp only [hc, and_self, if_true]
        intro hm
        have := huniq (j + 1) idx (by omega) (by omega) h1 (by omega) (hm.1.trans h3.1.symm)
          (hm.2.trans h3.2.symm)
        omega
      · simp only [hc, if_false]
        exact h4 j hj0 (by omega)
    · by_cases hc : idx ≤ j ∧ j < idx + ((k.noOfVars - idx).toNat : Int)
      · exact ⟨j + 1, by omega, by omega, by simp only [hc, and_self, if_true]⟩
      · exact ⟨j, hj0, by omega, by simp only [hc, if_false]⟩

theorem getAvailableSpace_fst (k : Kernel) (size : Int) :
    ∃ o, (getAvailableSpace k size).1 = { k with out := o } := by
  unfold getAvailableSpace
  split
  · exact ⟨k.out, rfl⟩
  · split
    · exact ⟨k.out, rfl⟩
    · simp only
      split
      · exact ⟨k.out, rfl⟩
      · exact ⟨_, rfl⟩

theorem newAdressFor_fst (k : Kernel) (size : Int) :
    ∃ o, (newAdressFor k size).1
      = { k with memoryTable := bubbleSort Variable.adress k.noOfVars k.memoryTable, out := o } := by
  unfold newAdressFor
  simp only
  split
  · obtain ⟨o, ho⟩ := getAvailableSpace_fst (sortMemory k) size
    exact ⟨o, ho⟩
  · exact ⟨k.out, rfl⟩

theorem findFileInMemory_last (k : Kernel) (name : Nat) (procID : Int) (m : Int) (h0 : 0 ≤ m)
    (hn : k.noOfVars = m + 1)
    (hbelow : ∀ j : Int, 0 ≤ j → j < m →
      ¬ ((k.memoryTable j).name = name ∧ (k.memoryTable j).procID = procID))
    (hat : (k.memoryTable m).name = name ∧ (k.memoryTable m).procID = procID) :
    findFileInMemory k name procID = m := by
  unfold findFileInMemory
  have hc : ((k.noOfVars.toNat : Nat) : Int) = m + 1 := by omega
  rcases findVar_spec k.memoryTable name procID k.noOfVars.toNat 0 (le_refl 0) with
    ⟨_, h2⟩ | ⟨h1, h2, h3, h4⟩
  · exact absurd hat (h2 m h0 (by omega))
  · generalize findVar k.memoryTable name procID k.noOfVars.toNat 0 = idx at h1 h2 h3 h4
    by_contra hne
    rcases lt_or_gt_of_ne hne with hlt | hgt
    · exact hbelow idx h1 hlt h3
    · exact h4 m h0 hgt hat

theorem savePayload_fields (fpu : FPU) (K : Kernel) (procID sp type size A : Int) :
    (savePayload fpu K procID sp type size A).1.memoryTable = K.memoryTable ∧
    (savePayload fpu K procID sp type size A).1.noOfVars = K.noOfVars ∧
    (savePayload fpu K procID sp type size A).1.stack = K.stack := by
  unfold savePayload
  split
  · exact ⟨rfl, rfl, rfl⟩
  · split
    · exact ⟨rfl, rfl, rfl⟩
    · split
      · exact ⟨rfl, rfl, rfl⟩
      · split
        · exact ⟨rfl, rfl, rfl⟩
        · exact ⟨rfl, rfl, rfl⟩

theorem savePayload_congr (fpu : FPU) (K k : Kernel) (procID sp type size A : Int)
    (h1 : K.stack = k.stack) (h2 : K.RAM = k.RAM) :
    (savePayload fpu K procID sp type size A).1.RAM = (savePayload fpu k procID sp type size A).1.RAM ∧
    (savePayload fpu K procID sp type size A).2 = (savePayload fpu k procID sp type size A).2 := by
  unfold savePayload
  simp only [h1, h2]
  split
  · exact ⟨rfl, rfl⟩
  · split
    · exact ⟨rfl, rfl⟩
    · split
      · exact ⟨rfl, rfl⟩
      · split
        · exact ⟨rfl, rfl⟩
        · exact ⟨h2, rfl⟩

theorem addMemoryEntry_spec (fpu : FPU) (k : Kernel) (name : Nat) (procID sp : Int)
    (type size sp1 : Int)
    (hcount : 0 ≤ k.noOfVars ∧ k.noOfVars < MAX_VARIABLES)
    (huniq : ∀ i j : Int, 0 ≤ i → i < k.noOfVars → 0 ≤ j → j < k.noOfVars →
      (k.memoryTable i).name = (k.memoryTable j).name →
      (k.memoryTable i).procID = (k.memoryTable j).procID → i = j)
    (ht : ((popByte k.stack procID sp).1 : Int) = type)
    (hs : (if type ≠ 3 then type
      else ((popByte k.stack procID (popByte k.stack procID sp).2).1 : Int)) = size)
    (hsp : (if type ≠ 3 then (popByte k.stack procID sp).2
      else (popByte k.stack procID (popByte k.stack procID sp).2).2) = sp1) :
    ∃ (A m : Int) (tbl : Int → Variable),
      0 ≤ m ∧ m ≤ k.noOfVars ∧
      (∀ j : Int, 0 ≤ j → j < m → ∃ y : Int, 0 ≤ y ∧ y < k.noOfVars ∧ tbl j = k.memoryTable y) ∧
      A = (newAdressFor { k with memoryTable := tbl, noOfVars := m } size).2 ∧
      (addMemoryEntry fpu k name procID sp).1.noOfVars = m + 1 ∧
      (∀ j : Int, 0 ≤ j → j < m →
        ¬ (((addMemoryEntry fpu k name procID sp).1.memoryTable j).name = name ∧
          ((addMemoryEntry fpu k name procID sp).1.memoryTable j).procID = procID)) ∧
      (addMemoryEntry fpu k name procID sp).1.memoryTable m =
        { name := name, type := type, length := size, adress := A, procID := procID } ∧
      (addMemoryEntry fpu k name procID sp).1.stack = k.stack ∧
      (addMemoryEntry fpu k name procID sp).1.RAM
        = (savePayload fpu k procID sp1 type size A).1.RAM ∧
      (addMemoryEntry fpu k name procID sp).2 = (savePayload fpu k procID sp1 type size A).2 := by
  obtain ⟨tbl, m, hk2, hm0, hmle, hbelow, hfrom⟩ := dropVar_spec k name procID hcount.1 huniq
  have hlt : ¬ (k.noOfVars ≥ MAX_VARIABLES) := not_le.mpr hcount.2
  simp only [addMemoryEntry, hlt, if_false, hk2, ht, hs, hsp]
  obtain ⟨o, ho⟩ := newAdressFor_fst { k with memoryTable := tbl, noOfVars := m } size
  have hcf := bubbleSort_cellsFrom Variable.adress m tbl
  generalize hA : (newAdressFor { k with memoryTable := tbl, noOfVars := m } size).2 = A
  rw [ho]
  simp only
  generalize hK : ({ k with
      noOfVars := m
      memoryTable := setCell (bubbleSort Variable.adress m tbl) m
        { name := name, type := type, length := size, adress := A, procID := procID }
      out := o } : Kernel) = K
  have hK1 : K.memoryTable = setCell (bubbleSort Variable.adress m tbl) m
      { name := name, type := type, length := size, adress := A, procID := procID } := by
    rw [← hK]
  have hK2 : K.noOfVars = m := by rw [← hK]
  have hK3 : K.stack = k.stack := by rw [← hK]
  have hK4 : K.RAM = k.RAM := by rw [← hK]
  obtain ⟨g1, g2, g3⟩ := savePayload_fields fpu K procID sp1 type size A
  obtain ⟨g4, g5⟩ := savePayload_congr fpu K k procID sp1 type size A hK3 hK4
  refine ⟨A, m, tbl, hm0, hmle, hfrom, hA.symm, by rw [g2, hK2], ?_, ?_, by rw [g3, hK3], g4, g5⟩
  · intro j hj0 hj1
    have hne : ¬ j = m := by omega
    obtain ⟨y, hy0, hy1, hy⟩ := hcf.2 j hj0 hj1
    rw [g1, hK1]
    simp only [setCell, hne, if_false, hy]
    exact hbelow y hy0 hy1
  · rw [g1, hK1]
    simp only [setCell, if_true]

theorem findSpaceBetween_inside (t : Int → Variable) (size g n : Int)
    (hg : 0 ≤ g ∧ g + size ≤ MAXRAM)
    (hok : ∀ i : Int, 0 ≤ i → i < n → clearOf g size (t i)) (cnt : Nat) :
    ∀ i : Int, 0 ≤ i → i + cnt = n - 1 → (t i).adress + (t i).length ≤ g →
      (∀ a, findSpaceBetween t size cnt i = some a → 0 ≤ a ∧ a + size ≤ MAXRAM) ∧
      (findSpaceBetween t size cnt i = none → (t (n - 1)).adress + (t (n - 1)).length ≤ g) := by
  have hM : MAXRAM = 180 := rfl
  induction cnt with
  | zero =>
    intro i _ hi hend
    have e : i = n - 1 := by simpa using hi
    subst e
    exact ⟨fun a h => by simp [findSpaceBetween] at h, fun _ => hend⟩
  | succ cnt ih =>
    intro i hi0 hi hend
    push_cast at hi
    obtain ⟨b1, b2, b3, _⟩ := hok i hi0 (by omega)
    obtain ⟨c1, c2, c3, c4⟩ := hok (i + 1) (by omega) (by omega)
    rw [hM] at b3 c3 hg
    have w1 : toInt16 ((t i).adress + (t i).length) = (t i).adress + (t i).length := by
      unfold toInt16; omega
    have w2 : toInt16 ((t (i + 1)).adress - ((t i).adress + (t i).length))
        = (t (i + 1)).adress - ((t i).adress + (t i).length) := by
      unfold toInt16; omega
    simp only [findSpaceBetween, w1, w2]
    split
    · next hfit =>
      refine ⟨fun a h => ?_, fun h => by simp at h⟩
      have e : (t i).adress + (t i).length = a := by simpa using h
      rw [hM]
      omega
    · next hfit =>
      have hnext : (t (i + 1)).adress + (t (i + 1)).length ≤ g := by
        rcases c4 with h | h
        · exfalso; omega
        · exact h
      exact ih (i + 1) (by omega) (by omega) hnext

theorem getAvailableSpace_inside (K : Kernel) (size g : Int) (hg : 0 ≤ g ∧ g + size ≤ MAXRAM)
    (hn : 0 < K.noOfVars)
    (hok : ∀ i : Int, 0 ≤ i → i < K.noOfVars → clearOf g size (K.memoryTable i)) :
    0 ≤ (getAvailableSpace K size).2 ∧ (getAvailableSpace K size).2 + size ≤ MAXRAM := by
  have hM : MAXRAM = 180 := rfl
  unfold getAvailableSpace
  split
  · exact ⟨le_refl _, by simp only; omega⟩
  · next h0 =>
    obtain ⟨b1, b2, b3, b4⟩ := hok 0 (le_refl 0) hn
    have hend : (K.memoryTable 0).adress + (K.memoryTable 0).length ≤ g := by
      rcases b4 with h | h
      · exfalso; omega
      · exact h
    have hcnt : (0 : Int) + ((K.noOfVars - 1).toNat : Int) = K.noOfVars - 1 := by omega
    obtain ⟨h1, h2⟩ := findSpaceBetween_inside K.memoryTable size g K.noOfVars hg hok
      (K.noOfVars - 1).toNat 0 (le_refl 0) hcnt hend
    split
    · next a ha => exact h1 a ha
    · next ha =>
      have hlast := h2 ha
      obtain ⟨c1, c2, c3, _⟩ := hok (K.noOfVars - 1) (by omega) (by omega)
      rw [hM] at c3 hg
      have w1 : toInt16 ((K.memoryTable (K.noOfVars - 1)).adress
          + (K.memoryTable (K.noOfVars - 1)).length)
          = (K.memoryTable (K.noOfVars - 1)).adress + (K.memoryTable (K.noOfVars - 1)).length := by
        unfold toInt16; omega
      have w2 : toInt16 (MAXRAM - ((K.memoryTable (K.noOfVars - 1)).adress
          + (K.memoryTable (K.noOfVars - 1)).length))
          = MAXRAM - ((K.memoryTable (K.noOfVars - 1)).adress
            + (K.memoryTable (K.noOfVars - 1)).length) := by
        rw [hM]; unfold toInt16; omega
      simp only [w1, w2]
      split
      · simp only; rw [hM]; omega
      · next hno => exfalso; rw [hM] at hno; omega

theorem newAdressFor_inside (K : Kernel) (size g : Int) (hg : 0 ≤ g ∧ g + size ≤ MAXRAM)
    (hok : ∀ i : Int, 0 ≤ i → i < K.noOfVars → clearOf g size (K.memoryTable i)) :
    0 ≤ (newAdressFor K size).2 ∧ (newAdressFor K size).2 + size ≤ MAXRAM := by
  have hcf := bubbleSort_cellsFrom Variable.adress K.noOfVars K.memoryTable
  unfold newAdressFor
  simp only
  split
  · next hpos =>
    apply getAvailableSpace_inside (sortMemory K) size g hg hpos
    intro i hi0 hi1
    obtain ⟨y, hy0, hy1, hy⟩ := hcf.2 i hi0 hi1
    show clearOf g size (bubbleSort Variable.adress K.noOfVars K.memoryTable i)
    rw [hy]
    exact hok y hy0 hy1
  · exact ⟨le_refl _, by simp only; omega⟩

theorem addMemoryEntry_inside (fpu : FPU) (k : Kernel) (name : Nat) (procID sp : Int)
    (type size sp1 : Int)
    (hcount : 0 ≤ k.noOfVars ∧ k.noOfVars < MAX_VARIABLES)
    (huniq : ∀ i j : Int, 0 ≤ i → i < k.noOfVars → 0 ≤ j → j < k.noOfVars →
      (k.memoryTable i).name = (k.memoryTable j).name →
      (k.memoryTable i).procID = (k.memoryTable j).procID → i = j)
    (ht : ((popByte k.stack procID sp).1 : Int) = type)
    (hs : (if type ≠ 3 then type
      else ((popByte k.stack procID (popByte k.stack procID sp).2).1 : Int)) = size)
    (hsp : (if type ≠ 3 then (popByte k.stack procID sp).2
      else (popByte k.stack procID (popByte k.stack procID sp).2).2) = sp1)
    (hgap : hasGap k size) :
    insideArena (lastVar (addMemoryEntry fpu k name procID sp).1) := by
  obtain ⟨A, m, tbl, hm0, hmle, hfrom, hA, hnv, _, htm, _, _, _⟩ :=
    addMemoryEntry_spec fpu k name procID sp type size sp1 hcount huniq ht hs hsp
  obtain ⟨g, hg0, hg1, hgok⟩ := hgap
  have hin := newAdressFor_inside { k with memoryTable := tbl, noOfVars := m } size g ⟨hg0, hg1⟩
    (fun i hi0 hi1 => by
      obtain ⟨y, hy0, hy1, hy⟩ := hfrom i hi0 hi1
      show clearOf g size (tbl i)
      rw [hy]
      exact hgok y hy0 hy1)
  rw [← hA] at hin
  unfold lastVar insideArena
  have e : (addMemoryEntry fpu k name procID sp).1.noOfVars - 1 = m := by rw [hnv]; ring
  rw [e, htm]
  exact hin

/-! ## Stack and arena round trips -/

theorem pushByte_same (st : Stack) (p sp : Int) (b : Nat) (h : st (p * STACKSIZE + sp) = b % 256) :
    pushByte st p sp b = (st, sp + 1) := by
  unfold pushByte
  congr 1
  funext a
  simp only [setCell]
  split
  · next e => rw [e, h]
  · rfl

theorem pushChar_facts (st : Stack) (p sp : Int) (c : Nat) (hc : c < 256) :
    (pushChar st p sp c).2 = sp + 2 ∧
    popByte (pushChar st p sp c).1 p (sp + 2) = (1, sp + 1) ∧
    popByte (pushChar st p sp c).1 p (sp + 1) = (c, sp) ∧
    pushChar (pushChar st p sp c).1 p sp c = pushChar st p sp c := by
  have e1 : ¬ (p * STACKSIZE + sp = p * STACKSIZE + (sp + 1)) := by omega
  have a1 : sp + 2 - 1 = sp + 1 := by ring
  have a2 : sp + 1 - 1 = sp := by ring
  have a3 : sp + 1 + 1 = sp + 2 := by ring
  refine ⟨?_, ?_, ?_, ?_⟩
  · simp only [pushChar, pushByte]; ring
  · simp [pushChar, pushByte, popByte, setCell, a1]
  · simp [pushChar, pushByte, popByte, setCell, a2, e1, Nat.mod_eq_of_lt hc]
  · have h1 : (pushChar st p sp c).1 (p * STACKSIZE + sp) = c % 256 := by
      simp [pushChar, pushByte, setCell, e1]
    have h2 : (pushChar st p sp c).1 (p * STACKSIZE + (sp + 1)) = 1 % 256 := by
      simp [pushChar, pushByte, setCell]
    have h3 : (pushChar st p sp c).2 = sp + 1 + 1 := by simp only [pushChar, pushByte]
    generalize hX : (pushChar st p sp c).1 = X at h1 h2
    have hpair : pushChar st p sp c = (X, sp + 1 + 1) := Prod.ext hX h3
    rw [hpair]
    simp only [pushChar, pushByte_same X p sp c h1, pushByte_same X p (sp + 1) 1 h2]

theorem pushInt_facts (st : Stack) (p sp : Int) (i : Int) (hi : -32768 ≤ i ∧ i ≤ 32767) :
    (pushInt st p sp i).2 = sp + 3 ∧
    popByte (pushInt st p sp i).1 p (sp + 3) = (2, sp + 2) ∧
    popInt (pushInt st p sp i).1 p (sp + 2) = (i, sp) ∧
    pushInt (pushInt st p sp i).1 p sp i = pushInt st p sp i := by
  have hw := word_highByte_lowByte i hi.1 hi.2
  have hl : lowByte i < 256 := by unfold lowByte; omega
  have hh : highByte i < 256 := by unfold highByte; omega
  have e1 : ¬ (p * STACKSIZE + sp = p * STACKSIZE + (sp + 1)) := by omega
  have e2 : ¬ (p * STACKSIZE + sp = p * STACKSIZE + (sp + 1 + 1)) := by omega
  have e3 : ¬ (p * STACKSIZE + (sp + 1) = p * STACKSIZE + (sp + 1 + 1)) := by omega
  have a1 : sp + 3 - 1 = sp + 1 + 1 := by ring
  have a2 : sp + 2 - 1 = sp + 1 := by ring
  have a3 : sp + 1 - 1 = sp := by ring
  have h3 : (pushInt st p sp i).2 = sp + 1 + 1 + 1 := by simp only [pushInt, pushByte]
  have c1 : (pushInt st p sp i).1 (p * STACKSIZE + sp) = highByte i % 256 := by
    simp [pushInt, pushByte, setCell, e1, e2]
  have c2 : (pushInt st p sp i).1 (p * STACKSIZE + (sp + 1)) = lowByte i % 256 := by
    simp [pushInt, pushByte, setCell, e3]
  have c3 : (pushInt st p sp i).1 (p * STACKSIZE + (sp + 1 + 1)) = 2 % 256 := by
    simp [pushInt, pushByte, setCell]
  refine ⟨by rw [h3]; ring, ?_, ?_, ?_⟩
  · simp only [popByte, a1, c3]
    exact Prod.ext rfl (by simp only; ring)
  · simp only [popInt, popByte, a2, a3, c1, c2, Nat.mod_mod, Nat.mod_eq_of_lt hl,
      Nat.mod_eq_of_lt hh, hw]
  · generalize hX : (pushInt st p sp i).1 = X at c1 c2 c3
    have hpair : pushInt st p sp i = (X, sp + 1 + 1 + 1) := Prod.ext hX h3
    rw [hpair]
    simp only [pushInt, pushByte_same X p sp _ c1, pushByte_same X p (sp + 1) _ c2,
      pushByte_same X p (sp + 1 + 1) 2 c3]

theorem pushFloat_facts (st : Stack) (p sp : Int) (f : F32)
    (hf : f.b0 < 256 ∧ f.b1 < 256 ∧ f.b2 < 256 ∧ f.b3 < 256) :
    (pushFloat st p sp f).2 = sp + 5 ∧
    popByte (pushFloat st p sp f).1 p (sp + 5) = (4, sp + 4) ∧
    popFloat (pushFloat st p sp f).1 p (sp + 4) = (f, sp) ∧
    pushFloat (pushFloat st p sp f).1 p sp f = pushFloat st p sp f := by
  have e1 : ¬ (p * STACKSIZE + sp = p * STACKSIZE + (sp + 1)) := by omega
  have e2 : ¬ (p * STACKSIZE + sp = p * STACKSIZE + (sp + 1 + 1)) := by omega
  have e3 : ¬ (p * STACKSIZE + sp = p * STACKSIZE + (sp + 1 + 1 + 1)) := by omega
  have e4 : ¬ (p * STACKSIZE + sp = p * STACKSIZE + (sp + 1 + 1 + 1 + 1)) := by omega
  have e5 : ¬ (p * STACKSIZE + (sp + 1) = p * STACKSIZE + (sp + 1 + 1)) := by omega
  have e6 : ¬ (p * STACKSIZE + (sp + 1) = p * STACKSIZE + (sp + 1 + 1 + 1)) := by omega
  have e7 : ¬ (p * STACKSIZE + (sp + 1) = p * STACKSIZE + (sp + 1 + 1 + 1 + 1)) := by omega
  have e8 : ¬ (p * STACKSIZE + (sp + 1 + 1) = p * STACKSIZE + (sp + 1 + 1 + 1)) := by omega
  have e9 : ¬ (p * STACKSIZE + (sp + 1 + 1) = p * STACKSIZE + (sp + 1 + 1 + 1 + 1)) := by omega
  have e10 : ¬ (p * STACKSIZE + (sp + 1 + 1 + 1) = p * STACKSIZE + (sp + 1 + 1 + 1 + 1)) := by
    omega
  have a1 : sp + 5 - 1 = sp + 1 + 1 + 1 + 1 := by ring
  have a2 : sp + 4 - 1 = sp + 1 + 1 + 1 := by ring
  have a3 : sp + 1 + 1 + 1 - 1 = sp + 1 + 1 := by ring
  have a4 : sp + 1 + 1 - 1 = sp + 1 := by ring
  have a5 : sp + 1 - 1 = sp := by ring
  have h3 : (pushFloat st p sp f).2 = sp + 1 + 1 + 1 + 1 + 1 := by simp only [pushFloat, pushByte]
  have c0 : (pushFloat st p sp f).1 (p * STACKSIZE + sp) = f.b3 % 256 := by
    simp [pushFloat, pushByte, setCell, e1, e2, e3, e4]
  have c1 : (pushFloat st p sp f).1 (p * STACKSIZE + (sp + 1)) = f.b2 % 256 := by
    simp [pushFloat, pushByte, setCell, e5, e6, e7]
  have c2 : (pushFloat st p sp f).1 (p * STACKSIZE + (sp + 1 + 1)) = f.b1 % 256 := by
    simp [pushFloat, pushByte, setCell, e8, e9]
  have c3 : (pushFloat st p sp f).1 (p * STACKSIZE + (sp + 1 + 1 + 1)) = f.b0 % 256 := by
    simp [pushFloat, pushByte, setCell, e10]
  have c4 : (pushFloat st p sp f).1 (p * STACKSIZE + (sp + 1 + 1 + 1 + 1)) = 4 % 256 := by
    simp [pushFloat, pushByte, setCell]
  refine ⟨by rw [h3]; ring, ?_, ?_, ?_⟩
  · simp only [popByte, a1, c4]
    exact Prod.ext rfl (by simp only; ring)
  · simp only [popFloat, popByte, a2, a3, a4, a5, c0, c1, c2, c3, Nat.mod_mod,
      Nat.mod_eq_of_lt hf.1, Nat.mod_eq_of_lt hf.2.1, Nat.mod_eq_of_lt hf.2.2.1,
      Nat.mod_eq_of_lt hf.2.2.2]
  · generalize hX : (pushFloat st p sp f).1 = X at c0 c1 c2 c3 c4
    have hpair : pushFloat st p sp f = (X, sp + 1 + 1 + 1 + 1 + 1) := Prod.ext hX h3
    rw [hpair]
    simp only [pushFloat, pushByte_same X p sp _ c0, pushByte_same X p (sp + 1) _ c1,
      pushByte_same X p (sp + 1 + 1) _ c2, pushByte_same X p (sp + 1 + 1 + 1) _ c3,
      pushByte_same X p (sp + 1 + 1 + 1 + 1) 4 c4]

theorem set_get_char (fpu : FPU) (k : Kernel) (n : Nat) (p sp0 : Int) (c : Nat) (st0 : Stack)
    (hc : c < 256) (hk : k.stack = (pushChar st0 p sp0 c).1)
    (hcount : 0 ≤ k.noOfVars ∧ k.noOfVars < MAX_VARIABLES)
    (huniq : ∀ i j : Int, 0 ≤ i → i < k.noOfVars → 0 ≤ j → j < k.noOfVars →
      (k.memoryTable i).name = (k.memoryTable j).name →
      (k.memoryTable i).procID = (k.memoryTable j).procID → i = j)
    (hgap : hasGap k 1) :
    insideArena (lastVar (addMemoryEntry fpu k n p (sp0 + 2)).1) ∧
    (addMemoryEntry fpu k n p (sp0 + 2)).2 = sp0 ∧
    (getMemoryEntry (addMemoryEntry fpu k n p (sp0 + 2)).1 n p sp0).1.stack = k.stack ∧
    (getMemoryEntry (addMemoryEntry fpu k n p (sp0 + 2)).1 n p sp0).2 = sp0 + 2 := by
  obtain ⟨f1, f2, f3, f4⟩ := pushChar_facts st0 p sp0 c hc
  rw [← hk] at f2 f3 f4
  have hins := addMemoryEntry_inside fpu k n p (sp0 + 2) 1 1 (sp0 + 1) hcount huniq
    (by rw [f2]; rfl) (by simp) (by simp [f2]) hgap
  obtain ⟨A, m, tbl, hm0, hmle, hfrom, hA, hnv, hbelow, htm, hst, hram, hsp⟩ :=
    addMemoryEntry_spec fpu k n p (sp0 + 2) 1 1 (sp0 + 1) hcount huniq
      (by rw [f2]; rfl) (by simp) (by simp [f2])
  have hpay : savePayload fpu k p (sp0 + 1) 1 1 A
      = ({ k with RAM := saveChar k.RAM c A }, sp0) := by
    have e : ((toInt8 (c : Int)) % 256).toNat = c := by unfold toInt8; omega
    simp [savePayload, popVal, popChar, f3, FloatVal.toChar, e]
  rw [hpay] at hram hsp
  generalize addMemoryEntry fpu k n p (sp0 + 2) = r at hins hnv hbelow htm hst hram hsp
  have hfind := findFileInMemory_last r.1 n p m hm0 hnv hbelow (by rw [htm]; exact ⟨rfl, rfl⟩)
  have hm1 : ¬ m = -1 := by omega
  have hload : loadChar r.1.RAM A = c := by
    rw [hram]; simp [loadChar, saveChar, setCell, Nat.mod_eq_of_lt hc]
  refine ⟨hins, hsp, ?_, ?_⟩
  · simp [getMemoryEntry, hfind, hm1, htm, hload, hst, f4]
    exact hk.symm
  · simp [getMemoryEntry, hfind, hm1, htm, hload, hst, f4, f1]
theorem pushBytes_same (p : Int) (cs : List Nat) : ∀ (X : Stack) (sp : Int),
    (∀ (k : Nat) (hk : k < cs.length), X (p * STACKSIZE + sp + (k : Int)) = cs[k] % 256) →
    pushBytes X p sp cs = (X, sp + cs.length) := by
  induction cs with
  | nil => intro X sp _; simp [pushBytes]
  | cons c cs ih =>
    intro X sp h
    have h0 : X (p * STACKSIZE + sp) = c % 256 := by
      have := h 0 (by simp)
      simpa using this
    simp only [pushBytes, pushByte_same X p sp c h0]
    rw [ih X (sp + 1) (fun k hk => by
      have := h (k + 1) (by simpa using hk)
      simp only [List.getElem_cons_succ] at this
      rw [← this]; congr 1; push_cast; ring)]
    exact Prod.ext rfl (by simp only [List.length_cons]; push_cast; ring)

theorem pushString_cells (st : Stack) (p sp : Int) (s : List Nat) (hs : ∀ x ∈ s, x ≠ 0 ∧ x < 256)
    (hlen : s.length + 1 < 256) :
    (pushString st p sp (s ++ [0])).2 = sp + s.length + 3 ∧
    (∀ (k : Nat) (hk : k < s.length),
      (pushString st p sp (s ++ [0])).1 (p * STACKSIZE + sp + (k : Int)) = s[k]) ∧
    (pushString st p sp (s ++ [0])).1 (p * STACKSIZE + (sp + s.length)) = 0 ∧
    (pushString st p sp (s ++ [0])).1 (p * STACKSIZE + (sp + s.length + 1)) = s.length + 1 ∧
    (pushString st p sp (s ++ [0])).1 (p * STACKSIZE + (sp + s.length + 2)) = 3 := by
  have hnz : ∀ x ∈ s, x ≠ 0 := fun x hx => (hs x hx).1
  obtain ⟨h1, h2, h3⟩ := pushBytes_spec p s st sp
  have m1 : (s.length + 1) % 256 = s.length + 1 := Nat.mod_eq_of_lt hlen
  simp only [pushString, strlen, cstr_append_zero s hnz, pushByte, h1, setCell, m1]
  refine ⟨by ring, fun k hk => ?_, ?_, ?_, ?_⟩
  · have n1 : ¬ (p * STACKSIZE + sp + (k : Int) = p * STACKSIZE + (sp + ↑s.length + 1 + 1)) := by
      omega
    have n2 : ¬ (p * STACKSIZE + sp + (k : Int) = p * STACKSIZE + (sp + ↑s.length + 1)) := by omega
    have n3 : ¬ (p * STACKSIZE + sp + (k : Int) = p * STACKSIZE + (sp + ↑s.length)) := by omega
    simp only [n1, n2, n3, if_false, h3 k hk]
    exact Nat.mod_eq_of_lt (hs _ (List.getElem_mem _)).2
  · have n1 : ¬ (p * STACKSIZE + (sp + ↑s.length) = p * STACKSIZE + (sp + ↑s.length + 1 + 1)) := by
      omega
    have n2 : ¬ (p * STACKSIZE + (sp + ↑s.length) = p * STACKSIZE + (sp + ↑s.length + 1)) := by
      omega
    simp [n1, n2]
  · have n1 : ¬ (p * STACKSIZE + (sp + ↑s.length + 1) = p * STACKSIZE + (sp + ↑s.length + 1 + 1)) := by
      omega
    simp [n1]
  · have n1 : p * STACKSIZE + (sp + ↑s.length + 2) = p * STACKSIZE + (sp + ↑s.length + 1 + 1) := by
      ring
    simp [n1]

theorem popString_cells (X : Stack) (p sp : Int) (s : List Nat) (hs : ∀ x ∈ s, x ≠ 0 ∧ x < 256)
    (hc : ∀ (k : Nat) (hk : k < s.length), X (p * STACKSIZE + sp + (k : Int)) = s[k])
    (h0 : X (p * STACKSIZE + (sp + s.length)) = 0) :
    popString X p (sp + s.length + 1) ((s.length + 1 : Nat) : Int) = (s ++ [0], sp) := by
  unfold popString
  rw [popStringLoop_spec]
  simp only [Int.toNat_ofNat, List.append_nil]
  refine Prod.ext ?_ (by simp only; push_cast; ring)
  simp only
  apply List.ext_getElem
  · simp
  · intro k hk1 hk2
    simp only [List.getElem_map, List.getElem_range]
    simp only [List.length_map, List.length_range] at hk1
    by_cases hk : k < s.length
    · have n4 : p * STACKSIZE + (sp + ↑s.length + 1 - ((s.length + 1 : Nat) : Int)) + (k : Int)
          = p * STACKSIZE + sp + (k : Int) := by push_cast; ring
      rw [n4, hc k hk, List.getElem_append_left hk]
      exact Nat.mod_eq_of_lt (hs _ (List.getElem_mem _)).2
    · have hk3 : k = s.length := by omega
      subst hk3
      have n3 : p * STACKSIZE + (sp + ↑s.length + 1 - ((s.length + 1 : Nat) : Int)) + (s.length : Int)
          = p * STACKSIZE + (sp + ↑s.length) := by push_cast; ring
      rw [n3, h0]
      simp

theorem pushString_facts (st : Stack) (p sp : Int) (s : List Nat)
    (hs : ∀ x ∈ s, x ≠ 0 ∧ x < 256) (hlen : s.length + 1 < 256) :
    (pushString st p sp (s ++ [0])).2 = sp + s.length + 3 ∧
    popByte (pushString st p sp (s ++ [0])).1 p (sp + s.length + 3) = (3, sp + s.length + 2) ∧
    popByte (pushString st p sp (s ++ [0])).1 p (sp + s.length + 2)
      = (s.length + 1, sp + s.length + 1) ∧
    popString (pushString st p sp (s ++ [0])).1 p (sp + s.length + 1) ((s.length + 1 : Nat) : Int)
      = (s ++ [0], sp) ∧
    pushString (pushString st p sp (s ++ [0])).1 p sp (s ++ [0])
      = pushString st p sp (s ++ [0]) := by
  have hnz : ∀ x ∈ s, x ≠ 0 := fun x hx => (hs x hx).1
  obtain ⟨c1, c2, c3, c4, c5⟩ := pushString_cells st p sp s hs hlen
  generalize hX : (pushString st p sp (s ++ [0])).1 = X at c2 c3 c4 c5
  have a1 : sp + (s.length : Int) + 3 - 1 = sp + s.length + 2 := by ring
  have a2 : sp + (s.length : Int) + 2 - 1 = sp + s.length + 1 := by ring
  refine ⟨c1, ?_, ?_, popString_cells X p sp s hs c2 c3, ?_⟩
  · simp only [popByte, a1, c5]
  · simp only [popByte, a2, c4, Nat.mod_eq_of_lt hlen]
  · have hpair : pushString st p sp (s ++ [0]) = (X, sp + s.length + 3) := Prod.ext hX c1
    rw [hpair]
    have hb := pushBytes_same p s X sp (fun k hk => by
      rw [c2 k hk]; exact (Nat.mod_eq_of_lt (hs _ (List.getElem_mem _)).2).symm)
    simp only [pushString, strlen, cstr_append_zero s hnz, hb]
    rw [pushByte_same X p (sp + s.length) 0 (by rw [c3])]
    simp only
    rw [pushByte_same X p (sp + s.length + 1) (s.length + 1) (by rw [c4, Nat.mod_eq_of_lt hlen])]
    simp only
    rw [pushByte_same X p (sp + s.length + 1 + 1) 3 (by
      have : sp + (s.length : Int) + 1 + 1 = sp + s.length + 2 := by ring
      rw [this, c5])]
    exact Prod.ext rfl (by simp only; ring)
theorem saveBytes_spec (cs : List Nat) : ∀ (RAM : Int → Nat) (A : Int),
    (∀ a : Int, a < A ∨ A + cs.length ≤ a → saveBytes RAM A cs a = RAM a) ∧
    (∀ (k : Nat) (hk : k < cs.length), saveBytes RAM A cs (A + (k : Int)) = cs[k] % 256) := by
  induction cs with
  | nil => intro RAM A; simp [saveBytes]
  | cons c cs ih =>
    intro RAM A
    obtain ⟨h2, h3⟩ := ih (setCell RAM A (c % 256)) (A + 1)
    refine ⟨fun a ha => ?_, fun k hk => ?_⟩
    · simp only [saveBytes]
      rw [h2 a (by simp only [List.length_cons] at ha; push_cast at ha; omega)]
      have : ¬ a = A := by simp only [List.length_cons] at ha; push_cast at ha; omega
      simp [setCell, this]
    · simp only [saveBytes]
      cases k with
      | zero =>
        rw [h2 _ (by left; simp)]
        simp [setCell]
      | succ k =>
        have := h3 k (by simpa using hk)
        simp only [List.getElem_cons_succ]
        rw [← this]; congr 1; push_cast; ring

theorem loadString_saveString (RAM : Int → Nat) (A : Int) (s : List Nat)
    (hs : ∀ x ∈ s, x ≠ 0 ∧ x < 256) :
    loadString (saveString RAM (s ++ [0]) A) A ((s.length + 1 : Nat) : Int) = s ++ [0] := by
  have hnz : ∀ x ∈ s, x ≠ 0 := fun x hx => (hs x hx).1
  obtain ⟨_, h3⟩ := saveBytes_spec s RAM A
  simp only [loadString, saveString, strlen, cstr_append_zero s hnz, Int.toNat_ofNat]
  apply List.ext_getElem
  · simp
  · intro k hk1 hk2
    simp only [List.getElem_map, List.getElem_range]
    simp only [List.length_map, List.length_range] at hk1
    by_cases hk : k < s.length
    · have n1 : ¬ (A + (k : Int) = A + (s.length : Int)) := by omega
      simp only [setCell, n1, if_false, h3 k hk, Nat.mod_mod, List.getElem_append_left hk]
      exact Nat.mod_eq_of_lt (hs _ (List.getElem_mem _)).2
    · have hk3 : k = s.length := by omega
      subst hk3
      simp [setCell]

theorem loadInt_saveInt (RAM : Int → Nat) (A : Int) (i : Int) (hi : -32768 ≤ i ∧ i ≤ 32767) :
    loadInt (saveInt RAM i A) A = i := by
  have hw := word_highByte_lowByte i hi.1 hi.2
  have hl : lowByte i < 256 := by unfold lowByte; omega
  have hh : highByte i < 256 := by unfold highByte; omega
  have e1 : ¬ (A = A + 1) := by omega
  simp [loadInt, saveInt, setCell, e1, Nat.mod_eq_of_lt hl, Nat.mod_eq_of_lt hh, hw]

theorem loadFloat_saveFloat (RAM : Int → Nat) (A : Int) (f : F32)
    (hf : f.b0 < 256 ∧ f.b1 < 256 ∧ f.b2 < 256 ∧ f.b3 < 256) :
    loadFloat (saveFloat RAM f A) A = f := by
  have e1 : ¬ (A + 1 = A + 0) := by omega
  have e2 : ¬ (A + 2 = A + 0) := by omega
  have e3 : ¬ (A + 3 = A + 0) := by omega
  have e4 : ¬ (A + 2 = A + 1) := by omega
  have e5 : ¬ (A + 3 = A + 1) := by omega
  have e6 : ¬ (A + 3 = A + 2) := by omega
  simp only [loadFloat, saveFloat, setCell, e1, e2, e3, e4, e5, e6, if_true, if_false,
    Nat.mod_mod, Nat.mod_eq_of_lt hf.1, Nat.mod_eq_of_lt hf.2.1, Nat.mod_eq_of_lt hf.2.2.1,
    Nat.mod_eq_of_lt hf.2.2.2]

theorem set_get_int (fpu : FPU) (k : Kernel) (n : Nat) (p sp0 : Int) (i : Int) (st0 : Stack)
    (hi : -32768 ≤ i ∧ i ≤ 32767) (hk : k.stack = (pushInt st0 p sp0 i).1)
    (hcount : 0 ≤ k.noOfVars ∧ k.noOfVars < MAX_VARIABLES)
    (huniq : ∀ i j : Int, 0 ≤ i → i < k.noOfVars → 0 ≤ j → j < k.noOfVars →
      (k.memoryTable i).name = (k.memoryTable j).name →
      (k.memoryTable i).procID = (k.memoryTable j).procID → i = j)
    (hgap : hasGap k 2) :
    insideArena (lastVar (addMemoryEntry fpu k n p (sp0 + 3)).1) ∧
    (addMemoryEntry fpu k n p (sp0 + 3)).2 = sp0 ∧
    (getMemoryEntry (addMemoryEntry fpu k n p (sp0 + 3)).1 n p sp0).1.stack = k.stack ∧
    (getMemoryEntry (addMemoryEntry fpu k n p (sp0 + 3)).1 n p sp0).2 = sp0 + 3 := by
  obtain ⟨f1, f2, f3, f4⟩ := pushInt_facts st0 p sp0 i hi
  rw [← hk] at f2 f3 f4
  have hins := addMemoryEntry_inside fpu k n p (sp0 + 3) 2 2 (sp0 + 2) hcount huniq
    (by rw [f2]; rfl) (by simp) (by simp [f2]) hgap
  obtain ⟨A, m, tbl, hm0, hmle, hfrom, hA, hnv, hbelow, htm, hst, hram, hsp⟩ :=
    addMemoryEntry_spec fpu k n p (sp0 + 3) 2 2 (sp0 + 2) hcount huniq
      (by rw [f2]; rfl) (by simp) (by simp [f2])
  have hpay : savePayload fpu k p (sp0 + 2) 2 2 A
      = ({ k with RAM := saveInt k.RAM i A }, sp0) := by
    have e : toInt16 i = i := by unfold toInt16; omega
    simp [savePayload, popVal, f3, FloatVal.toInt, e]
  rw [hpay] at hram hsp
  generalize addMemoryEntry fpu k n p (sp0 + 3) = r at hins hnv hbelow htm hst hram hsp
  have hfind := findFileInMemory_last r.1 n p m hm0 hnv hbelow (by rw [htm]; exact ⟨rfl, rfl⟩)
  have hm1 : ¬ m = -1 := by omega
  have hload : loadInt r.1.RAM A = i := by
    rw [hram]; exact loadInt_saveInt k.RAM A i hi
  refine ⟨hins, hsp, ?_, ?_⟩
  · simp [getMemoryEntry, hfind, hm1, htm, hload, hst, f4]
    exact hk.symm
  · simp [getMemoryEntry, hfind, hm1, htm, hload, hst, f4, f1]

theorem set_get_float (fpu : FPU) (k : Kernel) (n : Nat) (p sp0 : Int) (f : F32) (st0 : Stack)
    (hf : f.b0 < 256 ∧ f.b1 < 256 ∧ f.b2 < 256 ∧ f.b3 < 256)
    (hk : k.stack = (pushFloat st0 p sp0 f).1)
    (hcount : 0 ≤ k.noOfVars ∧ k.noOfVars < MAX_VARIABLES)
    (huniq : ∀ i j : Int, 0 ≤ i → i < k.noOfVars → 0 ≤ j → j < k.noOfVars →
      (k.memoryTable i).name = (k.memoryTable j).name →
      (k.memoryTable i).procID = (k.memoryTable j).procID → i = j)
    (hgap : hasGap k 4) :
    insideArena (lastVar (addMemoryEntry fpu k n p (sp0 + 5)).1) ∧
    (addMemoryEntry fpu k n p (sp0 + 5)).2 = sp0 ∧
    (getMemoryEntry (addMemoryEntry fpu k n p (sp0 + 5)).1 n p sp0).1.stack = k.stack ∧
    (getMemoryEntry (addMemoryEntry fpu k n p (sp0 + 5)).1 n p sp0).2 = sp0 + 5 := by
  obtain ⟨f1, f2, f3, f4⟩ := pushFloat_facts st0 p sp0 f hf
  rw [← hk] at f2 f3 f4
  have hins := addMemoryEntry_inside fpu k n p (sp0 + 5) 4 4 (sp0 + 4) hcount huniq
    (by rw [f2]; rfl) (by simp) (by simp [f2]) hgap
  obtain ⟨A, m, tbl, hm0, hmle, hfrom, hA, hnv, hbelow, htm, hst, hram, hsp⟩ :=
    addMemoryEntry_spec fpu k n p (sp0 + 5) 4 4 (sp0 + 4) hcount huniq
      (by rw [f2]; rfl) (by simp) (by simp [f2])
  have hpay : savePayload fpu k p (sp0 + 4) 4 4 A
      = ({ k with RAM := saveFloat k.RAM f A }, sp0) := by
    simp [savePayload, popVal, f3, FloatVal.toF32]
  rw [hpay] at hram hsp
  generalize addMemoryEntry fpu k n p (sp0 + 5) = r at hins hnv hbelow htm hst hram hsp
  have hfind := findFileInMemory_last r.1 n p m hm0 hnv hbelow (by rw [htm]; exact ⟨rfl, rfl⟩)
  have hm1 : ¬ m = -1 := by omega
  have hload : loadFloat r.1.RAM A = f := by
    rw [hram]; exact loadFloat_saveFloat k.RAM A f hf
  refine ⟨hins, hsp, ?_, ?_⟩
  · simp [getMemoryEntry, hfind, hm1, htm, hload, hst, f4]
    exact hk.symm
  · simp [getMemoryEntry, hfind, hm1, htm, hload, hst, f4, f1]

theorem set_get_string (fpu : FPU) (k : Kernel) (n : Nat) (p sp0 : Int) (s : List Nat)
    (st0 : Stack) (hs : ∀ x ∈ s, x ≠ 0 ∧ x < 256) (hlen : s.length + 1 < 256)
    (hk : k.stack = (pushString st0 p sp0 (s ++ [0])).1)
    (hcount : 0 ≤ k.noOfVars ∧ k.noOfVars < MAX_VARIABLES)
    (huniq : ∀ i j : Int, 0 ≤ i → i < k.noOfVars → 0 ≤ j → j < k.noOfVars →
      (k.memoryTable i).name = (k.memoryTable j).name →
      (k.memoryTable i).procID = (k.memoryTable j).procID → i = j)
    (hgap : hasGap k ((s.length + 1 : Nat) : Int)) :
    insideArena (lastVar (addMemoryEntry fpu k n p (sp0 + s.length + 3)).1) ∧
    (addMemoryEntry fpu k n p (sp0 + s.length + 3)).2 = sp0 ∧
    (getMemoryEntry (addMemoryEntry fpu k n p (sp0 + s.length + 3)).1 n p sp0).1.stack = k.stack ∧
    (getMemoryEntry (addMemoryEntry fpu k n p (sp0 + s.length + 3)).1 n p sp0).2
      = sp0 + s.length + 3 := by
  obtain ⟨f1, f2, f3, f3b, f4⟩ := pushString_facts st0 p sp0 s hs hlen
  rw [← hk] at f2 f3 f3b f4
  have hins := addMemoryEntry_inside fpu k n p (sp0 + s.length + 3) 3 ((s.length + 1 : Nat) : Int)
    (sp0 + s.length + 1) hcount huniq (by rw [f2]; rfl) (by simp [f2, f3]) (by simp [f2, f3]) hgap
  obtain ⟨A, m, tbl, hm0, hmle, hfrom, hA, hnv, hbelow, htm, hst, hram, hsp⟩ :=
    addMemoryEntry_spec fpu k n p (sp0 + s.length + 3) 3 ((s.length + 1 : Nat) : Int)
      (sp0 + s.length + 1) hcount huniq
      (by rw [f2]; rfl) (by simp [f2, f3]) (by simp [f2, f3])
  have hpay : savePayload fpu k p (sp0 + s.length + 1) 3 ((s.length + 1 : Nat) : Int) A
      = ({ k with RAM := saveString k.RAM (s ++ [0]) A }, sp0) := by
    simp only [savePayload, f3b]
    simp
  rw [hpay] at hram hsp
  generalize addMemoryEntry fpu k n p (sp0 + s.length + 3) = r at hins hnv hbelow htm hst hram hsp
  have hfind := findFileInMemory_last r.1 n p m hm0 hnv hbelow (by rw [htm]; exact ⟨rfl, rfl⟩)
  have hm1 : ¬ m = -1 := by omega
  have hload : loadString r.1.RAM A ((s.length + 1 : Nat) : Int) = s ++ [0] := by
    rw [hram]; exact loadString_saveString k.RAM A s hs
  refine ⟨hins, hsp, ?_, ?_⟩
  · simp only [getMemoryEntry, hfind, hm1, htm, hload, hst, f4, if_false]
    simp
    exact hk.symm
  · simp only [getMemoryEntry, hfind, hm1, htm, hload, hst, f4, if_false]
    simp [f1]

/-- C6: SET/GET round trip.  Process `p` holds a valid tagged value `v` on top of its
stack row (pushed at depth `sp0`); the variable table has fewer than `MAX_VARIABLES` entries,
with pairwise distinct keys and every region inside the arena; the arena has a gap that fits
the payload of `v`.  Then `addMemoryEntry(n, p)` stores `v` in a region inside the arena and
pops it (the stack pointer is back at `sp0`), and the following `getMemoryEntry(n, p)` leaves
every stack byte and the stack pointer exactly as they were before the SET, with `v` and its
tag on top. -/
theorem set_get_roundtrip (fpu : FPU) (k : Kernel) (n : Nat) (p sp0 : Int) (v : Value)
    (hv : v.valid) (hn : n < 256) (hp : 0 ≤ p ∧ p < PROCESS_TABLE_SIZE)
    (hsp : 0 ≤ sp0 ∧ sp0 + v.width ≤ STACKSIZE)
    (hcount : 0 ≤ k.noOfVars ∧ k.noOfVars < MAX_VARIABLES)
    (huniq : uniqueKeys k) (hgap : hasGap k v.size) :
    insideArena (lastVar (addMemoryEntry fpu { k with stack := (pushValue k.stack p sp0 v).1 }
      n p (pushValue k.stack p sp0 v).2).1) ∧
    (addMemoryEntry fpu { k with stack := (pushValue k.stack p sp0 v).1 } n p
      (pushValue k.stack p sp0 v).2).2 = sp0 ∧
    (getMemoryEntry
      (addMemoryEntry fpu { k with stack := (pushValue k.stack p sp0 v).1 } n p
        (pushValue k.stack p sp0 v).2).1 n p
      (addMemoryEntry fpu { k with stack := (pushValue k.stack p sp0 v).1 } n p
        (pushValue k.stack p sp0 v).2).2).1.stack = (pushValue k.stack p sp0 v).1 ∧
    (getMemoryEntry
      (addMemoryEntry fpu { k with stack := (pushValue k.stack p sp0 v).1 } n p
        (pushValue k.stack p sp0 v).2).1 n p
      (addMemoryEntry fpu { k with stack := (pushValue k.stack p sp0 v).1 } n p
        (pushValue k.stack p sp0 v).2).2).2 = (pushValue k.stack p sp0 v).2 := by
  cases v with
  | char c =>
    have f1 := (pushChar_facts k.stack p sp0 c hv).1
    have h := set_get_char fpu { k with stack := (pushChar k.stack p sp0 c).1 } n p sp0 c k.stack
      hv rfl hcount huniq hgap
    simp only [pushValue, f1]
    rw [h.2.1]
    exact ⟨h.1, rfl, h.2.2.1, h.2.2.2⟩
  | int i =>
    have f1 := (pushInt_facts k.stack p sp0 i hv).1
    have h := set_get_int fpu { k with stack := (pushInt k.stack p sp0 i).1 } n p sp0 i k.stack
      hv rfl hcount huniq hgap
    simp only [pushValue, f1]
    rw [h.2.1]
    exact ⟨h.1, rfl, h.2.2.1, h.2.2.2⟩
  | float f =>
    have f1 := (pushFloat_facts k.stack p sp0 f hv).1
    have h := set_get_float fpu { k with stack := (pushFloat k.stack p sp0 f).1 } n p sp0 f
      k.stack hv rfl hcount huniq hgap
    simp only [pushValue, f1]
    rw [h.2.1]
    exact ⟨h.1, rfl, h.2.2.1, h.2.2.2⟩
  | string s =>
    have hlen : s.length + 1 < 256 := by
      have h1 := hsp.1
      have h2 := hsp.2
      simp only [Value.width, STACKSIZE] at h2
      omega
    have f1 := (pushString_facts k.stack p sp0 s hv hlen).1
    have h := set_get_string fpu { k with stack := (pushString k.stack p sp0 (s ++ [0])).1 } n p
      sp0 s k.stack hv hlen rfl hcount huniq (by simpa [Value.size] using hgap)
    simp only [pushValue, f1]
    rw [h.2.1]
    exact ⟨h.1, rfl, h.2.2.1, h.2.2.2⟩

set_option maxRecDepth 100000 in
/-- Instance of `set_get_roundtrip`: process 0, which owns the CHAR variables `x` and `y` at
the addresses 0 and 1, rebinds `x` to the string `"hi"` pushed at depth 3 and reads it back;
the gap used in the hypothesis is `[2, 5)`. -/
theorem set_get_roundtrip_witness :
    insideArena (lastVar (addMemoryEntry noFPU
      { twoChars with stack := (pushValue twoChars.stack 0 3 (Value.string [104, 105])).1 }
      120 0 (pushValue twoChars.stack 0 3 (Value.string [104, 105])).2).1) ∧
    (addMemoryEntry noFPU
      { twoChars with stack := (pushValue twoChars.stack 0 3 (Value.string [104, 105])).1 }
      120 0 (pushValue twoChars.stack 0 3 (Value.string [104, 105])).2).2 = 3 ∧
    (getMemoryEntry
      (addMemoryEntry noFPU
        { twoChars with stack := (pushValue twoChars.stack 0 3 (Value.string [104, 105])).1 }
        120 0 (pushValue twoChars.stack 0 3 (Value.string [104, 105])).2).1 120 0
      (addMemoryEntry noFPU
        { twoChars with stack := (pushValue twoChars.stack 0 3 (Value.string [104, 105])).1 }
        120 0 (pushValue twoChars.stack 0 3 (Value.string [104, 105])).2).2).1.stack
        = (pushValue twoChars.stack 0 3 (Value.string [104, 105])).1 ∧
    (getMemoryEntry
      (addMemoryEntry noFPU
        { twoChars with stack := (pushValue twoChars.stack 0 3 (Value.string [104, 105])).1 }
        120 0 (pushValue twoChars.stack 0 3 (Value.string [104, 105])).2).1 120 0
      (addMemoryEntry noFPU
        { twoChars with stack := (pushValue twoChars.stack 0 3 (Value.string [104, 105])).1 }
        120 0 (pushValue twoChars.stack 0 3 (Value.string [104, 105])).2).2).2
        = (pushValue twoChars.stack 0 3 (Value.string [104, 105])).2 :=
  set_get_roundtrip noFPU twoChars 120 0 3 (Value.string [104, 105])
    (by decide) (by decide) (by decide) (by decide) (by decide)
    (by
      intro i j hi0 hi1 hj0 hj1 h1 h2
      have e : twoChars.noOfVars = 2 := rfl
      rw [e] at hi1 hj1
      have hi : i = 0 ∨ i = 1 := by omega
      have hj : j = 0 ∨ j = 1 := by omega
      rcases hi with rfl | rfl <;> rcases hj with rfl | rfl <;>
        first | rfl | (exfalso; revert h1; decide))
    ⟨2, by decide, by decide, by
      intro i hi0 hi1
      have e : twoChars.noOfVars = 2 := rfl
      rw [e] at hi1
      have hi : i = 0 ∨ i = 1 := by omega
      rcases hi with rfl | rfl <;> (unfold clearOf; decide)⟩

/-! ## Arena allocation and teardown -/

set_option maxRecDepth 100000 in
/-- C7 (defect in the code): the table `fifteenStrings` satisfies the arena invariant and
fills the arena.  A SET of a CHAR to a new variable `p` finds no gap: `getAvailableSpace`
returns `-1`, and `addMemoryEntry` still adds the entry, with `adress = -1`, outside the
arena; the invariant no longer holds. -/
theorem addMemoryEntry_no_space_adds_entry :
    fifteenStrings.noOfVars = 15 ∧ arenaInvariant fifteenStrings = true ∧
    (setValue fifteenStrings 112 0 0 (Value.char 65)).1.noOfVars = 16 ∧
    ((varList (setValue fifteenStrings 112 0 0 (Value.char 65)).1).drop 15).map
        (fun v => (v.name, v.type, v.length, v.adress, v.procID)) = [(112, 1, 1, -1, 0)] ∧
    (setValue fifteenStrings 112 0 0 (Value.char 65)).1.out
      = [Out.str "No space found", Out.ln] ∧
    arenaInvariant (setValue fifteenStrings 112 0 0 (Value.char 65)).1 = false := by
  decide

set_option maxRecDepth 100000 in
/-- C8 (defect in the code): process 0 owns the two adjacent entries `x` and `y`;
`deleteVars(0)` removes `x` only: `y` is still in the valid part of the table, owned by
process 0, and `noOfVars` has dropped by one instead of two.  The loop ends on its own
condition: more iterations allowed change nothing. -/
theorem deleteVars_skips_next_entry :
    (varList twoChars).map (fun v => (v.name, v.procID)) = [(120, 0), (121, 0)] ∧
    (varList (deleteVars twoChars 0)).map (fun v => (v.name, v.procID)) = [(121, 0)] ∧
    (deleteVars twoChars 0).noOfVars = 1 ∧
    (varList (deleteVarsLoop 0 100 0 twoChars)).map (fun v => (v.name, v.procID))
      = [(121, 0)] := by
  decide

/-! ## Scheduler and interpreter -/

set_option maxRecDepth 100000 in
/-- C9 (defect in the code): pids 0 and 1 are both RUNNING at the start of the pass.  Pid 0
in slot 0 executes `STOP` and is removed, pid 1 moves to slot 0, and the loop of
`runProcesses` goes on at slot 1: pid 1 is still in the table but executes no instruction in
this pass (`pc` and `sp` stay 0), also when the loop is allowed more iterations.  Only the
next pass executes its `CHAR 'A'`. -/
theorem runProcesses_skips_after_stop :
    procList stopThenChar = [(0, RUNNING, 0, 0), (1, RUNNING, 0, 0)] ∧
    procList (runProcesses instructionSet noFPU 0 stopThenChar) = [(1, RUNNING, 0, 0)] ∧
    procList (runProcessesLoop instructionSet noFPU 0 100 0 stopThenChar)
      = [(1, RUNNING, 0, 0)] ∧
    procList (runProcesses instructionSet noFPU 0
      (runProcesses instructionSet noFPU 0 stopThenChar)) = [(1, RUNNING, 2, 2)] := by
  decide

set_option maxRecDepth 100000 in
/-- C10 (defect in the code): pid 1 in slot 0 executes `WAITUNTILDONE` with `INT 2` on its
stack while pid 2 is RUNNING in slot 1.  The instruction reads `processTable[2].state`, the
slot with index 2, which is not in use, so pid 1 does not wait: its `pc` has advanced past
the opcode and the pid has been popped (`sp = 0`). -/
theorem waitUntilDone_reads_slot_not_pid :
    procList waitForTwo = [(1, RUNNING, 0, 3), (2, RUNNING, 0, 0)] ∧
    getPid waitForTwo 2 = 1 ∧
    popInt waitForTwo.stack 1 2 = (2, 0) ∧
    procList (execute instructionSet noFPU 0 waitForTwo 0)
      = [(1, RUNNING, 1, 0), (2, RUNNING, 0, 0)] := by
  decide

set_option maxRecDepth 100000 in
/-- C11 (defect in the code): pids 0 and 1 are running and the pid counter is 2 when pid 0
executes `FORK` with the string `q` on its stack.  The step appends one RUNNING process for
the file `q` (address 210) with pid 2, but the INT it leaves on the stack of pid 0 is 1, the
pid of the forking process plus one, which is the pid of the other running process. -/
theorem fork_pushes_own_pid_plus_one :
    procList beforeFork = [(0, RUNNING, 3, 4), (1, RUNNING, 1, 0)] ∧
    beforeFork.processCounter = 2 ∧
    procList (execute instructionSet noFPU 0 beforeFork 0)
      = [(0, RUNNING, 4, 3), (1, RUNNING, 1, 0), (2, RUNNING, 0, 0)] ∧
    ((execute instructionSet noFPU 0 beforeFork 0).processTable 2).address = 210 ∧
    popByte (execute instructionSet noFPU 0 beforeFork 0).stack 0 3 = (2, 2) ∧
    popInt (execute instructionSet noFPU 0 beforeFork 0).stack 0 2 = (1, 0) := by
  decide

set_option maxRecDepth 100000 in
/-- C13 (defect in the code): `PLUS` on `x = CHAR 3` (below) and `y = INT 300` (on top),
with `INT 5` below `x`.  The stack bytes are `0 5 2 | 3 1 | 1 44 2`; the result should be
`INT 303` above the untouched `0 5 2`, with `sp = 6`.  The step pops `x` with the tag of `y`,
as an INT: besides the byte of `x` it takes the tag byte of the value below.  It leaves
`0 5 | 3 47 2` with `sp = 5`: the value 815 instead of 303, and the `INT 5` below has lost
its tag byte. -/
theorem plus_pops_x_with_tag_of_y :
    (List.range 8).map (fun (i : Nat) => mixedOperands.stack i) = [0, 5, 2, 3, 1, 1, 44, 2] ∧
    procList (execute instructionSet noFPU 0 mixedOperands 0) = [(0, RUNNING, 1, 5)] ∧
    (List.range 5).map (fun (i : Nat) => (execute instructionSet noFPU 0 mixedOperands 0).stack i)
      = [0, 5, 3, 47, 2] ∧
    popInt (execute instructionSet noFPU 0 mixedOperands 0).stack 0 4 = (815, 2) := by
  decide

set_option maxRecDepth 100000 in
/-- C15 (defect in the code): pid 0 has `sp = 15` and executes `CHAR 'A'`, a push of two
bytes into a row of `STACKSIZE = 16`.  The second byte is written at offset 16 of row 0,
which is offset 0 of row 1: the `'B'` (66) that pid 1 pushed there is replaced by 1.  Pid 0
is not terminated (it is still RUNNING, with `sp = 17`) and nothing is printed. -/
theorem push_writes_into_next_row :
    procList fullRow = [(0, RUNNING, 0, 15), (1, RUNNING, 0, 2)] ∧
    fullRow.stack (1 * STACKSIZE + 0) = 66 ∧
    procList (execute instructionSet noFPU 0 fullRow 0)
      = [(0, RUNNING, 2, 17), (1, RUNNING, 0, 2)] ∧
    (execute instructionSet noFPU 0 fullRow 0).stack (0 * STACKSIZE + 15) = 65 ∧
    (execute instructionSet noFPU 0 fullRow 0).stack (1 * STACKSIZE + 0) = 1 ∧
    (execute instructionSet noFPU 0 fullRow 0).out = [] := by
  decide

set_option maxRecDepth 100000 in
/-- C16 (defect in the code): after ten rounds of `run p`, `kill`, an eleventh `run p`
creates the only process in the table with pid 10.  `execute` uses the pid as the row of the
stack array, so the `CHAR 'A'` of that process is written to row 10 offset 0, the cell
`PROCESS_TABLE_SIZE * STACKSIZE`, the first byte behind the array of
`PROCESS_TABLE_SIZE` rows. -/
theorem eleventh_process_uses_row_ten :
    procList eleventh = [(10, RUNNING, 0, 0)] ∧
    eleventh.stack (PROCESS_TABLE_SIZE * STACKSIZE) = 0 ∧
    procList (runProcesses instructionSet noFPU 0 eleventh) = [(10, RUNNING, 2, 2)] ∧
    (runProcesses instructionSet noFPU 0 eleventh).stack (PROCESS_TABLE_SIZE * STACKSIZE) = 65 ∧
    (runProcesses instructionSet noFPU 0 eleventh).stack (PROCESS_TABLE_SIZE * STACKSIZE + 1)
      = 1 := by
  decide

set_option maxRecDepth 100000 in
/-- C17 (defect in the code): with file count 0 and a zeroed table, the result of
`findAvailablePosition 10` is `systemMemory` only when the memory in front of the table reads
as zero.  The function reads `FAT[noOfFiles - 1]`, which is `FAT[-1]` here: when that memory
reads as `beginPosition = 2`, `length = 0` the result is 163, and when it reads as
`beginPosition = 1020` the result is `-1` although the store is empty. -/
theorem findAvailablePosition_empty_reads_before_table :
    (beforeTable 2 0).noOfFiles = 0 ∧
    (findAvailablePosition (beforeTable 0 0) 10).2 = systemMemory ∧
    (findAvailablePosition (beforeTable 2 0) 10).2 = 163 ∧
    (findAvailablePosition (beforeTable 1020 0) 10).2 = -1 := by
  decide

set_option maxRecDepth 100000 in
/-- C18 (defect in the code): `systemMemory` is 161, one less than the 162 bytes of the
table header (`sizeof(noOfFiles) + MAX_PROCESSES * sizeof(FATEntry)`).  With nine files in
the table `findAvailablePosition` returns the offset 161, and `writeFAT` of a table of ten
entries writes that offset: it holds the high byte of the length of the tenth entry (here
300, high byte 1). -/
theorem systemMemory_is_inside_header :
    systemMemory = 161 ∧
    sizeofInt + MAX_PROCESSES * sizeofFATEntry = 162 ∧
    (findAvailablePosition (readFAT nineFiles) 5).2 = 161 ∧
    tenEntries.eeprom 161 = 0 ∧
    (writeFAT tenEntries).eeprom 161 = 1 := by
  decide

theorem forLoopAux_keeps {σ β : Type} (f : σ → β) (body : Int → σ → σ)
    (h : ∀ i s, f (body i s) = f s) (cnt : Nat) (i : Int) (s : σ) :
    f (forLoopAux body cnt i s) = f s := by
  induction cnt generalizing i s with
  | zero => rfl
  | succ n ih =>
    show f (forLoopAux body n (i + 1) (body i s)) = f s
    rw [ih, h]

theorem readFAT_eeprom (k : Kernel) : (readFAT k).eeprom = k.eeprom := by
  unfold readFAT forLoop
  dsimp only
  refine (forLoopAux_keeps Kernel.eeprom _ ?_ _ _ _).trans rfl
  intro i s
  rfl

theorem readFAT_noOfFiles (k : Kernel) : (readFAT k).noOfFiles = EEPROM.getInt k.eeprom 0 := by
  unfold readFAT forLoop
  dsimp only
  refine (forLoopAux_keeps Kernel.noOfFiles _ ?_ _ _ _).trans rfl
  intro i s
  rfl

theorem readFAT_out (k : Kernel) : (readFAT k).out = k.out := by
  unfold readFAT forLoop
  dsimp only
  refine (forLoopAux_keeps Kernel.out _ ?_ _ _ _).trans rfl
  intro i s
  rfl

/-- C19: when the count persisted at offset 0 is `MAX_PROCESSES` (or more), `storeFile`
returns, once the console has delivered input, for every name, size and input with the
message "File cannot be stored, limit reached." and with every byte of the EEPROM as it
was. -/
theorem storeFile_full_table_keeps_store (k : Kernel) (filename : List Nat) (fileSize : Int)
    (input : List Nat) (extra : Nat) (hfull : MAX_PROCESSES ≤ EEPROM.getInt k.eeprom 0)
    (hin : input ≠ []) :
    ∃ r : Kernel, storeFile k filename fileSize input extra = some r ∧
      r.eeprom = k.eeprom ∧
      r.out = k.out ++ [Out.str "Give input for file:", Out.ln,
        Out.str "File cannot be stored, limit reached.", Out.ln] := by
  refine ⟨(readFAT (k.println "Give input for file:")).println
    "File cannot be stored, limit reached.", ?_, ?_, ?_⟩
  · unfold storeFile
    rw [if_neg hin]
    have h : (readFAT (k.println "Give input for file:")).noOfFiles ≥ MAX_PROCESSES := by
      rw [readFAT_noOfFiles]
      exact hfull
    dsimp only
    rw [if_pos h]
  · show (readFAT (k.println "Give input for file:")).eeprom = k.eeprom
    rw [readFAT_eeprom]
    rfl
  · show (readFAT (k.println "Give input for file:")).out ++ _ = _
    rw [readFAT_out]
    simp [Kernel.println]

set_option maxRecDepth 100000 in
theorem storeFile_full_table_keeps_store_witness :
    ∃ r : Kernel, storeFile (writeFAT tenEntries) (ascii "k") 5 [120, 121] 0 = some r ∧
      r.eeprom = (writeFAT tenEntries).eeprom ∧
      r.out = (writeFAT tenEntries).out ++ [Out.str "Give input for file:", Out.ln,
        Out.str "File cannot be stored, limit reached.", Out.ln] :=
  storeFile_full_table_keeps_store (writeFAT tenEntries) (ascii "k") 5 [120, 121] 0 (by decide) (by decide)

/-! ## The interpreter: decoding and single steps -/

/-- Two case labels of `execute` at different positions of the list are different. -/
theorem caseLabels_ne (isa : InstructionSet) (h : isa.caseLabels.Nodup) (i j : Nat)
    (hi : i < 20) (hj : j < 20) (hij : i ≠ j) :
    isa.caseLabels.getD i 0 ≠ isa.caseLabels.getD j 0 := by
  have hl : isa.caseLabels.length = 20 := rfl
  rw [List.getD_eq_getElem _ _ (by omega), List.getD_eq_getElem _ _ (by omega)]
  intro he
  exact hij ((List.Nodup.getElem_inj_iff h).mp he)

/-- The step of `execute` on the opcode `DELAYUNTIL`. -/
theorem execute_DELAYUNTIL (isa : InstructionSet) (fpu : FPU) (millis : Nat) (k : Kernel)
    (index : Int) (hlabels : isa.caseLabels.Nodup)
    (hop : EEPROM.read k.eeprom ((k.processTable index).address + (k.processTable index).pc)
      = isa.DELAYUNTIL) :
    execute isa fpu millis k index =
      (let procID := (k.processTable index).procID
       let k1 := setPc k index ((k.processTable index).pc + 1)
       let t := popByte k.stack procID (k.processTable index).sp
       let temp := popInt k.stack procID t.2
       if temp.1 > toInt16 millis then
         let k2 := setPc k1 index ((k1.processTable index).pc - 1)
         let r := pushInt k.stack procID temp.2 temp.1
         setSp { k2 with stack := r.1 } index r.2
       else setSp k1 index temp.2) := by
  have n0 : isa.DELAYUNTIL ≠ isa.CHAR := caseLabels_ne isa hlabels 10 0 (by decide) (by decide) (by decide)
  have n1 : isa.DELAYUNTIL ≠ isa.INT := caseLabels_ne isa hlabels 10 1 (by decide) (by decide) (by decide)
  have n2 : isa.DELAYUNTIL ≠ isa.STRING := caseLabels_ne isa hlabels 10 2 (by decide) (by decide) (by decide)
  have n3 : isa.DELAYUNTIL ≠ isa.FLOAT := caseLabels_ne isa hlabels 10 3 (by decide) (by decide) (by decide)
  have n4 : isa.DELAYUNTIL ≠ isa.STOP := caseLabels_ne isa hlabels 10 4 (by decide) (by decide) (by decide)
  have n5 : isa.DELAYUNTIL ≠ 51 := caseLabels_ne isa hlabels 10 5 (by decide) (by decide) (by decide)
  have n6 : isa.DELAYUNTIL ≠ 52 := caseLabels_ne isa hlabels 10 6 (by decide) (by decide) (by decide)
  have n7 : isa.DELAYUNTIL ≠ isa.SET := caseLabels_ne isa hlabels 10 7 (by decide) (by decide) (by decide)
  have n8 : isa.DELAYUNTIL ≠ isa.GET := caseLabels_ne isa hlabels 10 8 (by decide) (by decide) (by decide)
  have n9 : isa.DELAYUNTIL ≠ isa.DELAY := caseLabels_ne isa hlabels 10 9 (by decide) (by decide) (by decide)
  have n56 : ¬ (51 ≤ isa.DELAYUNTIL ∧ isa.DELAYUNTIL ≤ 52) := by omega
  unfold execute
  simp only [fetch, hop]
  rw [if_neg n0, if_neg n1, if_neg n2, if_neg n3, if_neg n4, if_neg n56, if_neg n7, if_neg n8,
    if_neg n9, if_pos True.intro]
  rfl

theorem setCell_self {α : Type} (a : Int → α) (i : Int) (v : α) (h : a i = v) :
    setCell a i v = a := by
  funext j
  unfold setCell
  split
  · next e => rw [e, h]
  · rfl

theorem setCell_setCell {α : Type} (a : Int → α) (i : Int) (v w : α) :
    setCell (setCell a i v) i w = setCell a i w := by
  funext j
  unfold setCell
  split <;> rfl

theorem setCell_get {α : Type} (a : Int → α) (i : Int) (v : α) : setCell a i v i = v := by
  unfold setCell
  rw [if_pos rfl]

/-- C12 (amended): a process executes `DELAYUNTIL` with an INT deadline `d` on top of its
stack, and the clock reads `millis`.  The code compares the deadline with the clock reading
converted to a 16-bit `int`.  If that value is below the deadline, the step changes nothing
at all: `pc`, `sp` and every stack byte (and the rest of the machine) are as before, so the
instruction is executed again on the next visit.  Otherwise `pc` has advanced by one, `sp`
is three bytes lower, and no stack byte has changed. -/
theorem delayuntil_retry (isa : InstructionSet) (fpu : FPU) (millis : Nat) (k : Kernel)
    (index : Int) (s : Stack) (sp0 d : Int) (hlabels : isa.caseLabels.Nodup)
    (hop : EEPROM.read k.eeprom ((k.processTable index).address + (k.processTable index).pc)
      = isa.DELAYUNTIL)
    (hd : -32768 ≤ d ∧ d ≤ 32767)
    (hstack : k.stack = (pushInt s (k.processTable index).procID sp0 d).1)
    (hsp : (k.processTable index).sp = sp0 + 3) :
    (toInt16 millis < d → execute isa fpu millis k index = k) ∧
    (¬ toInt16 millis < d →
      (execute isa fpu millis k index).processTable index
        = { (k.processTable index) with pc := (k.processTable index).pc + 1, sp := sp0 } ∧
      (execute isa fpu millis k index).stack = k.stack) := by
  obtain ⟨f1, f2, f3, f4⟩ := pushInt_facts s (k.processTable index).procID sp0 d hd
  rw [execute_DELAYUNTIL isa fpu millis k index hlabels hop]
  dsimp only
  rw [hsp, hstack, f2]
  dsimp only
  rw [f3]
  dsimp only
  constructor
  · intro hlt
    rw [if_pos hlt, f4, f1]
    have hpc : (k.processTable index).pc + 1 - 1 = (k.processTable index).pc := by ring
    unfold setSp setPc
    simp only [setCell_get]
    rw [hpc, ← hsp, ← hstack, setCell_setCell, setCell_setCell, setCell_self _ _ _ rfl]
  · intro hge
    rw [if_neg hge]
    unfold setSp setPc
    simp only [setCell_get]
    exact ⟨trivial, hstack⟩

set_option maxRecDepth 100000 in
/-- C12 at the deadline 100: at the clock reading 50 the step changes nothing; at the clock
reading 150 `pc` has advanced to 1, `sp` is 0 and the stack bytes are as before. -/
theorem delayuntil_retry_witness :
    execute instructionSet noFPU 50 waitingUntil 0 = waitingUntil ∧
    ((execute instructionSet noFPU 150 waitingUntil 0).processTable 0
        = { (waitingUntil.processTable 0) with
            pc := (waitingUntil.processTable 0).pc + 1, sp := 0 } ∧
      (execute instructionSet noFPU 150 waitingUntil 0).stack = waitingUntil.stack) :=
  ⟨(delayuntil_retry instructionSet noFPU 50 waitingUntil 0 boot.stack 0 100 (by decide)
      (by decide) (by decide) rfl (by decide)).1 (by decide),
    (delayuntil_retry instructionSet noFPU 150 waitingUntil 0 boot.stack 0 100 (by decide)
      (by decide) (by decide) rfl (by decide)).2 (by decide)⟩

set_option maxRecDepth 100000 in
/-- C12 (counterexample to the wording): 40000 ms after boot the clock is not below the
deadline 100, but the step does not advance: `pc` and `sp` are as before and the deadline is
still on the stack.  The clock reading converted to `int` is -25536. -/
theorem delayuntil_compares_wrapped_clock :
    ¬ ((40000 : Int) < 100) ∧
    toInt16 (40000 : Nat) = -25536 ∧
    procList waitingUntil = [(0, RUNNING, 0, 3)] ∧
    popInt waitingUntil.stack 0 2 = (100, 0) ∧
    procList (execute instructionSet noFPU 40000 waitingUntil 0) = [(0, RUNNING, 0, 3)] ∧
    popInt (execute instructionSet noFPU 40000 waitingUntil 0).stack 0 2 = (100, 0) := by
  decide

theorem pushInt_snd (st : Stack) (p sp i : Int) : (pushInt st p sp i).2 = sp + 3 := by
  simp only [pushInt, pushByte]
  ring

/-- The step of `execute` on the opcode `INT` with the operand bytes `h`, `l`. -/
theorem execute_INT (isa : InstructionSet) (fpu : FPU) (millis : Nat) (k : Kernel)
    (index : Int) (hlabels : isa.caseLabels.Nodup)
    (hop : EEPROM.read k.eeprom ((k.processTable index).address + (k.processTable index).pc)
      = isa.INT) :
    execute isa fpu millis k index =
      { k with
        processTable := setCell k.processTable index
          { (k.processTable index) with
            pc := (k.processTable index).pc + 3, sp := (k.processTable index).sp + 3 }
        stack := (pushInt k.stack (k.processTable index).procID (k.processTable index).sp
          (word
            (EEPROM.read k.eeprom
              ((k.processTable index).address + ((k.processTable index).pc + 1)))
            (EEPROM.read k.eeprom
              ((k.processTable index).address + ((k.processTable index).pc + 2))))).1 } := by
  have n0 : isa.INT ≠ isa.CHAR := caseLabels_ne isa hlabels 1 0 (by decide) (by decide) (by decide)
  have a1 : (k.processTable index).pc + 1 + 1 = (k.processTable index).pc + 2 := by ring
  have a2 : (k.processTable index).pc + 2 + 1 = (k.processTable index).pc + 3 := by ring
  unfold execute
  simp only [fetch, hop]
  rw [if_neg n0, if_pos True.intro]
  unfold setSp setPc
  simp only [setCell_get, setCell_setCell, a1, a2, pushInt_snd]

theorem pushInt_below (st : Stack) (p sp i : Int) (c : Int) (hc : c < p * STACKSIZE + sp) :
    (pushInt st p sp i).1 c = st c := by
  simp only [pushInt, pushByte, setCell]
  rw [if_neg (by omega), if_neg (by omega), if_neg (by omega)]

theorem popByte_pushInt_below (st : Stack) (p sp i q : Int) (hq : q ≤ sp) :
    popByte (pushInt st p sp i).1 p q = popByte st p q := by
  unfold popByte
  rw [pushInt_below st p sp i _ (by omega)]

theorem popInt_pushInt_below (st : Stack) (p sp i q : Int) (hq : q ≤ sp) :
    popInt (pushInt st p sp i).1 p q = popInt st p q := by
  unfold popInt popByte
  simp only
  rw [pushInt_below st p sp i _ (by omega), pushInt_below st p sp i _ (by omega)]

/-- The step of `execute` on `PLUS` (opcode 9) with two INT operands on the stack. -/
theorem execute_PLUS_INT_INT (isa : InstructionSet) (fpu : FPU) (millis : Nat) (k : Kernel)
    (index : Int) (s : Stack) (sp0 x y : Int) (hlabels : isa.caseLabels.Nodup)
    (hINT : isa.INT = 2) (hPLUS : isa.PLUS = 9)
    (hop : EEPROM.read k.eeprom ((k.processTable index).address + (k.processTable index).pc) = 9)
    (hx : -32768 ≤ x ∧ x ≤ 32767) (hy : -32768 ≤ y ∧ y ≤ 32767)
    (hstack : k.stack
      = (pushInt (pushInt s (k.processTable index).procID sp0 x).1 (k.processTable index).procID
          (sp0 + 3) y).1)
    (hsp : (k.processTable index).sp = sp0 + 6) :
    execute isa fpu millis k index =
      { k with
        processTable := setCell k.processTable index
          { (k.processTable index) with pc := (k.processTable index).pc + 1, sp := sp0 + 3 }
        stack := (pushInt k.stack (k.processTable index).procID sp0 (toInt16 (x + y))).1 } := by
  have n0 : 9 ≠ isa.CHAR := caseLabels_ne isa hlabels 18 0 (by decide) (by decide) (by decide)
  have n1 : 9 ≠ isa.INT := caseLabels_ne isa hlabels 18 1 (by decide) (by decide) (by decide)
  have n2 : 9 ≠ isa.STRING := caseLabels_ne isa hlabels 18 2 (by decide) (by decide) (by decide)
  have n3 : 9 ≠ isa.FLOAT := caseLabels_ne isa hlabels 18 3 (by decide) (by decide) (by decide)
  have n4 : 9 ≠ isa.STOP := caseLabels_ne isa hlabels 18 4 (by decide) (by decide) (by decide)
  have n7 : 9 ≠ isa.SET := caseLabels_ne isa hlabels 18 7 (by decide) (by decide) (by decide)
  have n8 : 9 ≠ isa.GET := caseLabels_ne isa hlabels 18 8 (by decide) (by decide) (by decide)
  have n9 : 9 ≠ isa.DELAY := caseLabels_ne isa hlabels 18 9 (by decide) (by decide) (by decide)
  have n10 : 9 ≠ isa.DELAYUNTIL := caseLabels_ne isa hlabels 18 10 (by decide) (by decide) (by decide)
  have n11 : 9 ≠ isa.MILLIS := caseLabels_ne isa hlabels 18 11 (by decide) (by decide) (by decide)
  have n12 : 9 ≠ isa.PINMODE := caseLabels_ne isa hlabels 18 12 (by decide) (by decide) (by decide)
  have n13 : 9 ≠ isa.DIGITALWRITE :=
    caseLabels_ne isa hlabels 18 13 (by decide) (by decide) (by decide)
  have n14 : 9 ≠ isa.FORK := caseLabels_ne isa hlabels 18 14 (by decide) (by decide) (by decide)
  have n15 : 9 ≠ isa.WAITUNTILDONE :=
    caseLabels_ne isa hlabels 18 15 (by decide) (by decide) (by decide)
  have c0 : isa.CHAR ≠ isa.INT := caseLabels_ne isa hlabels 0 1 (by decide) (by decide) (by decide)
  have c1 : ¬ ((2 : Int) = (isa.CHAR : Int)) := by omega
  have c2 : (2 : Int) = (isa.INT : Int) := by omega
  obtain ⟨-, f2, f3, -⟩ := pushInt_facts (pushInt s (k.processTable index).procID sp0 x).1
    (k.processTable index).procID (sp0 + 3) y hy
  obtain ⟨-, e2, e3, -⟩ := pushInt_facts s (k.processTable index).procID sp0 x hx
  have g2 : popByte k.stack (k.processTable index).procID (sp0 + 6) = (2, sp0 + 5) := by
    rw [hstack]
    have : sp0 + 3 + 3 = sp0 + 6 := by ring
    rw [this] at f2
    rw [f2]
    congr 1
    ring
  have g3 : popInt k.stack (k.processTable index).procID (sp0 + 5) = (y, sp0 + 3) := by
    rw [hstack]
    have : sp0 + 3 + 2 = sp0 + 5 := by ring
    rw [this] at f3
    exact f3
  have g4 : popByte k.stack (k.processTable index).procID (sp0 + 3) = (2, sp0 + 2) := by
    rw [hstack, popByte_pushInt_below _ _ _ _ _ (le_refl _)]
    exact e2
  have g5 : popInt k.stack (k.processTable index).procID (sp0 + 2) = (x, sp0) := by
    rw [hstack, popInt_pushInt_below _ _ _ _ _ (by omega)]
    exact e3
  unfold execute
  simp only [fetch, hop]
  rw [if_neg n0, if_neg n1, if_neg n2, if_neg n3, if_neg n4, if_neg (by decide), if_neg n7,
    if_neg n8, if_neg n9, if_neg n10, if_neg n11, if_neg n12, if_neg n13, if_neg n14,
    if_neg n15, if_neg (by decide), if_pos (by decide)]
  unfold setPc
  have t1 : ¬ ((2 : Int) = 1) := by decide
  simp only [hsp, g2, g3, g4, g5, popVal, Nat.cast_ofNat, t1, if_false, if_true, max_self,
    applyBinary, hPLUS, FloatVal.add, pushResult, c1, ← c2, FloatVal.toInt, setSp, setCell_get,
    setCell_setCell, pushInt_snd]

/-- The step of `execute` on `PRINTLN` (opcode 52) with an INT on top of the stack. -/
theorem execute_PRINTLN_INT (isa : InstructionSet) (fpu : FPU) (millis : Nat) (k : Kernel)
    (index : Int) (s : Stack) (sp0 v : Int) (hlabels : isa.caseLabels.Nodup)
    (hINT : isa.INT = 2)
    (hop : EEPROM.read k.eeprom ((k.processTable index).address + (k.processTable index).pc)
      = 52)
    (hv : -32768 ≤ v ∧ v ≤ 32767)
    (hstack : k.stack = (pushInt s (k.processTable index).procID sp0 v).1)
    (hsp : (k.processTable index).sp = sp0 + 3) :
    execute isa fpu millis k index =
      { k with
        processTable := setCell k.processTable index
          { (k.processTable index) with pc := (k.processTable index).pc + 1, sp := sp0 }
        out := k.out ++ [Out.int v, Out.ln] } := by
  have n0 : 52 ≠ isa.CHAR := caseLabels_ne isa hlabels 6 0 (by decide) (by decide) (by decide)
  have n1 : 52 ≠ isa.INT := caseLabels_ne isa hlabels 6 1 (by decide) (by decide) (by decide)
  have n2 : 52 ≠ isa.STRING := caseLabels_ne isa hlabels 6 2 (by decide) (by decide) (by decide)
  have n3 : 52 ≠ isa.FLOAT := caseLabels_ne isa hlabels 6 3 (by decide) (by decide) (by decide)
  have n4 : 52 ≠ isa.STOP := caseLabels_ne isa hlabels 6 4 (by decide) (by decide) (by decide)
  have c0 : isa.CHAR ≠ isa.INT := caseLabels_ne isa hlabels 0 1 (by decide) (by decide) (by decide)
  have c1 : ¬ ((2 : Int) = (isa.CHAR : Int)) := by omega
  have c2 : (2 : Int) = (isa.INT : Int) := by omega
  obtain ⟨-, f2, f3, -⟩ := pushInt_facts s (k.processTable index).procID sp0 v hv
  rw [← hstack] at f2 f3
  unfold execute
  simp only [fetch, hop]
  rw [if_neg n0, if_neg n1, if_neg n2, if_neg n3, if_neg n4, if_pos (by decide)]
  unfold setPc
  simp only [hsp, f2, f3, Nat.cast_ofNat, c1, ← c2, if_false, if_true, setSp, setCell_get,
    setCell_setCell, Kernel.print, List.append_assoc, List.singleton_append]

theorem deleteVars_noVars (k : Kernel) (procID : Int) (hv : k.noOfVars = 0) :
    deleteVars k procID = k := by
  unfold deleteVars
  rw [hv]
  rfl

theorem shiftProcs_noOfProc (k : Kernel) (j : Int) : (shiftProcs k j).noOfProc = k.noOfProc := by
  unfold shiftProcs forLoop
  exact forLoopAux_keeps Kernel.noOfProc _ (by intro i s; rfl) _ _ _

/-- On a table with one process, which is RUNNING and owns no variable, `stopProcess` of its pid
leaves the table empty. -/
theorem stopProcess_sole (k : Kernel) (id : Int) (h1 : k.noOfProc = 1) (hv : k.noOfVars = 0)
    (hid : (k.processTable 0).procID = id) (hst : (k.processTable 0).state = RUNNING) :
    (stopProcess k id).noOfProc = 0 := by
  have hpid : getPid k id = 0 := by
    unfold getPid
    rw [h1]
    show findPid k.processTable id 1 0 = 0
    unfold findPid
    rw [if_pos hid]
  have hT : ¬ ((k.processTable 0).state = TERMINATED) := by
    rw [hst]
    decide
  unfold stopProcess
  simp only [hpid]
  rw [if_neg (by decide), if_neg hT, deleteVars_noVars k id hv]
  simp only [Kernel.print, Kernel.println]
  have hc : (changeProcessState k 0 TERMINATED).noOfProc = 1 := by
    unfold changeProcessState
    rw [if_neg (by decide), if_neg hT]
    exact h1
  unfold forLoop
  rw [forLoopAux_keeps Kernel.noOfProc _ (by
    intro i s
    split
    · exact shiftProcs_noOfProc s i
    · rfl), hc]
  rfl

/-- The step of `execute` on `STOP` for the only process of the table, which owns no
variable: the process table is empty afterwards. -/
theorem execute_STOP_sole (isa : InstructionSet) (fpu : FPU) (millis : Nat) (k : Kernel)
    (hlabels : isa.caseLabels.Nodup)
    (hop : EEPROM.read k.eeprom ((k.processTable 0).address + (k.processTable 0).pc)
      = isa.STOP)
    (h1 : k.noOfProc = 1) (hv : k.noOfVars = 0) (hst : (k.processTable 0).state = RUNNING) :
    (execute isa fpu millis k 0).noOfProc = 0 := by
  have n0 : isa.STOP ≠ isa.CHAR := caseLabels_ne isa hlabels 4 0 (by decide) (by decide) (by decide)
  have n1 : isa.STOP ≠ isa.INT := caseLabels_ne isa hlabels 4 1 (by decide) (by decide) (by decide)
  have n2 : isa.STOP ≠ isa.STRING := caseLabels_ne isa hlabels 4 2 (by decide) (by decide) (by decide)
  have n3 : isa.STOP ≠ isa.FLOAT := caseLabels_ne isa hlabels 4 3 (by decide) (by decide) (by decide)
  unfold execute
  simp only [fetch, hop]
  rw [if_neg n0, if_neg n1, if_neg n2, if_neg n3, if_pos True.intro]
  rw [deleteVars_noVars _ _ (by exact hv)]
  show (stopProcess _ _).noOfProc = 0
  apply stopProcess_sole
  · exact h1
  · exact hv
  · simp only [Kernel.print, Kernel.println, setPc, setCell_get]
  · simp only [Kernel.print, Kernel.println, setPc, setCell_get]
    exact hst

/-- A scheduler pass over a table with one RUNNING process is one step of that process. -/
theorem runProcesses_sole (isa : InstructionSet) (fpu : FPU) (millis : Nat) (k : Kernel)
    (h1 : k.noOfProc = 1) (hst : (k.processTable 0).state = RUNNING)
    (h2 : (execute isa fpu millis k 0).noOfProc ≤ 1) :
    runProcesses isa fpu millis k = execute isa fpu millis k 0 := by
  unfold runProcesses
  rw [h1]
  show runProcessesLoop isa fpu millis 10 0 k = _
  unfold runProcessesLoop
  rw [if_pos (by omega), if_pos hst]
  unfold runProcessesLoop
  rw [if_neg (by omega)]

theorem getBytes_getD (e : EEPROM) (n : Nat) (address : Int) (i : Nat) (hi : i < n) :
    (EEPROM.getBytes e address n).getD i 0 = EEPROM.read e (address + i) := by
  induction n generalizing address i with
  | zero => omega
  | succ n ih =>
    cases i with
    | zero => simp [EEPROM.getBytes]
    | succ j =>
      have := ih (address + 1) j (by omega)
      simp only [EEPROM.getBytes, List.getD_cons_succ, this]
      congr 1
      push_cast
      ring

/-- A scheduler pass in which the only process executes `INT v`. -/
theorem tick_INT (isa : InstructionSet) (fpu : FPU) (millis : Nat) (k : Kernel)
    (v p A pc pc1 pc2 pc3 sp sp3 : Int)
    (hlabels : isa.caseLabels.Nodup) (hk : soleProcess k p A pc sp)
    (hop : EEPROM.read k.eeprom (A + pc) = isa.INT)
    (hhi : EEPROM.read k.eeprom (A + pc1) = highByte v)
    (hlo : EEPROM.read k.eeprom (A + pc2) = lowByte v)
    (hv : -32768 ≤ v ∧ v ≤ 32767)
    (e1 : pc1 = pc + 1) (e2 : pc2 = pc + 2) (e3 : pc3 = pc + 3) (e4 : sp3 = sp + 3) :
    soleProcess (runProcesses isa fpu millis k) p A pc3 sp3 ∧
    (runProcesses isa fpu millis k).eeprom = k.eeprom ∧
    (runProcesses isa fpu millis k).stack = (pushInt k.stack p sp v).1 ∧
    (runProcesses isa fpu millis k).out = k.out := by
  obtain ⟨h1, hv0, hp, hst, hA, hpc, hsp⟩ := hk
  subst e1 e2 e3 e4
  have hexec := execute_INT isa fpu millis k 0 hlabels (by rw [hpc, hA]; exact hop)
  rw [hpc, hsp, hA, hp, hhi, hlo, word_highByte_lowByte v hv.1 hv.2] at hexec
  rw [runProcesses_sole isa fpu millis k h1 hst (by rw [hexec]; exact le_of_eq h1), hexec]
  refine ⟨⟨h1, hv0, ?_, ?_, ?_, ?_, ?_⟩, rfl, rfl, rfl⟩ <;> simp only [setCell_get]
  · exact hp
  · exact hst
  · exact hA

/-- A scheduler pass in which the only process executes `PLUS` on two INT operands. -/
theorem tick_PLUS (isa : InstructionSet) (fpu : FPU) (millis : Nat) (k : Kernel) (s : Stack)
    (x y p A pc pc1 sp0 sp3 sp6 : Int)
    (hlabels : isa.caseLabels.Nodup) (hINT : isa.INT = 2) (hPLUS : isa.PLUS = 9)
    (hk : soleProcess k p A pc sp6)
    (hop : EEPROM.read k.eeprom (A + pc) = 9)
    (hx : -32768 ≤ x ∧ x ≤ 32767) (hy : -32768 ≤ y ∧ y ≤ 32767)
    (hstack : k.stack = (pushInt (pushInt s p sp0 x).1 p sp3 y).1)
    (e1 : pc1 = pc + 1) (e3 : sp3 = sp0 + 3) (e6 : sp6 = sp0 + 6) :
    soleProcess (runProcesses isa fpu millis k) p A pc1 sp3 ∧
    (runProcesses isa fpu millis k).eeprom = k.eeprom ∧
    (runProcesses isa fpu millis k).stack = (pushInt k.stack p sp0 (toInt16 (x + y))).1 ∧
    (runProcesses isa fpu millis k).out = k.out := by
  obtain ⟨h1, hv0, hp, hst, hA, hpc, hsp⟩ := hk
  subst e1 e3 e6
  have hexec := execute_PLUS_INT_INT isa fpu millis k 0 s sp0 x y hlabels hINT hPLUS
    (by rw [hpc, hA]; exact hop) hx hy (by rw [hp]; exact hstack) hsp
  rw [hpc, hp] at hexec
  rw [runProcesses_sole isa fpu millis k h1 hst (by rw [hexec]; exact le_of_eq h1), hexec]
  refine ⟨⟨h1, hv0, ?_, ?_, ?_, ?_, ?_⟩, rfl, rfl, rfl⟩ <;> simp only [setCell_get]
  · exact hp
  · exact hst
  · exact hA

/-- A scheduler pass in which the only process executes `PRINTLN` on an INT. -/
theorem tick_PRINTLN (isa : InstructionSet) (fpu : FPU) (millis : Nat) (k : Kernel) (s : Stack)
    (v p A pc pc1 sp0 sp3 : Int)
    (hlabels : isa.caseLabels.Nodup) (hINT : isa.INT = 2)
    (hk : soleProcess k p A pc sp3)
    (hop : EEPROM.read k.eeprom (A + pc) = 52)
    (hv : -32768 ≤ v ∧ v ≤ 32767)
    (hstack : k.stack = (pushInt s p sp0 v).1)
    (e1 : pc1 = pc + 1) (e3 : sp3 = sp0 + 3) :
    soleProcess (runProcesses isa fpu millis k) p A pc1 sp0 ∧
    (runProcesses isa fpu millis k).eeprom = k.eeprom ∧
    (runProcesses isa fpu millis k).stack = k.stack ∧
    (runProcesses isa fpu millis k).out = k.out ++ [Out.int v, Out.ln] := by
  obtain ⟨h1, hv0, hp, hst, hA, hpc, hsp⟩ := hk
  subst e1 e3
  have hexec := execute_PRINTLN_INT isa fpu millis k 0 s sp0 v hlabels hINT
    (by rw [hpc, hA]; exact hop) hv (by rw [hp]; exact hstack) hsp
  rw [hpc] at hexec
  rw [runProcesses_sole isa fpu millis k h1 hst (by rw [hexec]; exact le_of_eq h1), hexec]
  refine ⟨⟨h1, hv0, ?_, ?_, ?_, ?_, ?_⟩, rfl, rfl, rfl⟩ <;> simp only [setCell_get]
  · exact hp
  · exact hst
  · exact hA

/-- A scheduler pass in which the only process executes `STOP`. -/
theorem tick_STOP (isa : InstructionSet) (fpu : FPU) (millis : Nat) (k : Kernel)
    (p A pc sp : Int) (hlabels : isa.caseLabels.Nodup) (hk : soleProcess k p A pc sp)
    (hop : EEPROM.read k.eeprom (A + pc) = isa.STOP) :
    (runProcesses isa fpu millis k).noOfProc = 0 := by
  obtain ⟨h1, hv0, hp, hst, hA, hpc, hsp⟩ := hk
  have h0 := execute_STOP_sole isa fpu millis k hlabels (by rw [hpc, hA]; exact hop) h1 hv0 hst
  rw [runProcesses_sole isa fpu millis k h1 hst (by rw [h0]; decide), h0]

/-- C14: the program `INT a`, `INT b`, `PLUS`, `PRINTLN`, `STOP` runs as the only process (pid
`p`, program at offset `A`, empty stack, no variables), for INT values `a`, `b` whose sum fits
in 16 bits, whatever the clock reads.  After three scheduler passes the process is about to
execute `PRINTLN`, its stack holds the three bytes of `INT a + b`, and nothing has been
printed; after the fourth pass `a + b` and a newline have been printed and the stack is empty
again; after the fifth pass the process table is empty. -/
theorem sum_program_runs (isa : InstructionSet) (fpu : FPU) (m1 m2 m3 m4 m5 : Nat) (k : Kernel)
    (a b p A : Int) (hlabels : isa.caseLabels.Nodup) (hINT : isa.INT = 2) (hPLUS : isa.PLUS = 9)
    (ha : -32768 ≤ a ∧ a ≤ 32767) (hb : -32768 ≤ b ∧ b ≤ 32767)
    (hab : -32768 ≤ a + b ∧ a + b ≤ 32767)
    (hk : soleProcess k p A 0 0)
    (hcode : EEPROM.getBytes k.eeprom A 9 = sumProgram isa a b) :
    (soleProcess (runPasses isa fpu [m1, m2, m3] k) p A 7 3 ∧
      popByte (runPasses isa fpu [m1, m2, m3] k).stack p 3 = (2, 2) ∧
      popInt (runPasses isa fpu [m1, m2, m3] k).stack p 2 = (a + b, 0) ∧
      (runPasses isa fpu [m1, m2, m3] k).out = k.out) ∧
    (soleProcess (runPasses isa fpu [m1, m2, m3, m4] k) p A 8 0 ∧
      (runPasses isa fpu [m1, m2, m3, m4] k).out = k.out ++ [Out.int (a + b), Out.ln]) ∧
    (runPasses isa fpu [m1, m2, m3, m4, m5] k).noOfProc = 0 := by
  have rd : ∀ i : Nat, i < 9 →
      EEPROM.read k.eeprom (A + i) = (sumProgram isa a b).getD i 0 := by
    intro i hi
    rw [← getBytes_getD k.eeprom 9 _ i hi, hcode]
  have r0 := rd 0 (by decide)
  have r1 := rd 1 (by decide)
  have r2 := rd 2 (by decide)
  have r3 := rd 3 (by decide)
  have r4 := rd 4 (by decide)
  have r5 := rd 5 (by decide)
  have r6 := rd 6 (by decide)
  have r7 := rd 7 (by decide)
  have r8 := rd 8 (by decide)
  simp only [sumProgram, List.getD_cons_zero, List.getD_cons_succ, Nat.cast_ofNat, Nat.cast_zero,
    Nat.cast_one, hPLUS] at r0 r1 r2 r3 r4 r5 r6 r7 r8
  have hsum : toInt16 (a + b) = a + b := by
    unfold toInt16
    omega
  simp only [runPasses]
  obtain ⟨s1, e1, t1, o1⟩ := tick_INT isa fpu m1 k a p A 0 1 2 3 0 3 hlabels hk r0 r1 r2 ha
    (by norm_num) (by norm_num) (by norm_num) (by norm_num)
  generalize runProcesses isa fpu m1 k = k1 at s1 e1 t1 o1 ⊢
  obtain ⟨s2, e2, t2, o2⟩ := tick_INT isa fpu m2 k1 b p A 3 4 5 6 3 6 hlabels s1
    (by rw [e1]; exact r3) (by rw [e1]; exact r4) (by rw [e1]; exact r5) hb
    (by norm_num) (by norm_num) (by norm_num) (by norm_num)
  generalize runProcesses isa fpu m2 k1 = k2 at s2 e2 t2 o2 ⊢
  obtain ⟨s3, e3, t3, o3⟩ := tick_PLUS isa fpu m3 k2 k.stack a b p A 6 7 0 3 6 hlabels hINT
    hPLUS s2 (by rw [e2, e1]; exact r6) ha hb (by rw [t2, t1]) (by norm_num) (by norm_num)
    (by norm_num)
  generalize runProcesses isa fpu m3 k2 = k3 at s3 e3 t3 o3 ⊢
  rw [hsum] at t3
  obtain ⟨f1, f2, f3, -⟩ := pushInt_facts k2.stack p 0 (a + b) hab
  obtain ⟨s4, e4, t4, o4⟩ := tick_PRINTLN isa fpu m4 k3 k2.stack (a + b) p A 7 8 0 3 hlabels
    hINT s3 (by rw [e3, e2, e1]; exact r7) hab t3 (by norm_num) (by norm_num)
  generalize runProcesses isa fpu m4 k3 = k4 at s4 e4 t4 o4 ⊢
  have h5 := tick_STOP isa fpu m5 k4 p A 8 0 hlabels s4 (by rw [e4, e3, e2, e1]; exact r8)
  refine ⟨⟨s3, ?_, ?_, ?_⟩, ⟨s4, ?_⟩, h5⟩
  · rw [t3]
    exact f2
  · rw [t3]
    exact f3
  · rw [o3, o2, o1]
  · rw [o4, o3, o2, o1]

set_option maxRecDepth 100000 in
/-- C14 for `a = 5`, `b = 7`: the program of spec section 8, scenario 3, prints 12. -/
theorem sum_program_runs_witness :
    (soleProcess (runPasses instructionSet noFPU [0, 1, 2] fivePlusSeven) 0 200 7 3 ∧
      popByte (runPasses instructionSet noFPU [0, 1, 2] fivePlusSeven).stack 0 3 = (2, 2) ∧
      popInt (runPasses instructionSet noFPU [0, 1, 2] fivePlusSeven).stack 0 2 = (12, 0) ∧
      (runPasses instructionSet noFPU [0, 1, 2] fivePlusSeven).out = fivePlusSeven.out) ∧
    (soleProcess (runPasses instructionSet noFPU [0, 1, 2, 3] fivePlusSeven) 0 200 8 0 ∧
      (runPasses instructionSet noFPU [0, 1, 2, 3] fivePlusSeven).out
        = fivePlusSeven.out ++ [Out.int 12, Out.ln]) ∧
    (runPasses instructionSet noFPU [0, 1, 2, 3, 4] fivePlusSeven).noOfProc = 0 :=
  sum_program_runs instructionSet noFPU 0 1 2 3 4 fivePlusSeven 5 7 0 200 (by decide) rfl rfl
    (by decide) (by decide) (by decide) (by decide) (by decide)

/-! ## The persisted file table, byte by byte -/

theorem putBytes_outside (bs : List Nat) : ∀ (e : EEPROM) (address a : Int),
    a < address ∨ address + bs.length ≤ a → EEPROM.putBytes e address bs a = e a := by
  induction bs with
  | nil => intro e address a _; rfl
  | cons b bs ih =>
    intro e address a h
    simp only [EEPROM.putBytes, List.length_cons, Nat.cast_add, Nat.cast_one] at h ⊢
    rw [ih _ _ _ (by omega)]
    unfold EEPROM.write
    rw [if_neg (by omega)]

theorem getBytes_putBytes (bs : List Nat) : ∀ (e : EEPROM) (address : Int),
    (∀ c ∈ bs, c < 256) →
    EEPROM.getBytes (EEPROM.putBytes e address bs) address bs.length = bs := by
  induction bs with
  | nil => intro e address _; rfl
  | cons b bs ih =>
    intro e address h
    have hb : b < 256 := h b (by simp)
    simp only [EEPROM.putBytes, List.length_cons, EEPROM.getBytes]
    rw [ih _ _ (fun c hc => h c (by simp [hc]))]
    congr 1
    unfold EEPROM.read
    rw [putBytes_outside bs _ _ _ (by omega)]
    unfold EEPROM.write
    rw [if_pos rfl]
    omega

theorem getBytes_congr (n : Nat) : ∀ (e e' : EEPROM) (address : Int),
    (∀ a, address ≤ a → a < address + n → e a = e' a) →
    EEPROM.getBytes e address n = EEPROM.getBytes e' address n := by
  induction n with
  | zero => intro e e' address _; rfl
  | succ n ih =>
    intro e e' address h
    simp only [EEPROM.getBytes]
    rw [ih e e' (address + 1) (fun a h1 h2 => h a (by omega) (by push_cast; omega))]
    unfold EEPROM.read
    rw [h address (le_refl _) (by push_cast; omega)]

theorem getBytes_length (n : Nat) : ∀ (e : EEPROM) (address : Int),
    (EEPROM.getBytes e address n).length = n := by
  induction n with
  | zero => intro e address; rfl
  | succ n ih => intro e address; simp only [EEPROM.getBytes, List.length_cons, ih]

theorem getBytes_lt (n : Nat) : ∀ (e : EEPROM) (address : Int),
    ∀ c ∈ EEPROM.getBytes e address n, c < 256 := by
  induction n with
  | zero => intro e address c hc; simp [EEPROM.getBytes] at hc
  | succ n ih =>
    intro e address c hc
    simp only [EEPROM.getBytes, List.mem_cons] at hc
    rcases hc with h | h
    · rw [h]
      unfold EEPROM.read
      omega
    · exact ih _ _ c h

theorem putInt_outside (e : EEPROM) (address v a : Int) (h : a < address ∨ address + 2 ≤ a) :
    EEPROM.putInt e address v a = e a := by
  unfold EEPROM.putInt EEPROM.write
  rw [if_neg (by omega), if_neg (by omega)]

theorem getInt_putInt (e : EEPROM) (address v : Int) (hv : -32768 ≤ v ∧ v ≤ 32767) :
    EEPROM.getInt (EEPROM.putInt e address v) address = v := by
  have hl : lowByte v < 256 := by unfold lowByte; omega
  have hh : highByte v < 256 := by unfold highByte; omega
  unfold EEPROM.getInt EEPROM.putInt EEPROM.read EEPROM.write
  rw [if_pos rfl, if_neg (by omega), if_pos rfl]
  rw [Nat.mod_eq_of_lt hh, Nat.mod_eq_of_lt hh, Nat.mod_eq_of_lt hl, Nat.mod_eq_of_lt hl]
  exact word_highByte_lowByte v hv.1 hv.2

theorem getInt_congr (e e' : EEPROM) (address : Int)
    (h : ∀ a, address ≤ a → a < address + 2 → e a = e' a) :
    EEPROM.getInt e address = EEPROM.getInt e' address := by
  unfold EEPROM.getInt EEPROM.read
  rw [h address (le_refl _) (by omega), h (address + 1) (by omega) (by omega)]

theorem getInt_range (e : EEPROM) (address : Int) :
    -32768 ≤ EEPROM.getInt e address ∧ EEPROM.getInt e address ≤ 32767 := by
  unfold EEPROM.getInt word toInt16
  omega
theorem putFATEntry_outside (e : EEPROM) (address : Int) (entry : FATEntry) (a : Int)
    (h : a < address ∨ address + 16 ≤ a) :
    EEPROM.putFATEntry e address entry a = e a := by
  unfold EEPROM.putFATEntry
  rw [putInt_outside _ _ _ _ (by omega), putInt_outside _ _ _ _ (by omega),
    putBytes_outside _ _ _ _ (by
      have : ((entry.name ++ List.replicate 12 0).take 12).length ≤ 12 := by
        rw [List.length_take]
        omega
      omega)]

theorem getFATEntry_congr (e e' : EEPROM) (address : Int)
    (h : ∀ a, address ≤ a → a < address + 16 → e a = e' a) :
    EEPROM.getFATEntry e address = EEPROM.getFATEntry e' address := by
  unfold EEPROM.getFATEntry
  rw [getBytes_congr 12 e e' address (fun a h1 h2 => h a h1 (by push_cast at h2; omega)),
    getInt_congr e e' (address + 12) (fun a h1 h2 => h a (by omega) (by omega)),
    getInt_congr e e' (address + 14) (fun a h1 h2 => h a (by omega) (by omega))]

theorem getFATEntry_valid (e : EEPROM) (address : Int) :
    (EEPROM.getFATEntry e address).valid :=
  ⟨getBytes_length 12 e address, getBytes_lt 12 e address, getInt_range e _, getInt_range e _⟩

theorem getFATEntry_putFATEntry (e : EEPROM) (address : Int) (entry : FATEntry)
    (hv : entry.valid) :
    EEPROM.getFATEntry (EEPROM.putFATEntry e address entry) address = entry := by
  obtain ⟨h12, hlt, hb, hl⟩ := hv
  have hname : (entry.name ++ List.replicate 12 0).take 12 = entry.name := by
    rw [List.take_append_of_le_length (by omega), List.take_of_length_le (by omega)]
  unfold EEPROM.putFATEntry EEPROM.getFATEntry
  rw [hname]
  have e1 : EEPROM.getBytes
      (EEPROM.putInt (EEPROM.putInt (EEPROM.putBytes e address entry.name) (address + 12)
        entry.beginPosition) (address + 14) entry.length) address 12 = entry.name := by
    rw [getBytes_congr 12 _ (EEPROM.putBytes e address entry.name) address (by
      intro a h1 h2
      push_cast at h2
      rw [putInt_outside _ _ _ _ (by omega), putInt_outside _ _ _ _ (by omega)])]
    have := getBytes_putBytes entry.name e address hlt
    rw [h12] at this
    exact this
  have e2 : EEPROM.getInt
      (EEPROM.putInt (EEPROM.putInt (EEPROM.putBytes e address entry.name) (address + 12)
        entry.beginPosition) (address + 14) entry.length) (address + 12)
      = entry.beginPosition := by
    rw [getInt_congr _ (EEPROM.putInt (EEPROM.putBytes e address entry.name) (address + 12)
      entry.beginPosition) (address + 12) (by
      intro a h1 h2
      rw [putInt_outside _ _ _ _ (by omega)])]
    exact getInt_putInt _ _ _ hb
  have e3 : EEPROM.getInt
      (EEPROM.putInt (EEPROM.putInt (EEPROM.putBytes e address entry.name) (address + 12)
        entry.beginPosition) (address + 14) entry.length) (address + 14)
      = entry.length := getInt_putInt _ _ _ hl
  rw [e1, e2, e3]
theorem writeLoop_spec (FAT : Int → FATEntry) (cnt : Nat) : ∀ (i0 : Int) (e : EEPROM),
    (∀ a, a < sizeofInt + i0 * sizeofFATEntry ∨ sizeofInt + (i0 + cnt) * sizeofFATEntry ≤ a →
      forLoopAux (fun i e => EEPROM.putFATEntry e (sizeofInt + i * sizeofFATEntry) (FAT i))
        cnt i0 e a = e a) ∧
    (∀ x, i0 ≤ x → x < i0 + cnt → (FAT x).valid →
      EEPROM.getFATEntry
        (forLoopAux (fun i e => EEPROM.putFATEntry e (sizeofInt + i * sizeofFATEntry) (FAT i))
          cnt i0 e) (sizeofInt + x * sizeofFATEntry) = FAT x) := by
  have hs : sizeofInt = 2 := rfl
  have hf : sizeofFATEntry = 16 := rfl
  induction cnt with
  | zero =>
    intro i0 e
    exact ⟨fun a _ => rfl, fun x h1 h2 _ => by simp at h2; omega⟩
  | succ cnt ih =>
    intro i0 e
    obtain ⟨ih1, ih2⟩ := ih (i0 + 1)
      (EEPROM.putFATEntry e (sizeofInt + i0 * sizeofFATEntry) (FAT i0))
    simp only [forLoopAux]
    rw [hs, hf] at ih1 ih2 ⊢
    constructor
    · intro a ha
      rw [ih1 a (by push_cast at ha; omega), putFATEntry_outside _ _ _ _ (by push_cast at ha; omega)]
    · intro x h1 h2 hv
      by_cases hx : x = i0
      · subst hx
        rw [getFATEntry_congr _ (EEPROM.putFATEntry e (2 + x * 16) (FAT x)) _
          (fun a h3 h4 => ih1 a (by omega))]
        exact getFATEntry_putFATEntry _ _ _ hv
      · exact ih2 x (by omega) (by push_cast at h2; omega) hv

/-- What `writeFAT` leaves in the EEPROM: the count, the first `noOfFiles` records, and
every byte behind them as it was. -/
theorem writeFAT_spec (k : Kernel) (h0 : 0 ≤ k.noOfFiles) (h1 : k.noOfFiles ≤ 32767) :
    EEPROM.getInt (writeFAT k).eeprom 0 = k.noOfFiles ∧
    (∀ x, 0 ≤ x → x < k.noOfFiles → (k.FAT x).valid → getFATEntry (writeFAT k) x = k.FAT x) ∧
    (∀ a, sizeofInt + k.noOfFiles * sizeofFATEntry ≤ a → (writeFAT k).eeprom a = k.eeprom a) := by
  have hs : sizeofInt = 2 := rfl
  have hf : sizeofFATEntry = 16 := rfl
  obtain ⟨w1, w2⟩ := writeLoop_spec k.FAT k.noOfFiles.toNat 0 (EEPROM.putInt k.eeprom 0 k.noOfFiles)
  have hc : ((k.noOfFiles.toNat : Nat) : Int) = k.noOfFiles := Int.toNat_of_nonneg h0
  rw [hc] at w1 w2
  have hw : (writeFAT k).eeprom
      = forLoopAux (fun i e => EEPROM.putFATEntry e (sizeofInt + i * sizeofFATEntry) (k.FAT i))
          k.noOfFiles.toNat 0 (EEPROM.putInt k.eeprom 0 k.noOfFiles) := by
    unfold writeFAT forLoop
    simp only [sub_zero]
  refine ⟨?_, ?_, ?_⟩
  · rw [hw, getInt_congr _ (EEPROM.putInt k.eeprom 0 k.noOfFiles) 0
      (fun a h3 h4 => w1 a (by rw [hs, hf]; omega))]
    exact getInt_putInt _ _ _ ⟨by omega, h1⟩
  · intro x hx0 hx1 hv
    unfold getFATEntry
    rw [hw]
    exact w2 x (by omega) (by omega) hv
  · intro a ha
    rw [hw, w1 a (by rw [hs, hf] at ha ⊢; omega), putInt_outside _ _ _ _ (by rw [hs, hf] at ha; omega)]
theorem shiftFATLoop_spec (cnt : Nat) : ∀ (i : Int) (k : Kernel),
    forLoopAux (fun i k => { k with FAT := setCell k.FAT i (k.FAT (i + 1)) }) cnt i k
      = { k with FAT := fun j => if i ≤ j ∧ j < i + cnt then k.FAT (j + 1) else k.FAT j } := by
  induction cnt with
  | zero =>
    intro i k
    simp only [forLoopAux]
    have : (fun j => if i ≤ j ∧ j < i + ((0 : Nat) : Int) then k.FAT (j + 1) else k.FAT j)
        = k.FAT := by
      funext j
      have : ¬ (i ≤ j ∧ j < i + ((0 : Nat) : Int)) := by push_cast; omega
      simp [this]
    rw [this]
  | succ cnt ih =>
    intro i k
    simp only [forLoopAux, ih]
    congr 1
    funext j
    simp only [setCell]
    by_cases h1 : j = i
    · subst h1
      have a1 : ¬ (j + 1 ≤ j ∧ j < j + 1 + (cnt : Int)) := by omega
      have a2 : (j ≤ j ∧ j < j + ((cnt : Int) + 1)) := by omega
      simp [a1, a2]
    · by_cases h2 : i + 1 ≤ j ∧ j < i + 1 + (cnt : Int)
      · have a2 : (i ≤ j ∧ j < i + ((cnt : Int) + 1)) := by omega
        have a3 : ¬ (j + 1 = i) := by omega
        simp [h2, a2, a3]
      · have a2 : ¬ (i ≤ j ∧ j < i + ((cnt : Int) + 1)) := by omega
        simp [h1, h2, a2]

theorem readLoop_spec (cnt : Nat) : ∀ (i : Int) (k : Kernel),
    forLoopAux (fun i k => { k with FAT := setCell k.FAT i (getFATEntry k i) }) cnt i k
      = { k with FAT := fun j => if i ≤ j ∧ j < i + cnt then getFATEntry k j else k.FAT j } := by
  induction cnt with
  | zero =>
    intro i k
    simp only [forLoopAux]
    have : (fun j => if i ≤ j ∧ j < i + ((0 : Nat) : Int) then getFATEntry k j else k.FAT j)
        = k.FAT := by
      funext j
      have : ¬ (i ≤ j ∧ j < i + ((0 : Nat) : Int)) := by push_cast; omega
      simp [this]
    rw [this]
  | succ cnt ih =>
    intro i k
    simp only [forLoopAux, ih]
    congr 1
    funext j
    simp only [setCell, getFATEntry]
    by_cases h1 : j = i
    · subst h1
      have a1 : ¬ (j + 1 ≤ j ∧ j < j + 1 + (cnt : Int)) := by omega
      have a2 : (j ≤ j ∧ j < j + ((cnt + 1 : Nat) : Int)) := by push_cast; omega
      rw [if_neg a1, if_pos rfl, if_pos a2]
    · by_cases h2 : i + 1 ≤ j ∧ j < i + 1 + (cnt : Int)
      · have a2 : (i ≤ j ∧ j < i + ((cnt + 1 : Nat) : Int)) := by push_cast; omega
        rw [if_pos h2, if_pos a2]
      · have a2 : ¬ (i ≤ j ∧ j < i + ((cnt + 1 : Nat) : Int)) := by push_cast; omega
        rw [if_neg h2, if_neg h1, if_neg a2]

/-- What `readFAT` loads: the persisted count and the ten persisted records. -/
theorem readFAT_eq (k : Kernel) :
    readFAT k = { k with
      noOfFiles := EEPROM.getInt k.eeprom 0
      FAT := fun j => if 0 ≤ j ∧ j < MAX_PROCESSES then getFATEntry k j else k.FAT j } := by
  have hcnt : (MAX_PROCESSES - 0).toNat = 10 := by decide
  unfold readFAT forLoop
  rw [hcnt, readLoop_spec]
  have e : (0 : Int) + ((10 : Nat) : Int) = MAX_PROCESSES := by decide
  rw [e]
  simp only [getFATEntry]

theorem findName_first (FAT : Int → FATEntry) (fileName : List Nat) (cnt : Nat) :
    ∀ (i0 : Int) (d : Nat), d < cnt → strcmpEq (FAT (i0 + d)).name fileName = true →
      (∀ x, i0 ≤ x → x < i0 + d → strcmpEq (FAT x).name fileName = false) →
      findName FAT fileName cnt i0 = i0 + d := by
  induction cnt with
  | zero => intro i0 d hd; omega
  | succ cnt ih =>
    intro i0 d hd hm hfirst
    unfold findName
    cases d with
    | zero =>
      simp only [Nat.cast_zero, add_zero] at hm ⊢
      rw [if_pos hm]
    | succ d =>
      have h0 := hfirst i0 (le_refl _) (by push_cast; omega)
      rw [if_neg (by rw [h0]; decide)]
      have := ih (i0 + 1) d (by omega) (by
        have e : i0 + 1 + (d : Int) = i0 + ((d + 1 : Nat) : Int) := by push_cast; ring
        rw [e]
        exact hm) (fun x h1 h2 => hfirst x (by omega) (by push_cast; omega))
      rw [this]
      push_cast
      ring
theorem getFileInFAT_first (k : Kernel) (fileName : List Nat) (j : Int) (hj0 : 0 ≤ j)
    (hjn : j < EEPROM.getInt k.eeprom 0) (hmax : EEPROM.getInt k.eeprom 0 ≤ MAX_PROCESSES)
    (hname : strcmpEq (getFATEntry k j).name fileName = true)
    (hfirst : ∀ i, 0 ≤ i → i < j → strcmpEq (getFATEntry k i).name fileName = false) :
    getFileInFAT k fileName = (readFAT k, j) := by
  have hM : MAX_PROCESSES = 10 := rfl
  have hF : (readFAT k).FAT
      = fun x => if 0 ≤ x ∧ x < MAX_PROCESSES then getFATEntry k x else k.FAT x := by
    rw [readFAT_eq]
  have e : (0 : Int) + (j.toNat : Int) = j := by omega
  unfold getFileInFAT
  dsimp only
  rw [hF, readFAT_noOfFiles]
  have := findName_first
    (fun x => if 0 ≤ x ∧ x < MAX_PROCESSES then getFATEntry k x else k.FAT x) fileName
    (EEPROM.getInt k.eeprom 0).toNat 0 j.toNat (by omega)
    (by
      rw [e]
      dsimp only
      rw [if_pos (by omega)]
      exact hname)
    (by
      intro x h1 h2
      dsimp only
      rw [if_pos (by omega)]
      exact hfirst x h1 (by omega))
  rw [this, e]
theorem getFATEntry_readFAT (k : Kernel) (x : Int) :
    getFATEntry (readFAT k) x = getFATEntry k x := by
  unfold getFATEntry
  rw [readFAT_eeprom]

/-- The EEPROM after `eraseFile` of a name found at index `j`: `writeFAT` of the table with
`n - 1` entries in which the entries from `j` on have moved one place down. -/
theorem eraseFile_eeprom (k : Kernel) (fileName : List Nat) (emptyEntry : FATEntry) (n j : Int)
    (hn : EEPROM.getInt k.eeprom 0 = n) (hmax : n ≤ MAX_PROCESSES) (hj0 : 0 ≤ j) (hjn : j < n)
    (hname : strcmpEq (getFATEntry k j).name fileName = true)
    (hfirst : ∀ i, 0 ≤ i → i < j → strcmpEq (getFATEntry k i).name fileName = false) :
    ∃ K : Kernel, (eraseFile k fileName emptyEntry).eeprom = (writeFAT K).eeprom ∧
      K.eeprom = k.eeprom ∧ K.noOfFiles = n - 1 ∧
      (∀ x, 0 ≤ x → x < j → K.FAT x = getFATEntry k x) ∧
      (∀ x, j ≤ x → x < n - 1 → K.FAT x = getFATEntry k (x + 1)) := by
  have hM : MAX_PROCESSES = 10 := rfl
  have hg := getFileInFAT_first (readFAT k) fileName j hj0
    (by rw [readFAT_eeprom, hn]; exact hjn) (by rw [readFAT_eeprom, hn]; exact hmax)
    (by rw [getFATEntry_readFAT]; exact hname)
    (fun i h1 h2 => by rw [getFATEntry_readFAT]; exact hfirst i h1 h2)
  have hne : ¬ (j = -1) := by omega
  unfold eraseFile
  dsimp only
  rw [hg]
  dsimp only
  rw [if_neg hne]
  have h2e : (readFAT (readFAT k)).eeprom = k.eeprom := by
    rw [readFAT_eeprom, readFAT_eeprom]
  have h2n : (readFAT (readFAT k)).noOfFiles = n := by
    rw [readFAT_noOfFiles, readFAT_eeprom, hn]
  have h2F : ∀ y, 0 ≤ y → y < 10 → (readFAT (readFAT k)).FAT y = getFATEntry k y := by
    intro y h1 h2
    rw [readFAT_eq (readFAT k)]
    dsimp only
    rw [if_pos (by omega), getFATEntry_readFAT]
  generalize readFAT (readFAT k) = k2 at h2e h2n h2F ⊢
  have hS : forLoop j k2.noOfFiles
      (fun i k => { k with FAT := setCell k.FAT i (k.FAT (i + 1)) }) k2
      = { k2 with FAT := fun x =>
            if j ≤ x ∧ x < j + ((k2.noOfFiles - j).toNat : Int) then k2.FAT (x + 1)
            else k2.FAT x } := by
    unfold forLoop
    exact shiftFATLoop_spec _ _ _
  rw [hS, h2n]
  refine ⟨_, rfl, h2e, rfl, ?_, ?_⟩
  · intro x hx0 hxj
    show setCell _ (n - 1) emptyEntry x = _
    unfold setCell
    rw [if_neg (by omega)]
    dsimp only
    rw [if_neg (by omega)]
    exact h2F x hx0 (by omega)
  · intro x hjx hxn
    show setCell _ (n - 1) emptyEntry x = _
    unfold setCell
    rw [if_neg (by omega)]
    dsimp only
    rw [if_pos (by omega)]
    exact h2F (x + 1) (by omega) (by omega)

/-- C20: the persisted table holds `n <= MAX_PROCESSES` entries and `j` is the first index
whose name is `fileName`.  After `eraseFile` the persisted count is `n - 1`; the persisted
entries below `j` are the previous ones, and those from `j` on are the previous entries
`j + 1`, `j + 2`, ... (name, begin and length unchanged, order kept).  No byte of the EEPROM
behind the `n - 1` records that are written has changed, in particular no byte at an offset
of `systemMemory` or more. -/
theorem eraseFile_removes_entry (k : Kernel) (fileName : List Nat) (emptyEntry : FATEntry)
    (n j : Int) (hn : EEPROM.getInt k.eeprom 0 = n) (hmax : n ≤ MAX_PROCESSES) (hj0 : 0 ≤ j)
    (hjn : j < n) (hname : strcmpEq (getFATEntry k j).name fileName = true)
    (hfirst : ∀ i, 0 ≤ i → i < j → strcmpEq (getFATEntry k i).name fileName = false) :
    EEPROM.getInt (eraseFile k fileName emptyEntry).eeprom 0 = n - 1 ∧
    (∀ i, 0 ≤ i → i < j →
      getFATEntry (eraseFile k fileName emptyEntry) i = getFATEntry k i) ∧
    (∀ i, j ≤ i → i < n - 1 →
      getFATEntry (eraseFile k fileName emptyEntry) i = getFATEntry k (i + 1)) ∧
    (∀ a, sizeofInt + (n - 1) * sizeofFATEntry ≤ a →
      (eraseFile k fileName emptyEntry).eeprom a = k.eeprom a) ∧
    (∀ a, systemMemory ≤ a → (eraseFile k fileName emptyEntry).eeprom a = k.eeprom a) := by
  have hM : MAX_PROCESSES = 10 := rfl
  obtain ⟨K, hK, hKe, hKn, hlow, hhigh⟩ :=
    eraseFile_eeprom k fileName emptyEntry n j hn hmax hj0 hjn hname hfirst
  obtain ⟨w1, w2, w3⟩ := writeFAT_spec K (by omega) (by omega)
  have hget : ∀ i, getFATEntry (eraseFile k fileName emptyEntry) i = getFATEntry (writeFAT K) i := by
    intro i
    unfold getFATEntry
    rw [hK]
  have hbehind : ∀ a, sizeofInt + (n - 1) * sizeofFATEntry ≤ a →
      (eraseFile k fileName emptyEntry).eeprom a = k.eeprom a := by
    intro a ha
    rw [hK, w3 a (by rw [hKn]; exact ha), hKe]
  refine ⟨?_, ?_, ?_, hbehind, ?_⟩
  · unfold EEPROM.getInt EEPROM.read at w1 ⊢
    rw [hK, w1, hKn]
  · intro i h1 h2
    rw [hget, w2 i h1 (by omega) (by rw [hlow i h1 h2]; exact getFATEntry_valid _ _), hlow i h1 h2]
  · intro i h1 h2
    rw [hget, w2 i (by omega) (by omega) (by rw [hhigh i h1 h2]; exact getFATEntry_valid _ _),
      hhigh i h1 h2]
  · intro a ha
    apply hbehind
    have hs : sizeofInt = 2 := rfl
    have hf : sizeofFATEntry = 16 := rfl
    have hy : systemMemory = 161 := rfl
    rw [hs, hf]
    omega

set_option maxRecDepth 100000 in
/-- C20 on the table `a`, `b`, `c`: after `erase b` the persisted table is `a`, `c`, and the
first payload byte of `c` at offset 400 is untouched. -/
theorem eraseFile_removes_entry_witness :
    EEPROM.getInt (eraseFile threeFiles (ascii "b") zeroEntry).eeprom 0 = 3 - 1 ∧
    getFATEntry (eraseFile threeFiles (ascii "b") zeroEntry) 0 = getFATEntry threeFiles 0 ∧
    getFATEntry (eraseFile threeFiles (ascii "b") zeroEntry) 1 = getFATEntry threeFiles (1 + 1) ∧
    (eraseFile threeFiles (ascii "b") zeroEntry).eeprom 400 = threeFiles.eeprom 400 :=
  have h := eraseFile_removes_entry threeFiles (ascii "b") zeroEntry 3 1 (by decide) (by decide)
    (by decide) (by decide) (by decide)
    (fun i h1 h2 => by
      have e : i = 0 := by omega
      subst e
      decide)
  ⟨h.1, h.2.1 0 (by decide) (by decide), h.2.2.1 1 (by decide) (by decide),
    h.2.2.2.2 400 (by decide)⟩

/-! ## The sort: permutation and order -/

theorem firstCells_succ {α : Type} (t : Int → α) (m : Nat) :
    firstCells t ((m + 1 : Nat) : Int) = firstCells t (m : Int) ++ [t (m : Int)] := by
  unfold firstCells
  rw [Int.toNat_ofNat, Int.toNat_ofNat, List.range_succ, List.map_append]
  rfl

theorem firstCells_congr {α : Type} (t r : Int → α) (n : Int)
    (h : ∀ x : Int, 0 ≤ x → x < n → r x = t x) : firstCells r n = firstCells t n := by
  unfold firstCells
  apply List.map_congr_left
  intro i hi
  rw [List.mem_range] at hi
  exact h i (by omega) (by omega)

theorem firstCells_swapAt {α : Type} (t : Int → α) (a : Nat) (m : Nat) (h : a + 1 < m) :
    (firstCells (swapAt t (a : Int)) (m : Int)).Perm (firstCells t (m : Int)) := by
  induction m with
  | zero => omega
  | succ m ih =>
    rw [firstCells_succ, firstCells_succ]
    by_cases hm : a + 1 < m
    · rw [swapAt_other t a m (by omega) (by omega)]
      exact List.Perm.append_right _ (ih hm)
    · have e : m = a + 1 := by omega
      subst e
      rw [firstCells_succ, firstCells_succ,
        firstCells_congr t (swapAt t (a : Int)) (a : Int)
          (fun x h0 h1 => swapAt_other t a x (by omega) (by omega))]
      have e1 : swapAt t (a : Int) ((a + 1 : Nat) : Int) = t (a : Int) := by
        push_cast
        exact swapAt_right t a
      rw [e1, swapAt_left, List.append_assoc, List.append_assoc]
      apply List.Perm.append_left
      push_cast
      exact List.Perm.swap _ _ _

theorem bubblePass_perm {α : Type} (key : α → Int) (m : Nat) (cnt : Nat) :
    ∀ (i : Nat) (t : Int → α) (sorted : Bool), (cnt ≠ 0 → i + cnt + 1 ≤ m) →
      (firstCells (bubblePass key cnt (i : Int) (t, sorted)).1 (m : Int)).Perm
        (firstCells t (m : Int)) := by
  induction cnt with
  | zero => intro i t sorted _; exact List.Perm.refl _
  | succ cnt ih =>
    intro i t sorted h
    have h' := h (by omega)
    have e : ((i : Int) + 1) = ((i + 1 : Nat) : Int) := by push_cast; rfl
    simp only [bubblePass]
    split
    · rw [e]
      exact (ih (i + 1) (swapAt t i) false (fun _ => by omega)).trans
        (firstCells_swapAt t i m (by omega))
    · rw [e]
      exact ih (i + 1) t sorted (fun _ => by omega)

theorem bubbleLoop_perm {α : Type} (key : α → Int) (n : Int) (fuel : Nat) :
    ∀ (t r : Int → α), bubbleLoop key n fuel t = some r →
      (firstCells r n).Perm (firstCells t n) := by
  have hn : firstCells (α := α) = fun t n => firstCells t ((n.toNat : Nat) : Int) := by
    funext t n
    unfold firstCells
    rw [Int.toNat_ofNat]
  induction fuel with
  | zero => intro t r h; simp [bubbleLoop] at h
  | succ fuel ih =>
    intro t r h
    have hp : (firstCells (bubblePass key (n - 1).toNat 0 (t, true)).1 n).Perm (firstCells t n) := by
      rw [hn]
      exact bubblePass_perm key n.toNat (n - 1).toNat 0 t true (fun h0 => by omega)
    simp only [bubbleLoop] at h
    split at h
    · have e : (bubblePass key (n - 1).toNat 0 (t, true)).1 = r := by simpa using h
      rw [← e]
      exact hp
    · exact (ih _ r h).trans hp

theorem bubbleSort_perm {α : Type} (key : α → Int) (n : Int) (t : Int → α) :
    (firstCells (bubbleSort key n t) n).Perm (firstCells t n) :=
  bubbleLoop_perm key n _ t _ (bubbleLoop_terminates key n t)
theorem bubblePass_flag {α : Type} (key : α → Int) (cnt : Nat) :
    ∀ (i : Int) (t : Int → α) (sorted : Bool),
      (bubblePass key cnt i (t, sorted)).2 = true →
      sorted = true ∧ (bubblePass key cnt i (t, sorted)).1 = t ∧
        ∀ x : Int, i ≤ x → x < i + cnt → key (t x) ≤ key (t (x + 1)) := by
  induction cnt with
  | zero =>
    intro i t sorted h
    exact ⟨h, rfl, fun x h1 h2 => by simp at h2; omega⟩
  | succ cnt ih =>
    intro i t sorted h
    simp only [bubblePass] at h ⊢
    split at h
    · next hgt =>
      rw [if_pos hgt]
      exact absurd (ih (i + 1) (swapAt t i) false h).1 (by decide)
    · next hle =>
      rw [if_neg hle]
      obtain ⟨h1, h2, h3⟩ := ih (i + 1) t sorted h
      refine ⟨h1, h2, fun x hx0 hx1 => ?_⟩
      by_cases hx : x = i
      · subst hx
        omega
      · exact h3 x (by omega) (by push_cast at hx1; omega)

theorem bubbleLoop_sorted {α : Type} (key : α → Int) (n : Int) (fuel : Nat) :
    ∀ (t r : Int → α), bubbleLoop key n fuel t = some r →
      ∀ x : Int, 0 ≤ x → x + 1 < n → key (r x) ≤ key (r (x + 1)) := by
  induction fuel with
  | zero => intro t r h; simp [bubbleLoop] at h
  | succ fuel ih =>
    intro t r h
    simp only [bubbleLoop] at h
    split at h
    · next hflag =>
      obtain ⟨-, h2, h3⟩ := bubblePass_flag key (n - 1).toNat 0 t true hflag
      have e : (bubblePass key (n - 1).toNat 0 (t, true)).1 = r := by simpa using h
      rw [← e, h2]
      intro x hx0 hx1
      exact h3 x hx0 (by omega)
    · exact ih _ r h

theorem ordered_of_adjacent {α : Type} (key : α → Int) (r : Int → α) (n : Int)
    (h : ∀ x : Int, 0 ≤ x → x + 1 < n → key (r x) ≤ key (r (x + 1))) (d : Nat) :
    ∀ i : Int, 0 ≤ i → i + d < n → key (r i) ≤ key (r (i + d)) := by
  induction d with
  | zero => intro i _ _; simp
  | succ d ih =>
    intro i hi0 hi1
    have h1 := ih i hi0 (by push_cast at hi1; omega)
    have h2 := h (i + d) (by omega) (by push_cast at hi1; omega)
    have e : i + ((d + 1 : Nat) : Int) = i + d + 1 := by push_cast; ring
    rw [e]
    exact le_trans h1 h2

/-- The result of the sort is in non-decreasing order of the key. -/
theorem bubbleSort_ordered {α : Type} (key : α → Int) (n : Int) (t : Int → α) (i j : Int)
    (hi : 0 ≤ i) (hij : i ≤ j) (hj : j < n) :
    key (bubbleSort key n t i) ≤ key (bubbleSort key n t j) := by
  have h := ordered_of_adjacent key (bubbleSort key n t) n
    (bubbleLoop_sorted key n _ t _ (bubbleLoop_terminates key n t)) (j - i).toNat i hi (by omega)
  have e : i + ((j - i).toNat : Int) = j := by omega
  rw [e] at h
  exact h

/-- C28: for every file table and count, the `while (!sorted)` loop of `sortFAT` ends
(after at most `bubbleFuel` passes it returns the table `sortFAT` leaves).  On return the
first `noOfFiles` entries are a permutation of the original first `noOfFiles` entries, they
are in non-decreasing order of `beginPosition`, every entry at an index outside
`[0, noOfFiles)` is untouched, and the count and the EEPROM are unchanged. -/
theorem sortFAT_sorts (k : Kernel) :
    bubbleLoop FATEntry.beginPosition k.noOfFiles
      (bubbleFuel FATEntry.beginPosition k.noOfFiles k.FAT) k.FAT = some (sortFAT k).FAT ∧
    (firstCells (sortFAT k).FAT k.noOfFiles).Perm (firstCells k.FAT k.noOfFiles) ∧
    (∀ i j : Int, 0 ≤ i → i ≤ j → j < k.noOfFiles →
      ((sortFAT k).FAT i).beginPosition ≤ ((sortFAT k).FAT j).beginPosition) ∧
    (∀ x : Int, x < 0 ∨ k.noOfFiles ≤ x → (sortFAT k).FAT x = k.FAT x) ∧
    (sortFAT k).noOfFiles = k.noOfFiles ∧ (sortFAT k).eeprom = k.eeprom :=
  ⟨bubbleLoop_terminates FATEntry.beginPosition k.noOfFiles k.FAT,
    bubbleSort_perm FATEntry.beginPosition k.noOfFiles k.FAT,
    fun i j hi hij hj => bubbleSort_ordered FATEntry.beginPosition k.noOfFiles k.FAT i j hi hij hj,
    (bubbleSort_cellsFrom FATEntry.beginPosition k.noOfFiles k.FAT).1, rfl, rfl⟩

/-! ## Uniqueness of variable keys -/

/-- Pairwise distinct keys on the first `n` cells, as a property of the list of keys. -/
theorem distinctKeys_iff_nodup (t : Int → Variable) (n : Int) :
    (∀ i j : Int, 0 ≤ i → i < n → 0 ≤ j → j < n → (t i).name = (t j).name →
      (t i).procID = (t j).procID → i = j) ↔
    ((firstCells t n).map (fun e => (e.name, e.procID))).Nodup := by
  unfold firstCells
  rw [List.map_map, List.nodup_map_iff_inj_on (List.nodup_range _)]
  constructor
  · intro h x hx y hy hxy
    rw [List.mem_range] at hx hy
    simp only [Function.comp_apply, Prod.mk.injEq] at hxy
    have := h x y (by omega) (by omega) (by omega) (by omega) hxy.1 hxy.2
    omega
  · intro h i j hi0 hi1 hj0 hj1 h1 h2
    have := h i.toNat (by rw [List.mem_range]; omega) j.toNat (by rw [List.mem_range]; omega)
      (by
        simp only [Function.comp_apply, Prod.mk.injEq]
        rw [Int.toNat_of_nonneg hi0, Int.toNat_of_nonneg hj0]
        exact ⟨h1, h2⟩)
    omega

/-- The sort keeps the keys of the first `n` cells pairwise distinct. -/
theorem bubbleSort_distinctKeys (n : Int) (t : Int → Variable)
    (h : ∀ i j : Int, 0 ≤ i → i < n → 0 ≤ j → j < n → (t i).name = (t j).name →
      (t i).procID = (t j).procID → i = j) :
    ∀ i j : Int, 0 ≤ i → i < n → 0 ≤ j → j < n →
      (bubbleSort Variable.adress n t i).name = (bubbleSort Variable.adress n t j).name →
      (bubbleSort Variable.adress n t i).procID = (bubbleSort Variable.adress n t j).procID →
      i = j := by
  rw [distinctKeys_iff_nodup] at h ⊢
  exact ((bubbleSort_perm Variable.adress n t).map _).nodup_iff.mpr h

/-- Removing the cell `idx` by the left shift keeps the keys pairwise distinct. -/
theorem shiftVars_uniqueKeys (k : Kernel) (idx : Int) (h1 : idx < k.noOfVars)
    (h : uniqueKeys k) :
    uniqueKeys { shiftVars k idx with noOfVars := (shiftVars k idx).noOfVars - 1 } := by
  rw [shiftVars_eq]
  intro i j hi0 hi1 hj0 hj1 e1 e2
  simp only at hi1 hj1 e1 e2
  by_cases ci : idx ≤ i ∧ i < idx + ((k.noOfVars - idx).toNat : Int)
  · by_cases cj : idx ≤ j ∧ j < idx + ((k.noOfVars - idx).toNat : Int)
    · rw [if_pos ci, if_pos cj] at e1 e2
      have := h (i + 1) (j + 1) (by omega) (by omega) (by omega) (by omega) e1 e2
      omega
    · rw [if_pos ci, if_neg cj] at e1 e2
      have := h (i + 1) j (by omega) (by omega) (by omega) (by omega) e1 e2
      omega
  · by_cases cj : idx ≤ j ∧ j < idx + ((k.noOfVars - idx).toNat : Int)
    · rw [if_neg ci, if_pos cj] at e1 e2
      have := h i (j + 1) (by omega) (by omega) (by omega) (by omega) e1 e2
      omega
    · rw [if_neg ci, if_neg cj] at e1 e2
      exact h i j hi0 (by omega) hj0 (by omega) e1 e2

theorem deleteVarsLoop_uniqueKeys (procID : Int) (fuel : Nat) :
    ∀ (j : Int) (k : Kernel), uniqueKeys k → uniqueKeys (deleteVarsLoop procID fuel j k) := by
  induction fuel with
  | zero => intro j k h; exact h
  | succ fuel ih =>
    intro j k h
    simp only [deleteVarsLoop]
    split
    · next hlt =>
      apply ih (j + 1) _
      split
      · exact shiftVars_uniqueKeys k j hlt h
      · exact h
    · exact h

theorem shiftVars_noOfVars (k : Kernel) (j : Int) : (shiftVars k j).noOfVars = k.noOfVars := by
  unfold shiftVars forLoop
  exact forLoopAux_keeps Kernel.noOfVars _ (by intro i s; rfl) _ _ _

/-- The loop of `deleteVars` has ended when its fuel is used up: more fuel gives the same
result. -/
theorem deleteVarsLoop_fuel (procID : Int) (fuel : Nat) :
    ∀ (j : Int) (k : Kernel) (extra : Nat), (k.noOfVars - j).toNat ≤ fuel →
      deleteVarsLoop procID (fuel + extra) j k = deleteVarsLoop procID fuel j k := by
  induction fuel with
  | zero =>
    intro j k extra h
    cases extra with
    | zero => rfl
    | succ e =>
      have hge : ¬ (j < k.noOfVars) := by omega
      simp only [Nat.zero_add, deleteVarsLoop]
      rw [if_neg hge]
  | succ fuel ih =>
    intro j k extra h
    have e : fuel + 1 + extra = (fuel + extra) + 1 := by omega
    rw [e]
    simp only [deleteVarsLoop]
    split
    · next hlt =>
      apply ih
      split
      · show ((shiftVars k j).noOfVars - 1 - (j + 1)).toNat ≤ fuel
        rw [shiftVars_noOfVars]
        omega
      · omega
    · rfl

theorem savePayload_noOfVars_table (fpu : FPU) (K : Kernel) (procID sp type size A : Int) :
    (savePayload fpu K procID sp type size A).1.memoryTable = K.memoryTable ∧
    (savePayload fpu K procID sp type size A).1.noOfVars = K.noOfVars :=
  ⟨(savePayload_fields fpu K procID sp type size A).1,
    (savePayload_fields fpu K procID sp type size A).2.1⟩

/-- The variable table and count after `addMemoryEntry` on a table that is not full: the
table after the overwrite step, sorted, with the new entry behind it. -/
theorem addMemoryEntry_table (fpu : FPU) (k : Kernel) (name : Nat) (procID sp : Int)
    (hlt : ¬ (k.noOfVars ≥ MAX_VARIABLES)) :
    ∃ v : Variable, v.name = name ∧ v.procID = procID ∧
      (addMemoryEntry fpu k name procID sp).1.memoryTable
        = setCell (bubbleSort Variable.adress (dropVar k (findFileInMemory k name procID)).noOfVars
            (dropVar k (findFileInMemory k name procID)).memoryTable)
            (dropVar k (findFileInMemory k name procID)).noOfVars v ∧
      (addMemoryEntry fpu k name procID sp).1.noOfVars
        = (dropVar k (findFileInMemory k name procID)).noOfVars + 1 := by
  unfold addMemoryEntry
  rw [if_neg hlt]
  dsimp only
  generalize dropVar k (findFileInMemory k name procID) = K
  generalize hty : ((popByte K.stack procID sp).1 : Int) = type
  generalize hsz : (if type ≠ 3 then type
    else ((popByte K.stack procID (popByte K.stack procID sp).2).1 : Int)) = size
  generalize (if type ≠ 3 then (popByte K.stack procID sp).2
    else (popByte K.stack procID (popByte K.stack procID sp).2).2) = sp1
  obtain ⟨o, ho⟩ := newAdressFor_fst K size
  rw [ho]
  dsimp only
  obtain ⟨g1, g2⟩ := savePayload_noOfVars_table fpu
    { K with
      memoryTable := setCell (bubbleSort Variable.adress K.noOfVars K.memoryTable) K.noOfVars
        { name := name, type := type, length := size, adress := (newAdressFor K size).2,
          procID := procID }
      out := o } procID sp1 type size (newAdressFor K size).2
  exact ⟨_, rfl, rfl, g1, by rw [g2]⟩
theorem dropVar_uniqueKeys (k : Kernel) (name : Nat) (procID : Int) (h0 : 0 ≤ k.noOfVars)
    (h : uniqueKeys k) : uniqueKeys (dropVar k (findFileInMemory k name procID)) := by
  unfold findFileInMemory
  rcases findVar_spec k.memoryTable name procID k.noOfVars.toNat 0 (le_refl 0) with
    ⟨h1, _⟩ | ⟨h1, h2, _, _⟩
  · rw [h1]
    have e : dropVar k (-1) = k := by simp [dropVar]
    rw [e]
    exact h
  · generalize findVar k.memoryTable name procID k.noOfVars.toNat 0 = idx at h1 h2
    have hne : idx ≠ -1 := by omega
    have e : dropVar k idx = { shiftVars k idx with noOfVars := (shiftVars k idx).noOfVars - 1 } := by
      simp [dropVar, hne]
    rw [e]
    exact shiftVars_uniqueKeys k idx (by omega) h

/-- Key uniqueness passes through the model of `addMemoryEntry` and of `deleteVars` on every
path, also where an access leaves the arrays of the source.  The loop of `deleteVars` has
ended after `noOfVars` iterations: more iterations change nothing. -/
theorem uniqueKeys_through (fpu : FPU) (k : Kernel) (name : Nat) (procID sp q : Int)
    (h : uniqueKeys k) :
    uniqueKeys (addMemoryEntry fpu k name procID sp).1 ∧
    uniqueKeys (deleteVars k q) ∧
    ∀ extra : Nat, deleteVarsLoop q (k.noOfVars.toNat + extra) 0 k = deleteVars k q := by
  refine ⟨?_, deleteVarsLoop_uniqueKeys q _ 0 k h,
    fun extra => deleteVarsLoop_fuel q _ 0 k extra (by omega)⟩
  by_cases hfull : k.noOfVars ≥ MAX_VARIABLES
  · have e : (addMemoryEntry fpu k name procID sp).1
        = k.print (Out.str "Error. Not enough space in the memory table") := by
      unfold addMemoryEntry
      rw [if_pos hfull]
    rw [e]
    exact h
  · obtain ⟨v, hv1, hv2, htab, hcnt⟩ := addMemoryEntry_table fpu k name procID sp hfull
    by_cases h0 : 0 ≤ k.noOfVars
    · obtain ⟨tbl, m, hK, hm0, -, hbelow, -⟩ := dropVar_spec k name procID h0 h
      have hu := dropVar_uniqueKeys k name procID h0 h
      rw [hK] at htab hcnt hu
      simp only at htab hcnt
      have hs := bubbleSort_distinctKeys m tbl hu
      have hcf := bubbleSort_cellsFrom Variable.adress m tbl
      have hnew : ∀ j : Int, 0 ≤ j → j < m →
          ¬ ((bubbleSort Variable.adress m tbl j).name = name ∧
            (bubbleSort Variable.adress m tbl j).procID = procID) := by
        intro j hj0 hj1
        obtain ⟨y, hy0, hy1, hy⟩ := hcf.2 j hj0 hj1
        rw [hy]
        exact hbelow y hy0 hy1
      intro i j hi0 hi1 hj0 hj1 e1 e2
      rw [hcnt] at hi1 hj1
      rw [htab] at e1 e2
      unfold setCell at e1 e2
      by_cases ci : i = m
      · by_cases cj : j = m
        · omega
        · rw [if_pos ci, if_neg cj, hv1] at e1
          rw [if_pos ci, if_neg cj, hv2] at e2
          exact absurd ⟨e1.symm, e2.symm⟩ (hnew j hj0 (by omega))
      · by_cases cj : j = m
        · rw [if_neg ci, if_pos cj, hv1] at e1
          rw [if_neg ci, if_pos cj, hv2] at e2
          exact absurd ⟨e1, e2⟩ (hnew i hi0 (by omega))
        · rw [if_neg ci, if_neg cj] at e1 e2
          exact hs i j hi0 (by omega) hj0 (by omega) e1 e2
    · have hidx : findFileInMemory k name procID = -1 := by
        unfold findFileInMemory
        have e : k.noOfVars.toNat = 0 := by omega
        rw [e]
        rfl
      have hK : dropVar k (findFileInMemory k name procID) = k := by
        rw [hidx]
        simp [dropVar]
      rw [hK] at hcnt
      intro i j hi0 hi1
      omega

set_option maxRecDepth 100000 in
/-- C21 (defect in the code): the variable table holds the twenty CHAR variables `a` .. `t`
of process 0 (distinct keys, regions inside the arena, 160 bytes free), and process 0
executes `SET a` with `INT 7` on its stack.  `addMemoryEntry` prints "Error. Not enough space
in the memory table" and returns: the INT is still on the stack (`sp = 3`), the entry for `a`
is still the CHAR of length 1 at address 0, and the arena still holds the old payload. -/
theorem set_on_full_table_keeps_old_binding :
    twentyChars.noOfVars = MAX_VARIABLES ∧
    arenaInvariant twentyChars = true ∧
    ((varList twentyChars).map (fun e => (e.name, e.procID))).Nodup ∧
    findFileInMemory twentyChars 97 0 = 0 ∧
    (pushValue twentyChars.stack 0 0 (Value.int 7)).2 = 3 ∧
    (setValue twentyChars 97 0 0 (Value.int 7)).2 = 3 ∧
    varList (setValue twentyChars 97 0 0 (Value.int 7)).1 = varList twentyChars ∧
    (setValue twentyChars 97 0 0 (Value.int 7)).1.memoryTable 0
      = { name := 97, type := 1, length := 1, adress := 0, procID := 0 } ∧
    (setValue twentyChars 97 0 0 (Value.int 7)).1.RAM 0 = 48 ∧
    (setValue twentyChars 97 0 0 (Value.int 7)).1.out
      = [Out.str "Error. Not enough space in the memory table"] := by
  decide

/-! ## Stack encodings -/

theorem stackBytes_string (X : Stack) (p sp : Int) (s : List Nat)
    (c2 : ∀ (k : Nat) (hk : k < s.length), X (p * STACKSIZE + sp + (k : Int)) = s[k])
    (c3 : X (p * STACKSIZE + (sp + s.length)) = 0)
    (c4 : X (p * STACKSIZE + (sp + s.length + 1)) = s.length + 1)
    (c5 : X (p * STACKSIZE + (sp + s.length + 2)) = 3) :
    stackBytes X p sp (s.length + 3) = s ++ [0, s.length + 1, 3] := by
  unfold stackBytes
  apply List.ext_getElem
  · simp
  · intro k hk1 hk2
    simp only [List.getElem_map, List.getElem_range]
    simp only [List.length_map, List.length_range] at hk1
    by_cases h1 : k < s.length
    · rw [List.getElem_append_left h1]
      exact c2 k h1
    · rw [List.getElem_append_right (by omega)]
      have hk : k - s.length = 0 ∨ k - s.length = 1 ∨ k - s.length = 2 := by omega
      rcases hk with h | h | h
      · have e : p * STACKSIZE + sp + (k : Int) = p * STACKSIZE + (sp + s.length) := by omega
        simp only [h, e, c3, List.getElem_cons_zero]
      · have e : p * STACKSIZE + sp + (k : Int) = p * STACKSIZE + (sp + s.length + 1) := by omega
        simp only [h, e, c4, List.getElem_cons_succ, List.getElem_cons_zero]
      · have e : p * STACKSIZE + sp + (k : Int) = p * STACKSIZE + (sp + s.length + 2) := by omega
        simp only [h, e, c5, List.getElem_cons_succ, List.getElem_cons_zero]
/-- C26 (amended): the four typed pushes write the bytes of the layout table at ascending
stack positions with the tag byte on top: CHAR as `c, 0x01`; INT as high byte, low byte,
`0x02`; FLOAT as `b3, b2, b1, b0, 0x04`; a STRING of `len` non-NUL characters as its
characters, `0x00`, `len + 1`, `0x03`.  They advance `sp` by 2, 3, 5 and `len + 3` bytes,
and change no other stack byte. -/
theorem push_layouts (st : Stack) (p sp : Int) :
    (∀ c : Nat, c < 256 →
      (pushChar st p sp c).2 = sp + 2 ∧
      stackBytes (pushChar st p sp c).1 p sp 2 = [c, 1] ∧
      ∀ a : Int, a < p * STACKSIZE + sp ∨ p * STACKSIZE + sp + 2 ≤ a →
        (pushChar st p sp c).1 a = st a) ∧
    (∀ i : Int, -32768 ≤ i ∧ i ≤ 32767 →
      (pushInt st p sp i).2 = sp + 3 ∧
      stackBytes (pushInt st p sp i).1 p sp 3 = [highByte i, lowByte i, 2] ∧
      ∀ a : Int, a < p * STACKSIZE + sp ∨ p * STACKSIZE + sp + 3 ≤ a →
        (pushInt st p sp i).1 a = st a) ∧
    (∀ f : F32, f.b0 < 256 ∧ f.b1 < 256 ∧ f.b2 < 256 ∧ f.b3 < 256 →
      (pushFloat st p sp f).2 = sp + 5 ∧
      stackBytes (pushFloat st p sp f).1 p sp 5 = [f.b3, f.b2, f.b1, f.b0, 4] ∧
      ∀ a : Int, a < p * STACKSIZE + sp ∨ p * STACKSIZE + sp + 5 ≤ a →
        (pushFloat st p sp f).1 a = st a) ∧
    (∀ s : List Nat, (∀ x ∈ s, x ≠ 0 ∧ x < 256) → s.length + 1 < 256 →
      (pushString st p sp (s ++ [0])).2 = sp + (s.length + 3) ∧
      stackBytes (pushString st p sp (s ++ [0])).1 p sp (s.length + 3)
        = s ++ [0, s.length + 1, 3] ∧
      ∀ a : Int, a < p * STACKSIZE + sp ∨ p * STACKSIZE + sp + (s.length + 3) ≤ a →
        (pushString st p sp (s ++ [0])).1 a = st a) := by
  refine ⟨fun c hc => ⟨?_, ?_, ?_⟩, fun i hi => ⟨?_, ?_, ?_⟩, fun f hf => ⟨?_, ?_, ?_⟩,
    fun s hs hlen => ⟨?_, ?_, ?_⟩⟩
  · simp only [pushChar, pushByte]; ring
  · have e1 : ¬ (p * STACKSIZE + sp + 0 = p * STACKSIZE + (sp + 1)) := by omega
    have e2 : p * STACKSIZE + sp + 1 = p * STACKSIZE + (sp + 1) := by ring
    simp [stackBytes, List.range_succ, pushChar, pushByte, setCell, e1, e2, Nat.mod_eq_of_lt hc]
  · intro a ha
    simp only [pushChar, pushByte, setCell]
    rw [if_neg (by omega), if_neg (by omega)]
  · exact pushInt_snd st p sp i
  · have hl : lowByte i < 256 := by unfold lowByte; omega
    have hh : highByte i < 256 := by unfold highByte; omega
    have e1 : ¬ (p * STACKSIZE + sp = p * STACKSIZE + (sp + 1)) := by omega
    have e2 : ¬ (p * STACKSIZE + sp = p * STACKSIZE + (sp + 1 + 1)) := by omega
    have e3 : ¬ (p * STACKSIZE + (sp + 1) = p * STACKSIZE + (sp + 1 + 1)) := by omega
    have a1 : p * STACKSIZE + sp + 1 = p * STACKSIZE + (sp + 1) := by ring
    have a2 : p * STACKSIZE + sp + 2 = p * STACKSIZE + (sp + 1 + 1) := by ring
    simp [stackBytes, List.range_succ, pushInt, pushByte, setCell, e1, e2, e3, a1, a2,
      Nat.mod_eq_of_lt hl, Nat.mod_eq_of_lt hh]
  · intro a ha
    simp only [pushInt, pushByte, setCell]
    rw [if_neg (by omega), if_neg (by omega), if_neg (by omega)]
  · exact (pushFloat_facts st p sp f hf).1
  · obtain ⟨h0, h1, h2, h3⟩ := hf
    have e1 : ¬ (p * STACKSIZE + sp = p * STACKSIZE + (sp + 1)) := by omega
    have e2 : ¬ (p * STACKSIZE + sp = p * STACKSIZE + (sp + 1 + 1)) := by omega
    have e3 : ¬ (p * STACKSIZE + sp = p * STACKSIZE + (sp + 1 + 1 + 1)) := by omega
    have e4 : ¬ (p * STACKSIZE + sp = p * STACKSIZE + (sp + 1 + 1 + 1 + 1)) := by omega
    have e5 : ¬ (p * STACKSIZE + (sp + 1) = p * STACKSIZE + (sp + 1 + 1)) := by omega
    have e6 : ¬ (p * STACKSIZE + (sp + 1) = p * STACKSIZE + (sp + 1 + 1 + 1)) := by omega
    have e7 : ¬ (p * STACKSIZE + (sp + 1) = p * STACKSIZE + (sp + 1 + 1 + 1 + 1)) := by omega
    have e8 : ¬ (p * STACKSIZE + (sp + 1 + 1) = p * STACKSIZE + (sp + 1 + 1 + 1)) := by omega
    have e9 : ¬ (p * STACKSIZE + (sp + 1 + 1) = p * STACKSIZE + (sp + 1 + 1 + 1 + 1)) := by omega
    have e10 : ¬ (p * STACKSIZE + (sp + 1 + 1 + 1) = p * STACKSIZE + (sp + 1 + 1 + 1 + 1)) := by
      omega
    have a1 : p * STACKSIZE + sp + 1 = p * STACKSIZE + (sp + 1) := by ring
    have a2 : p * STACKSIZE + sp + 2 = p * STACKSIZE + (sp + 1 + 1) := by ring
    have a3 : p * STACKSIZE + sp + 3 = p * STACKSIZE + (sp + 1 + 1 + 1) := by ring
    have a4 : p * STACKSIZE + sp + 4 = p * STACKSIZE + (sp + 1 + 1 + 1 + 1) := by ring
    simp [stackBytes, List.range_succ, pushFloat, pushByte, setCell, e1, e2, e3, e4, e5, e6, e7,
      e8, e9, e10, a1, a2, a3, a4, Nat.mod_eq_of_lt h0, Nat.mod_eq_of_lt h1, Nat.mod_eq_of_lt h2,
      Nat.mod_eq_of_lt h3]
  · intro a ha
    simp only [pushFloat, pushByte, setCell]
    rw [if_neg (by omega), if_neg (by omega), if_neg (by omega), if_neg (by omega),
      if_neg (by omega)]
  · rw [(pushString_cells st p sp s hs hlen).1]
    ring
  · obtain ⟨-, c2, c3, c4, c5⟩ := pushString_cells st p sp s hs hlen
    exact stackBytes_string _ p sp s c2 c3 c4 c5
  · intro a ha
    have hnz : ∀ x ∈ s, x ≠ 0 := fun x hx => (hs x hx).1
    obtain ⟨h1, h2, -⟩ := pushBytes_spec p s st sp
    simp only [pushString, strlen, cstr_append_zero s hnz, pushByte, h1, setCell]
    rw [if_neg (by omega), if_neg (by omega), if_neg (by omega)]
    exact h2 a (by omega)

set_option maxRecDepth 100000 in
/-- C26 (counterexample to the width `len + 4`): the push of the string `hi` (`len = 2`) on
an empty stack writes the five bytes `'h'`, `'i'`, `0x00`, 3, `0x03` and leaves `sp = 5`, not
6; the byte at offset 5 is not written. -/
theorem pushString_advances_len_plus_three :
    (pushString (fun _ => 255) 0 0 (ascii "hi" ++ [0])).2 = 5 ∧
    (5 : Int) ≠ 2 + 4 ∧
    stackBytes (pushString (fun _ => 255) 0 0 (ascii "hi" ++ [0])).1 0 0 6
      = [104, 105, 0, 3, 3, 255] := by
  decide

/-- C26 at concrete values: `CHAR 'A'`, `INT 300`, a FLOAT with the bytes 1, 2, 3, 4 and the
string `hi`, each pushed at depth 0 of row 0. -/
theorem push_layouts_witness :
    ((pushChar boot.stack 0 0 65).2 = 0 + 2 ∧
      stackBytes (pushChar boot.stack 0 0 65).1 0 0 2 = [65, 1]) ∧
    ((pushInt boot.stack 0 0 300).2 = 0 + 3 ∧
      stackBytes (pushInt boot.stack 0 0 300).1 0 0 3 = [highByte 300, lowByte 300, 2]) ∧
    ((pushFloat boot.stack 0 0 { b0 := 1, b1 := 2, b2 := 3, b3 := 4 }).2 = 0 + 5 ∧
      stackBytes (pushFloat boot.stack 0 0 { b0 := 1, b1 := 2, b2 := 3, b3 := 4 }).1 0 0 5
        = [4, 3, 2, 1, 4]) ∧
    ((pushString boot.stack 0 0 ([104, 105] ++ [0])).2 = 0 + (([104, 105] : List Nat).length + 3) ∧
      stackBytes (pushString boot.stack 0 0 ([104, 105] ++ [0])).1 0 0
          (([104, 105] : List Nat).length + 3)
        = [104, 105] ++ [0, ([104, 105] : List Nat).length + 1, 3]) :=
  have h := push_layouts boot.stack 0 0
  ⟨⟨(h.1 65 (by decide)).1, (h.1 65 (by decide)).2.1⟩,
    ⟨(h.2.1 300 (by decide)).1, (h.2.1 300 (by decide)).2.1⟩,
    ⟨(h.2.2.1 { b0 := 1, b1 := 2, b2 := 3, b3 := 4 } (by decide)).1,
      (h.2.2.1 { b0 := 1, b1 := 2, b2 := 3, b3 := 4 } (by decide)).2.1⟩,
    ⟨(h.2.2.2 [104, 105] (by decide) (by decide)).1,
      (h.2.2.2 [104, 105] (by decide) (by decide)).2.1⟩⟩

set_option maxRecDepth 100000 in
/-- C27 (defect in the code): the table holds the file `b` at `[170, 175)` with the content
`HELLO`, and `store c 9` succeeds with `c` placed at `p = 161`, so `[p, p + 9)` ends where `b`
begins.  The write loop of `storeFile` runs `fileSize + 1` times: it also writes the byte at
offset 170, outside `[p, p + 9)`, with the byte it reads behind the buffer (shown for 0 and
for 255).  The first payload byte of `b` is lost: its five bytes are no longer `HELLO`. -/
theorem storeFile_writes_one_byte_behind :
    fatList helloAt170 = [(ascii "b", 170, 5)] ∧
    EEPROM.getBytes helloAt170.eeprom 170 5 = ascii "HELLO" ∧
    (storeFile helloAt170 (ascii "c") 9 (ascii "123456789") 0).map
        (fun k => (stored k, fatList k))
      = some (true, [(ascii "c", 161, 9), (ascii "b", 170, 5)]) ∧
    (storeFile helloAt170 (ascii "c") 9 (ascii "123456789") 0).map (fun k => k.eeprom 170)
      = some 0 ∧
    (storeFile helloAt170 (ascii "c") 9 (ascii "123456789") 255).map (fun k => k.eeprom 170)
      = some 255 ∧
    (storeFile helloAt170 (ascii "c") 9 (ascii "123456789") 0).map
        (fun k => EEPROM.getBytes k.eeprom 170 5)
      = some [0, 69, 76, 76, 79] := by
  decide
/-! ## Starting a process -/

theorem findName_none (FAT : Int → FATEntry) (fileName : List Nat) (cnt : Nat) :
    ∀ i0 : Int, (∀ x, i0 ≤ x → x < i0 + cnt → strcmpEq (FAT x).name fileName = false) →
      findName FAT fileName cnt i0 = -1 := by
  induction cnt with
  | zero => intro i0 _; rfl
  | succ cnt ih =>
    intro i0 h
    unfold findName
    have h0 := h i0 (le_refl _) (by push_cast; omega)
    rw [if_neg (by rw [h0]; decide)]
    exact ih (i0 + 1) (fun x h1 h2 => h x (by omega) (by push_cast; omega))

theorem getFileInFAT_none (k : Kernel) (fileName : List Nat)
    (hmax : EEPROM.getInt k.eeprom 0 ≤ MAX_PROCESSES)
    (hmiss : ∀ i, 0 ≤ i → i < EEPROM.getInt k.eeprom 0 →
      strcmpEq (getFATEntry k i).name fileName = false) :
    getFileInFAT k fileName = (readFAT k, -1) := by
  have hM : MAX_PROCESSES = 10 := rfl
  have hF : (readFAT k).FAT
      = fun x => if 0 ≤ x ∧ x < MAX_PROCESSES then getFATEntry k x else k.FAT x := by
    rw [readFAT_eq]
  unfold getFileInFAT
  dsimp only
  rw [hF, readFAT_noOfFiles]
  rw [findName_none _ fileName _ 0 (by
    intro x h1 h2
    rw [if_pos (by omega)]
    exact hmiss x h1 (by omega))]

/-- C24 (amended): no entry of the persisted file table, which holds at most `MAX_PROCESSES`
entries, has the name.  For every process table `runProcess` leaves the process table, the
number of processes and the pid counter as they were.  With a free slot in the process table
it prints "File does not exist."; with a full process table it prints "Error. Not enough
space in the process table" instead. -/
theorem runProcess_missing_file (k : Kernel) (filename : List Nat)
    (hmax : EEPROM.getInt k.eeprom 0 ≤ MAX_PROCESSES)
    (hmiss : ∀ i, 0 ≤ i → i < EEPROM.getInt k.eeprom 0 →
      strcmpEq (getFATEntry k i).name filename = false) :
    (k.noOfProc < PROCESS_TABLE_SIZE →
      (runProcess k filename).out = k.out ++ [Out.str "File does not exist.", Out.ln]) ∧
    (PROCESS_TABLE_SIZE ≤ k.noOfProc →
      (runProcess k filename).out
        = k.out ++ [Out.str "Error. Not enough space in the process table", Out.ln]) ∧
    (runProcess k filename).processTable = k.processTable ∧
    (runProcess k filename).noOfProc = k.noOfProc ∧
    (runProcess k filename).processCounter = k.processCounter := by
  by_cases hroom : k.noOfProc < PROCESS_TABLE_SIZE
  · have e : runProcess k filename = (readFAT k).println "File does not exist." := by
      unfold runProcess
      rw [if_neg (not_le.mpr hroom), getFileInFAT_none k filename hmax hmiss]
      dsimp only
      rw [if_pos rfl]
    rw [e]
    refine ⟨fun _ => ?_, fun h => absurd hroom (not_lt.mpr h), ?_, ?_, ?_⟩
    · show (readFAT k).out ++ _ = _
      rw [readFAT_out]
    · show (readFAT k).processTable = _
      rw [readFAT_eq]
    · show (readFAT k).noOfProc = _
      rw [readFAT_eq]
    · show (readFAT k).processCounter = _
      rw [readFAT_eq]
  · have e : runProcess k filename
        = k.println "Error. Not enough space in the process table" := by
      unfold runProcess
      rw [if_pos (not_lt.mp hroom)]
    rw [e]
    exact ⟨fun h => absurd h hroom, fun _ => rfl, rfl, rfl, rfl⟩

set_option maxRecDepth 100000 in
/-- C24 on a disk that holds only the file `p`: `run zz` with an empty process table. -/
theorem runProcess_missing_file_witness :
    (EEPROM.getInt pDisk.eeprom 0 ≤ MAX_PROCESSES ∧ pDisk.noOfProc < PROCESS_TABLE_SIZE) ∧
    (runProcess pDisk (ascii "zz")).out = pDisk.out ++ [Out.str "File does not exist.", Out.ln] ∧
    (runProcess pDisk (ascii "zz")).processTable = pDisk.processTable ∧
    (runProcess pDisk (ascii "zz")).noOfProc = pDisk.noOfProc ∧
    (runProcess pDisk (ascii "zz")).processCounter = pDisk.processCounter :=
  have h := runProcess_missing_file pDisk (ascii "zz") (by decide)
    (fun i h1 h2 => by
      have h2 : i < 1 := h2
      have e : i = 0 := by omega
      subst e
      decide)
  ⟨⟨by decide, by decide⟩, h.1 (by decide), h.2.2⟩

set_option maxRecDepth 100000 in
/-- C24 (counterexample to "for every process table"): with ten processes in the table and
no file on the disk, `run zz` does not report that the file does not exist; it prints
"Error. Not enough space in the process table".  The table, the count and the pid counter are
unchanged. -/
theorem runProcess_full_table_message :
    tenProcs.noOfProc = PROCESS_TABLE_SIZE ∧
    (getFileInFAT tenProcs (ascii "zz")).2 = -1 ∧
    (runProcess tenProcs (ascii "zz")).out
      = [Out.str "Error. Not enough space in the process table", Out.ln] ∧
    procList (runProcess tenProcs (ascii "zz")) = procList tenProcs ∧
    (runProcess tenProcs (ascii "zz")).processCounter = tenProcs.processCounter := by
  decide

/-! ## Removing a process -/

theorem shiftProcsLoop_spec (cnt : Nat) : ∀ (i : Int) (k : Kernel),
    forLoopAux (fun i k => { k with processTable := setCell k.processTable i (k.processTable (i + 1)) })
        cnt i k
      = { k with processTable := fun j =>
            if i ≤ j ∧ j < i + cnt then k.processTable (j + 1) else k.processTable j } := by
  induction cnt with
  | zero =>
    intro i k
    simp only [forLoopAux]
    have : (fun j => if i ≤ j ∧ j < i + ((0 : Nat) : Int) then k.processTable (j + 1)
        else k.processTable j) = k.processTable := by
      funext j
      have : ¬ (i ≤ j ∧ j < i + ((0 : Nat) : Int)) := by push_cast; omega
      simp [this]
    rw [this]
  | succ cnt ih =>
    intro i k
    simp only [forLoopAux, ih]
    congr 1
    funext j
    simp only [setCell]
    by_cases h1 : j = i
    · subst h1
      have a1 : ¬ (j + 1 ≤ j ∧ j < j + 1 + (cnt : Int)) := by omega
      have a2 : (j ≤ j ∧ j < j + ((cnt : Int) + 1)) := by omega
      simp [a1, a2]
    · by_cases h2 : i + 1 ≤ j ∧ j < i + 1 + (cnt : Int)
      · have a2 : (i ≤ j ∧ j < i + ((cnt : Int) + 1)) := by omega
        have a3 : ¬ (j + 1 = i) := by omega
        simp [h2, a2, a3]
      · have a2 : ¬ (i ≤ j ∧ j < i + ((cnt : Int) + 1)) := by omega
        simp [h1, h2, a2]

theorem shiftProcs_eq (k : Kernel) (j : Int) :
    shiftProcs k j = { k with
      processTable := fun x =>
        if j ≤ x ∧ x < j + ((k.noOfProc - j).toNat : Int) then k.processTable (x + 1)
          else k.processTable x } := by
  unfold shiftProcs forLoop
  exact shiftProcsLoop_spec _ _ _

theorem findPid_spec (t : Int → process) (id : Int) (cnt : Nat) :
    ∀ i : Int,
      (findPid t id cnt i = -1 ∧ ∀ j : Int, i ≤ j → j < i + cnt → (t j).procID ≠ id) ∨
      (i ≤ findPid t id cnt i ∧ findPid t id cnt i < i + cnt ∧
        (t (findPid t id cnt i)).procID = id ∧
        ∀ j : Int, i ≤ j → j < findPid t id cnt i → (t j).procID ≠ id) := by
  induction cnt with
  | zero =>
    intro i
    left
    exact ⟨rfl, fun j h1 h2 => by simp at h2; omega⟩
  | succ cnt ih =>
    intro i
    simp only [findPid]
    split
    · next hm =>
      right
      exact ⟨le_refl _, by push_cast; omega, hm, fun j h1 h2 => by omega⟩
    · next hm =>
      rcases ih (i + 1) with ⟨h1, h2⟩ | ⟨h1, h2, h3, h4⟩
      · left
        refine ⟨h1, fun j hj1 hj2 => ?_⟩
        by_cases hj : j = i
        · rw [hj]; exact hm
        · exact h2 j (by omega) (by push_cast at hj2; omega)
      · right
        refine ⟨by omega, by push_cast; omega, h3, fun j hj1 hj2 => ?_⟩
        by_cases hj : j = i
        · rw [hj]; exact hm
        · exact h4 j (by omega) hj2

theorem forLoopAux_add {σ : Type} (body : Int → σ → σ) (a : Nat) :
    ∀ (b : Nat) (i : Int) (s : σ),
      forLoopAux body (a + b) i s = forLoopAux body b (i + a) (forLoopAux body a i s) := by
  induction a with
  | zero => intro b i s; simp [forLoopAux]
  | succ a ih =>
    intro b i s
    have e : a + 1 + b = (a + b) + 1 := by omega
    rw [e]
    simp only [forLoopAux]
    rw [ih]
    congr 1
    push_cast
    ring

/-- The removal loop of `stopProcess` does nothing on cells whose pid is not `id`. -/
theorem removeLoop_skip (id : Int) (cnt : Nat) : ∀ (j : Int) (k : Kernel),
    (∀ x : Int, j ≤ x → x < j + cnt → (k.processTable x).procID ≠ id) →
    forLoopAux (fun j k => if (k.processTable j).procID = id then shiftProcs k j else k) cnt j k
      = k := by
  induction cnt with
  | zero => intro j k _; rfl
  | succ cnt ih =>
    intro j k h
    simp only [forLoopAux]
    rw [if_neg (h j (le_refl _) (by push_cast; omega))]
    exact ih (j + 1) k (fun x h1 h2 => h x (by omega) (by push_cast; omega))

/-- Once the first `n - 1` cells hold no process with the pid `id`, the removal loop of
`stopProcess` leaves those cells as they are. -/
theorem removeLoop_keeps (id n : Int) (S : Int → process)
    (hS : ∀ i : Int, 0 ≤ i → i < n - 1 → (S i).procID ≠ id) (cnt : Nat) :
    ∀ (j : Int) (k : Kernel), 0 ≤ j → k.noOfProc = n →
      (∀ i : Int, 0 ≤ i → i < n - 1 → k.processTable i = S i) →
      ∀ i : Int, 0 ≤ i → i < n - 1 →
        (forLoopAux (fun j k => if (k.processTable j).procID = id then shiftProcs k j else k)
          cnt j k).processTable i = S i := by
  induction cnt with
  | zero => intro j k _ _ h; exact h
  | succ cnt ih =>
    intro j k hj hn h
    simp only [forLoopAux]
    split
    · next hm =>
      have hjn : n - 1 ≤ j := by
        by_contra hc
        exact hS j hj (by omega) (by rw [← h j hj (by omega)]; exact hm)
      apply ih (j + 1) _ (by omega)
      · rw [shiftProcs_noOfProc]
        exact hn
      · intro i hi0 hi1
        rw [shiftProcs_eq]
        dsimp only
        rw [if_neg (by omega)]
        exact h i hi0 hi1
    · exact ih (j + 1) k (by omega) hn h
theorem removeLoop_frame (id : Int) (cnt : Nat) : ∀ (j : Int) (k : Kernel),
    ∃ T : Int → process,
      forLoopAux (fun j k => if (k.processTable j).procID = id then shiftProcs k j else k) cnt j k
        = { k with processTable := T } := by
  induction cnt with
  | zero => intro j k; exact ⟨k.processTable, rfl⟩
  | succ cnt ih =>
    intro j k
    simp only [forLoopAux]
    split
    · obtain ⟨T, hT⟩ := ih (j + 1) (shiftProcs k j)
      rw [hT, shiftProcs_eq]
      exact ⟨T, rfl⟩
    · exact ih (j + 1) k

theorem deleteVarsLoop_frame (procID : Int) (fuel : Nat) : ∀ (j : Int) (k : Kernel),
    ∃ (tbl : Int → Variable) (m : Int),
      deleteVarsLoop procID fuel j k = { k with memoryTable := tbl, noOfVars := m } := by
  induction fuel with
  | zero => intro j k; exact ⟨k.memoryTable, k.noOfVars, rfl⟩
  | succ fuel ih =>
    intro j k
    simp only [deleteVarsLoop]
    split
    · split
      · obtain ⟨tbl, m, h⟩ := ih (j + 1)
          { shiftVars k j with noOfVars := (shiftVars k j).noOfVars - 1 }
        rw [h, shiftVars_eq]
        exact ⟨tbl, m, rfl⟩
      · exact ih (j + 1) k
    · exact ⟨k.memoryTable, k.noOfVars, rfl⟩

theorem deleteVars_frame (k : Kernel) (procID : Int) :
    ∃ (tbl : Int → Variable) (m : Int),
      deleteVars k procID = { k with memoryTable := tbl, noOfVars := m } :=
  deleteVarsLoop_frame procID _ 0 k

/-- The process table after `stopProcess` of a pid that is in the table once, at index `p`,
and is not TERMINATED: the count drops by one, the cells below `p` are kept and the cells from
`p` on hold the former cells `p + 1`, `p + 2`, ...; the pid counter is unchanged. -/
theorem stopProcess_table (k : Kernel) (id n p : Int) (hn : k.noOfProc = n) (hp0 : 0 ≤ p)
    (hpn : p < n) (hid : (k.processTable p).procID = id)
    (honce : ∀ i : Int, 0 ≤ i → i < n → (k.processTable i).procID = id → i = p)
    (hlive : (k.processTable p).state ≠ TERMINATED) :
    (stopProcess k id).noOfProc = n - 1 ∧
    (∀ i : Int, 0 ≤ i → i < p → (stopProcess k id).processTable i = k.processTable i) ∧
    (∀ i : Int, p ≤ i → i < n - 1 → (stopProcess k id).processTable i = k.processTable (i + 1)) ∧
    (stopProcess k id).processCounter = k.processCounter ∧
    (stopProcess k id).eeprom = k.eeprom := by
  have hpid : getPid k id = p := by
    unfold getPid
    rcases findPid_spec k.processTable id k.noOfProc.toNat 0 with ⟨-, h2⟩ | ⟨h1, h2, h3, -⟩
    · exact absurd hid (h2 p hp0 (by omega))
    · exact honce _ h1 (by omega) h3
  obtain ⟨tbl, m, hdv⟩ := deleteVars_frame k id
  unfold stopProcess
  simp only [hpid]
  rw [if_neg (by omega), if_neg hlive, hdv]
  have hcs : changeProcessState { k with memoryTable := tbl, noOfVars := m } p TERMINATED
      = { k with
          memoryTable := tbl, noOfVars := m
          processTable := setCell k.processTable p
            { (k.processTable p) with state := TERMINATED } } := by
    unfold changeProcessState
    rw [if_neg (by decide), if_neg hlive]
  rw [hcs]
  generalize hK : ({ k with
      memoryTable := tbl, noOfVars := m
      processTable := setCell k.processTable p
        { (k.processTable p) with state := TERMINATED } } : Kernel) = K
  have hKn : K.noOfProc = n := by rw [← hK]; exact hn
  have hKc : K.processCounter = k.processCounter := by rw [← hK]
  have hKe : K.eeprom = k.eeprom := by rw [← hK]
  have hKp : (K.processTable p).procID = id := by
    rw [← hK]
    show (setCell k.processTable p _ p).procID = id
    rw [setCell_get]
    exact hid
  have hKo : ∀ i : Int, i ≠ p → K.processTable i = k.processTable i := by
    intro i hi
    rw [← hK]
    show setCell k.processTable p _ i = _
    unfold setCell
    rw [if_neg hi]
  have hcnt : (K.noOfProc - 0).toNat = p.toNat + (1 + (n - p - 1).toNat) := by
    rw [hKn]
    omega
  have hpc : (0 : Int) + (p.toNat : Int) = p := by omega
  have hL : forLoop 0 K.noOfProc
      (fun j k => if (k.processTable j).procID = id then shiftProcs k j else k) K
      = forLoopAux (fun j k => if (k.processTable j).procID = id then shiftProcs k j else k)
          (n - p - 1).toNat (p + 1) (shiftProcs K p) := by
    unfold forLoop
    rw [hcnt, forLoopAux_add, removeLoop_skip id p.toNat 0 K (by
      intro x h1 h2
      rw [hKo x (by omega)]
      intro hx
      have := honce x h1 (by omega) hx
      omega), hpc, forLoopAux_add]
    simp only [forLoopAux, hKp, if_true, Nat.cast_one]
  obtain ⟨T, hT⟩ := removeLoop_frame id (n - p - 1).toNat (p + 1) (shiftProcs K p)
  have hS : ∀ i : Int, 0 ≤ i → i < n - 1 →
      ((fun i => if i < p then k.processTable i else k.processTable (i + 1)) i).procID ≠ id := by
    intro i hi0 hi1
    dsimp only
    split
    · intro hx
      have := honce i hi0 (by omega) hx
      omega
    · intro hx
      have := honce (i + 1) (by omega) (by omega) hx
      omega
  have hcells := removeLoop_keeps id n
    (fun i => if i < p then k.processTable i else k.processTable (i + 1)) hS (n - p - 1).toNat
    (p + 1) (shiftProcs K p) (by omega) (by rw [shiftProcs_noOfProc]; exact hKn) (by
      intro i hi0 hi1
      rw [shiftProcs_eq]
      dsimp only
      rw [hKn]
      split
      · next hc => rw [if_neg (by omega), hKo (i + 1) (by omega)]
      · next hc => rw [if_pos (by omega), hKo i (by omega)])
  rw [hL]
  rw [hT] at hcells
  rw [hT, shiftProcs_eq]
  refine ⟨?_, ?_, ?_, hKc, hKe⟩
  · show K.noOfProc - 1 = n - 1
    rw [hKn]
  · intro i hi0 hi1
    have := hcells i hi0 (by omega)
    dsimp only at this
    rw [if_pos hi1] at this
    exact this
  · intro i hi0 hi1
    have := hcells i (by omega) hi1
    dsimp only at this
    rw [if_neg (by omega)] at this
    exact this
/-- C25: the process table holds `n` processes with pairwise distinct pids, none of them
TERMINATED, and the process at index `p` has the pid `id`.  After `stopProcess id` the count
is `n - 1`; the control blocks below `p` are unchanged and the cells from `p` on hold the
control blocks that followed, unchanged and in the same order; no process of the table has
the pid `id` and none is TERMINATED. -/
theorem stopProcess_removes (k : Kernel) (id n p : Int) (hn : k.noOfProc = n) (hp0 : 0 ≤ p)
    (hpn : p < n) (hid : (k.processTable p).procID = id)
    (hdist : ∀ i j : Int, 0 ≤ i → i < n → 0 ≤ j → j < n →
      (k.processTable i).procID = (k.processTable j).procID → i = j)
    (hlive : ∀ i : Int, 0 ≤ i → i < n → (k.processTable i).state ≠ TERMINATED) :
    (stopProcess k id).noOfProc = n - 1 ∧
    (∀ i : Int, 0 ≤ i → i < p → (stopProcess k id).processTable i = k.processTable i) ∧
    (∀ i : Int, p ≤ i → i < n - 1 → (stopProcess k id).processTable i = k.processTable (i + 1)) ∧
    (∀ i : Int, 0 ≤ i → i < n - 1 →
      ((stopProcess k id).processTable i).procID ≠ id ∧
      ((stopProcess k id).processTable i).state ≠ TERMINATED) := by
  have honce : ∀ i : Int, 0 ≤ i → i < n → (k.processTable i).procID = id → i = p :=
    fun i h0 h1 h => hdist i p h0 h1 hp0 hpn (h.trans hid.symm)
  obtain ⟨h1, h2, h3, -, -⟩ := stopProcess_table k id n p hn hp0 hpn hid honce (hlive p hp0 hpn)
  refine ⟨h1, h2, h3, fun i hi0 hi1 => ?_⟩
  by_cases hc : i < p
  · rw [h2 i hi0 hc]
    exact ⟨fun h => by have := honce i hi0 (by omega) h; omega, hlive i hi0 (by omega)⟩
  · rw [h3 i (by omega) hi1]
    exact ⟨fun h => by have := honce (i + 1) (by omega) (by omega) h; omega,
      hlive (i + 1) (by omega) (by omega)⟩

set_option maxRecDepth 100000 in
/-- C25 on the table of the running pids 0 and 1: `kill 0`. -/
theorem stopProcess_removes_witness :
    (stopProcess stopThenChar 0).noOfProc = 2 - 1 ∧
    (stopProcess stopThenChar 0).processTable 0 = stopThenChar.processTable (0 + 1) ∧
    ((stopProcess stopThenChar 0).processTable 0).procID ≠ 0 ∧
    ((stopProcess stopThenChar 0).processTable 0).state ≠ TERMINATED :=
  have h := stopProcess_removes stopThenChar 0 2 0 (by decide) (by decide) (by decide)
    (by decide)
    (by
      intro i j hi0 hi1 hj0 hj1 h1
      have hi : i = 0 ∨ i = 1 := by omega
      have hj : j = 0 ∨ j = 1 := by omega
      rcases hi with rfl | rfl <;> rcases hj with rfl | rfl <;>
        first | rfl | (exfalso; revert h1; decide))
    (by
      intro i hi0 hi1
      have hi : i = 0 ∨ i = 1 := by omega
      rcases hi with rfl | rfl <;> decide)
  ⟨h.1, h.2.2.1 0 (by decide) (by decide), (h.2.2.2 0 (by decide) (by decide)).1,
    (h.2.2.2 0 (by decide) (by decide)).2⟩

/-! ## Freshness of pids -/

theorem pidsFresh_of_pidView (k r : Kernel) (h : pidView r = pidView k) (hk : pidsFresh k) :
    pidsFresh r := by
  unfold pidView at h
  simp only [Prod.mk.injEq] at h
  obtain ⟨h1, h2, h3⟩ := h
  have hp : ∀ i, (r.processTable i).procID = (k.processTable i).procID := fun i => congrFun h3 i
  obtain ⟨a, b, c⟩ := hk
  refine ⟨fun i j hi0 hi1 hj0 hj1 e => ?_, fun i hi0 hi1 => ?_, by rw [h2]; exact c⟩
  · rw [h1] at hi1 hj1
    rw [hp, hp] at e
    exact a i j hi0 hi1 hj0 hj1 e
  · rw [h1] at hi1
    rw [hp, h2]
    exact b i hi0 hi1

theorem pidView_setSp (k : Kernel) (i v : Int) : pidView (setSp k i v) = pidView k := by
  unfold pidView setSp
  simp only [Prod.mk.injEq, true_and]
  funext j
  unfold setCell
  split
  · next e => rw [e]
  · rfl

theorem pidView_setPc (k : Kernel) (i v : Int) : pidView (setPc k i v) = pidView k := by
  unfold pidView setPc
  simp only [Prod.mk.injEq, true_and]
  funext j
  unfold setCell
  split
  · next e => rw [e]
  · rfl

theorem pidView_print (k : Kernel) (o : Out) : pidView (k.print o) = pidView k := rfl

theorem pidView_println (k : Kernel) (s : String) : pidView (k.println s) = pidView k := rfl

theorem pidView_stack (k : Kernel) (s : Stack) : pidView { k with stack := s } = pidView k := rfl

theorem pidView_deleteVars (k : Kernel) (id : Int) : pidView (deleteVars k id) = pidView k := by
  obtain ⟨tbl, m, h⟩ := deleteVars_frame k id
  rw [h]
  rfl

theorem pidView_getMemoryEntry (k : Kernel) (name : Nat) (procID sp : Int) :
    pidView (getMemoryEntry k name procID sp).1 = pidView k := by
  unfold getMemoryEntry
  dsimp only
  split
  · rfl
  · split
    · rfl
    · split
      · rfl
      · split
        · rfl
        · split
          · rfl
          · rfl

theorem pidView_savePayload (fpu : FPU) (K : Kernel) (procID sp type size A : Int) :
    pidView (savePayload fpu K procID sp type size A).1 = pidView K := by
  unfold savePayload
  split
  · rfl
  · split
    · rfl
    · split
      · rfl
      · split
        · rfl
        · rfl

theorem pidView_dropVar (k : Kernel) (idx : Int) : pidView (dropVar k idx) = pidView k := by
  unfold dropVar
  split
  · rw [shiftVars_eq]
    rfl
  · rfl

theorem pidView_addMemoryEntry (fpu : FPU) (k : Kernel) (name : Nat) (procID sp : Int) :
    pidView (addMemoryEntry fpu k name procID sp).1 = pidView k := by
  unfold addMemoryEntry
  split
  · rfl
  · dsimp only
    have hd := pidView_dropVar k (findFileInMemory k name procID)
    generalize dropVar k (findFileInMemory k name procID) = K at hd ⊢
    generalize ((popByte K.stack procID sp).1 : Int) = type
    generalize (if type ≠ 3 then type
      else ((popByte K.stack procID (popByte K.stack procID sp).2).1 : Int)) = size
    generalize (if type ≠ 3 then (popByte K.stack procID sp).2
      else (popByte K.stack procID (popByte K.stack procID sp).2).2) = sp1
    obtain ⟨o, ho⟩ := newAdressFor_fst K size
    rw [ho]
    dsimp only
    have hs := pidView_savePayload fpu
      { K with
        memoryTable := setCell (bubbleSort Variable.adress K.noOfVars K.memoryTable) K.noOfVars
          { name := name, type := type, length := size, adress := (newAdressFor K size).2,
            procID := procID }
        out := o } procID sp1 type size (newAdressFor K size).2
    exact (hs.trans hd : pidView _ = pidView k)
theorem pidView_fetch (k : Kernel) (index address : Int) :
    pidView (fetch k index address).2 = pidView k := pidView_setPc k index _

theorem pidView_fetchString (index address : Int) (cnt : Nat) : ∀ (k : Kernel) (s : List Nat),
    pidView (fetchString index address cnt k s).2 = pidView k := by
  induction cnt with
  | zero => intro k s; rfl
  | succ cnt ih =>
    intro k s
    simp only [fetchString]
    split
    · exact pidView_fetch k index address
    · rw [ih]
      exact pidView_fetch k index address

theorem pidView_pushResult (isa : InstructionSet) (fpu : FPU) (k : Kernel)
    (index procID sp type : Int) (v : FloatVal) :
    pidView (pushResult isa fpu k index procID sp type v) = pidView k := by
  unfold pushResult
  split
  · exact (pidView_setSp _ _ _).trans (pidView_stack k _)
  · split
    · exact (pidView_setSp _ _ _).trans (pidView_stack k _)
    · split
      · exact (pidView_setSp _ _ _).trans (pidView_stack k _)
      · exact (pidView_println _ _).trans (pidView_setSp _ _ _)

theorem pidView_changeProcessState (k : Kernel) (i : Int) (state : Nat) :
    pidView (changeProcessState k i state) = pidView k := by
  unfold changeProcessState
  split
  · rfl
  · split
    · rfl
    · unfold pidView
      simp only [Prod.mk.injEq, true_and]
      funext j
      unfold setCell
      split
      · next e => rw [e]
      · rfl

theorem pidView_suspendProcess (k : Kernel) (id : Int) :
    pidView (suspendProcess k id) = pidView k := by
  unfold suspendProcess
  dsimp only
  split
  · rfl
  · split
    · rfl
    · exact pidView_changeProcessState _ _ _

theorem pidView_resumeProcess (k : Kernel) (id : Int) :
    pidView (resumeProcess k id) = pidView k := by
  unfold resumeProcess
  dsimp only
  split
  · rfl
  · split
    · rfl
    · exact pidView_changeProcessState _ _ _

theorem pidView_readFAT (k : Kernel) : pidView (readFAT k) = pidView k := by
  have h := readFAT_eq k
  unfold pidView
  rw [h]

/-- What `runProcess` does to the pids: nothing, or it appends a process whose pid is the
former value of the counter and increments the counter. -/
theorem runProcess_pidView (k : Kernel) (filename : List Nat) :
    pidView (runProcess k filename) = pidView k ∨
    pidView (runProcess k filename)
      = (k.noOfProc + 1, toInt16 (k.processCounter + 1),
          fun i => if i = k.noOfProc then k.processCounter else (k.processTable i).procID) := by
  unfold runProcess
  split
  · left; rfl
  · have hf : (getFileInFAT k filename).1 = readFAT k := rfl
    have hr := readFAT_eq k
    dsimp only
    split
    · left
      exact (pidView_println _ _).trans (by rw [hf]; exact pidView_readFAT k)
    · right
      rw [hf]
      generalize ((readFAT k).FAT (getFileInFAT k filename).2).beginPosition = bp
      rw [hr]
      unfold pidView Kernel.println Kernel.print
      simp only [Prod.mk.injEq, true_and]
      funext i
      unfold setCell
      split <;> rfl
/-- What one instruction does to the pids: nothing, or what `runProcess` does (`FORK`), or
what `stopProcess` does (`STOP`), in a state with the same pids. -/
theorem execute_pidView (isa : InstructionSet) (fpu : FPU) (millis : Nat) (k : Kernel)
    (index : Int) :
    pidView (execute isa fpu millis k index) = pidView k ∨
    (∃ (K : Kernel) (name : List Nat), pidView K = pidView k ∧
      pidView (execute isa fpu millis k index) = pidView (runProcess K name)) ∨
    (∃ (K : Kernel) (id : Int), pidView K = pidView k ∧
      pidView (execute isa fpu millis k index) = pidView (stopProcess K id)) := by
  have hk1 : pidView (setPc k index ((k.processTable index).pc + 1)) = pidView k :=
    pidView_setPc k index _
  generalize hE : execute isa fpu millis k index = E
  unfold execute at hE
  simp only [fetch] at hE
  generalize EEPROM.read k.eeprom ((k.processTable index).address + (k.processTable index).pc)
    = cmd at hE
  by_cases c0 : cmd = isa.CHAR
  · rw [if_pos c0] at hE
    subst hE
    left
    simp only [pidView_setSp, pidView_stack, pidView_fetch, pidView_setPc, hk1]
  rw [if_neg c0] at hE
  by_cases c1 : cmd = isa.INT
  · rw [if_pos c1] at hE
    subst hE
    left
    simp only [pidView_setSp, pidView_stack, pidView_fetch, pidView_setPc, hk1]
  rw [if_neg c1] at hE
  by_cases c2 : cmd = isa.STRING
  · rw [if_pos c2] at hE
    subst hE
    left
    simp only [pidView_setSp, pidView_stack, pidView_fetch, pidView_fetchString, pidView_setPc, hk1]
  rw [if_neg c2] at hE
  by_cases c3 : cmd = isa.FLOAT
  · rw [if_pos c3] at hE
    subst hE
    left
    simp only [pidView_setSp, pidView_stack, pidView_fetch, pidView_setPc, hk1]
  rw [if_neg c3] at hE
  by_cases c4 : cmd = isa.STOP
  · rw [if_pos c4] at hE
    subst hE
    right; right
    refine ⟨_, _, ?_, pidView_print _ _⟩
    simp only [pidView_deleteVars, pidView_println, pidView_print, pidView_setPc, hk1]
  rw [if_neg c4] at hE
  by_cases c5 : 51 ≤ cmd ∧ cmd ≤ 52
  · rw [if_pos c5] at hE
    subst hE
    left
    simp only [apply_ite pidView, pidView_print, pidView_println, pidView_setSp, pidView_setPc,
      pidView_stack, pidView_changeProcessState, pidView_suspendProcess, pidView_resumeProcess,
      hk1, ite_self]
  rw [if_neg c5] at hE
  by_cases c6 : cmd = isa.SET
  · rw [if_pos c6] at hE
    subst hE
    left
    simp only [pidView_setSp, pidView_addMemoryEntry, pidView_fetch, pidView_setPc, hk1]
  rw [if_neg c6] at hE
  by_cases c7 : cmd = isa.GET
  · rw [if_pos c7] at hE
    subst hE
    left
    simp only [pidView_setSp, pidView_getMemoryEntry, pidView_fetch, pidView_setPc, hk1]
  rw [if_neg c7] at hE
  by_cases c8 : cmd = isa.DELAY
  · rw [if_pos c8] at hE
    subst hE
    left
    simp only [pidView_setPc, hk1]
  rw [if_neg c8] at hE
  by_cases c9 : cmd = isa.DELAYUNTIL
  · rw [if_pos c9] at hE
    subst hE
    left
    simp only [apply_ite pidView, pidView_print, pidView_println, pidView_setSp, pidView_setPc,
      pidView_stack, pidView_changeProcessState, pidView_suspendProcess, pidView_resumeProcess,
      hk1, ite_self]
  rw [if_neg c9] at hE
  by_cases c10 : cmd = isa.MILLIS
  · rw [if_pos c10] at hE
    subst hE
    left
    simp only [pidView_setSp, pidView_stack, pidView_fetch, pidView_setPc, hk1]
  rw [if_neg c10] at hE
  by_cases c11 : cmd = isa.PINMODE
  · rw [if_pos c11] at hE
    subst hE
    left
    simp only [pidView_setSp, pidView_print, pidView_fetch, pidView_setPc, hk1]
  rw [if_neg c11] at hE
  by_cases c12 : cmd = isa.DIGITALWRITE
  · rw [if_pos c12] at hE
    subst hE
    left
    simp only [pidView_setSp, pidView_print, pidView_fetch, pidView_setPc, hk1]
  rw [if_neg c12] at hE
  by_cases c13 : cmd = isa.FORK
  · rw [if_pos c13] at hE
    subst hE
    right; left
    refine ⟨_, _, ?_, (pidView_setSp _ _ _).trans (pidView_stack _ _)⟩
    simp only [pidView_setSp, pidView_setPc, hk1]
  rw [if_neg c13] at hE
  by_cases c14 : cmd = isa.WAITUNTILDONE
  · rw [if_pos c14] at hE
    subst hE
    left
    simp only [apply_ite pidView, pidView_print, pidView_println, pidView_setSp, pidView_setPc,
      pidView_stack, pidView_changeProcessState, pidView_suspendProcess, pidView_resumeProcess,
      hk1, ite_self]
  rw [if_neg c14] at hE
  by_cases c15 : 7 ≤ cmd ∧ cmd ≤ 8
  · rw [if_pos c15] at hE
    subst hE
    left
    simp only [pidView_pushResult, pidView_setPc, hk1]
  rw [if_neg c15] at hE
  by_cases c16 : 9 ≤ cmd ∧ cmd ≤ 10
  · rw [if_pos c16] at hE
    subst hE
    left
    simp only [pidView_pushResult, pidView_setPc, hk1]
  rw [if_neg c16] at hE
  subst hE
  left
  simp only [pidView_println, pidView_setPc, hk1]
/-- The step of `stopProcess` keeps the pids fresh and the pid counter as it is, and brings
no pid into the table. -/
theorem stopProcess_pidsFresh (k : Kernel) (id : Int) (h : pidsFresh k) :
    pidsFresh (stopProcess k id) ∧
    (stopProcess k id).processCounter = k.processCounter ∧
    ∀ i : Int, 0 ≤ i → i < (stopProcess k id).noOfProc →
      ∃ j : Int, 0 ≤ j ∧ j < k.noOfProc ∧
        (k.processTable j).procID = ((stopProcess k id).processTable i).procID := by
  have hview : pidView (stopProcess k id) = pidView k →
      pidsFresh (stopProcess k id) ∧
      (stopProcess k id).processCounter = k.processCounter ∧
      ∀ i : Int, 0 ≤ i → i < (stopProcess k id).noOfProc →
        ∃ j : Int, 0 ≤ j ∧ j < k.noOfProc ∧
          (k.processTable j).procID = ((stopProcess k id).processTable i).procID := by
    intro hv
    refine ⟨pidsFresh_of_pidView k _ hv h, ?_, ?_⟩
    · exact congrArg (fun v => v.2.1) hv
    · intro i hi0 hi1
      have h1 : (stopProcess k id).noOfProc = k.noOfProc := congrArg (fun v => v.1) hv
      have h3 : ((stopProcess k id).processTable i).procID = (k.processTable i).procID :=
        congrFun (congrArg (fun v => v.2.2) hv) i
      exact ⟨i, hi0, by omega, h3.symm⟩
  have hg : getPid k id = findPid k.processTable id k.noOfProc.toNat 0 := rfl
  rcases findPid_spec k.processTable id k.noOfProc.toNat 0 with ⟨h1, -⟩ | ⟨h1, h2, h3, h4⟩
  · apply hview
    unfold stopProcess
    simp only [hg, h1]
    rw [if_pos True.intro]
    rfl
  · by_cases hT : (k.processTable (getPid k id)).state = TERMINATED
    · apply hview
      unfold stopProcess
      dsimp only
      rw [if_neg (by rw [hg]; omega), if_pos hT]
      rfl
    · rw [← hg] at h1 h2 h3 h4
      generalize hp : getPid k id = p at h1 h2 h3 h4 hT
      obtain ⟨a, b, c⟩ := h
      have honce : ∀ i : Int, 0 ≤ i → i < k.noOfProc → (k.processTable i).procID = id → i = p :=
        fun i h0 hi e => a i p h0 hi h1 (by omega) (e.trans h3.symm)
      obtain ⟨t1, t2, t3, t4, -⟩ :=
        stopProcess_table k id k.noOfProc p rfl h1 (by omega) h3 honce hT
      have hcell : ∀ i : Int, 0 ≤ i → i < k.noOfProc - 1 →
          (stopProcess k id).processTable i
            = k.processTable (if i < p then i else i + 1) := by
        intro i hi0 hi1
        split
        · next hc => exact t2 i hi0 hc
        · next hc => exact t3 i (by omega) hi1
      refine ⟨⟨fun i j hi0 hi1 hj0 hj1 e => ?_, fun i hi0 hi1 => ?_, by rw [t4]; exact c⟩,
        t4, fun i hi0 hi1 => ?_⟩
      · rw [t1] at hi1 hj1
        rw [hcell i hi0 hi1, hcell j hj0 hj1] at e
        have := a _ _ (by split <;> omega) (by split <;> omega) (by split <;> omega)
          (by split <;> omega) e
        split at this <;> split at this <;> omega
      · rw [t1] at hi1
        rw [hcell i hi0 hi1, t4]
        exact b _ (by split <;> omega) (by split <;> omega)
      · rw [t1] at hi1
        rw [hcell i hi0 hi1]
        exact ⟨_, by split <;> omega, by split <;> omega, rfl⟩

theorem pidsAdvance_refl (k : Kernel) (h : pidsFresh k) : pidsAdvance k k :=
  ⟨h, le_refl _, fun i hi0 hi1 _ => ⟨i, hi0, hi1, rfl⟩⟩

theorem pidsAdvance_trans (a b c : Kernel) (h1 : pidsAdvance a b) (h2 : pidsAdvance b c) :
    pidsAdvance a c := by
  obtain ⟨-, m1, s1⟩ := h1
  obtain ⟨f2, m2, s2⟩ := h2
  refine ⟨f2, le_trans m1 m2, fun i hi0 hi1 hlt => ?_⟩
  obtain ⟨j, hj0, hj1, e⟩ := s2 i hi0 hi1 (by omega)
  obtain ⟨l, hl0, hl1, e2⟩ := s1 j hj0 hj1 (by rw [e]; exact hlt)
  exact ⟨l, hl0, hl1, e2.trans e⟩

theorem pidsAdvance_of_pidView (k K r R : Kernel) (hk : pidView K = pidView k)
    (hr : pidView R = pidView r) (h : pidsAdvance K R) : pidsAdvance k r := by
  obtain ⟨f, m, s⟩ := h
  have k1 : K.noOfProc = k.noOfProc := congrArg (fun v => v.1) hk
  have k2 : K.processCounter = k.processCounter := congrArg (fun v => v.2.1) hk
  have k3 : ∀ i, (K.processTable i).procID = (k.processTable i).procID :=
    fun i => congrFun (congrArg (fun v => v.2.2) hk) i
  have r1 : R.noOfProc = r.noOfProc := congrArg (fun v => v.1) hr
  have r2 : R.processCounter = r.processCounter := congrArg (fun v => v.2.1) hr
  have r3 : ∀ i, (R.processTable i).procID = (r.processTable i).procID :=
    fun i => congrFun (congrArg (fun v => v.2.2) hr) i
  refine ⟨pidsFresh_of_pidView R r hr.symm f, by omega, fun i hi0 hi1 hlt => ?_⟩
  obtain ⟨j, hj0, hj1, e⟩ := s i hi0 (by omega) (by rw [r3, k2]; exact hlt)
  exact ⟨j, hj0, by omega, by rw [← k3, e, r3]⟩

theorem pidsAdvance_same (k r : Kernel) (hr : pidView r = pidView k) (h : pidsFresh k) :
    pidsAdvance k r :=
  pidsAdvance_of_pidView k k r k rfl hr.symm (pidsAdvance_refl k h)

theorem pidsAdvance_runProcess (k : Kernel) (filename : List Nat) (h : pidsFresh k)
    (hlow : k.processCounter < 32767) : pidsAdvance k (runProcess k filename) := by
  rcases runProcess_pidView k filename with hv | hv
  · exact pidsAdvance_same k _ hv h
  · have r1 : (runProcess k filename).noOfProc = k.noOfProc + 1 := congrArg (fun v => v.1) hv
    have r2 : (runProcess k filename).processCounter = toInt16 (k.processCounter + 1) :=
      congrArg (fun v => v.2.1) hv
    have r3 : ∀ i, ((runProcess k filename).processTable i).procID
        = if i = k.noOfProc then k.processCounter else (k.processTable i).procID :=
      fun i => congrFun (congrArg (fun v => v.2.2) hv) i
    obtain ⟨a, b, c⟩ := h
    have hc : toInt16 (k.processCounter + 1) = k.processCounter + 1 := by
      unfold toInt16
      omega
    rw [hc] at r2
    refine ⟨⟨fun i j hi0 hi1 hj0 hj1 e => ?_, fun i hi0 hi1 => ?_, by omega⟩, by omega,
      fun i hi0 hi1 hlt => ?_⟩
    · rw [r3, r3] at e
      rw [r1] at hi1 hj1
      by_cases ei : i = k.noOfProc
      · by_cases ej : j = k.noOfProc
        · omega
        · rw [if_pos ei, if_neg ej] at e
          have := b j hj0 (by omega)
          omega
      · by_cases ej : j = k.noOfProc
        · rw [if_neg ei, if_pos ej] at e
          have := b i hi0 (by omega)
          omega
        · rw [if_neg ei, if_neg ej] at e
          exact a i j hi0 (by omega) hj0 (by omega) e
    · rw [r3, r2]
      rw [r1] at hi1
      by_cases ei : i = k.noOfProc
      · rw [if_pos ei]
        omega
      · rw [if_neg ei]
        have := b i hi0 (by omega)
        omega
    · rw [r3] at hlt ⊢
      rw [r1] at hi1
      by_cases ei : i = k.noOfProc
      · rw [if_pos ei] at hlt
        omega
      · rw [if_neg ei]
        exact ⟨i, hi0, by omega, rfl⟩

theorem pidsAdvance_stopProcess (k : Kernel) (id : Int) (h : pidsFresh k) :
    pidsAdvance k (stopProcess k id) := by
  obtain ⟨f, c, s⟩ := stopProcess_pidsFresh k id h
  exact ⟨f, by omega, fun i hi0 hi1 _ => s i hi0 hi1⟩

theorem pidsAdvance_execute (isa : InstructionSet) (fpu : FPU) (millis : Nat) (k : Kernel)
    (index : Int) (h : pidsFresh k) (hlow : k.processCounter < 32767) :
    pidsAdvance k (execute isa fpu millis k index) := by
  rcases execute_pidView isa fpu millis k index with hv | ⟨K, name, hK, hv⟩ | ⟨K, id, hK, hv⟩
  · exact pidsAdvance_same k _ hv h
  · have hf : pidsFresh K := pidsFresh_of_pidView k K hK h
    have hc : K.processCounter = k.processCounter := congrArg (fun v => v.2.1) hK
    exact pidsAdvance_of_pidView k K _ _ hK hv.symm
      (pidsAdvance_runProcess K name hf (by omega))
  · have hf : pidsFresh K := pidsFresh_of_pidView k K hK h
    exact pidsAdvance_of_pidView k K _ _ hK hv.symm (pidsAdvance_stopProcess K id hf)

theorem pidsAdvance_event (isa : InstructionSet) (fpu : FPU) (e : Event) (k : Kernel)
    (h : pidsFresh k) (hlow : k.processCounter < 32767) :
    pidsAdvance k (Event.apply isa fpu e k) := by
  cases e with
  | run name => exact pidsAdvance_runProcess k name h hlow
  | suspend id => exact pidsAdvance_same k _ (pidView_suspendProcess k id) h
  | resume id => exact pidsAdvance_same k _ (pidView_resumeProcess k id) h
  | kill id => exact pidsAdvance_stopProcess k id h
  | slot millis i =>
    show pidsAdvance k (if i < k.noOfProc then
      if (k.processTable i).state = RUNNING then execute isa fpu millis k i else k else k)
    split
    · split
      · exact pidsAdvance_execute isa fpu millis k i h hlow
      · exact pidsAdvance_refl k h
    · exact pidsAdvance_refl k h

theorem after_append (isa : InstructionSet) (fpu : FPU) (es : List Event) (e : Event)
    (k : Kernel) : after isa fpu (es ++ [e]) k = Event.apply isa fpu e (after isa fpu es k) := by
  unfold after
  rw [List.foldl_append]
  rfl

/-- Along a sequence of events that starts with fresh pids, and before each of which the
pid counter is below 32767, the pids advance from every earlier state to the last. -/
theorem pidsAdvance_after (isa : InstructionSet) (fpu : FPU) (k : Kernel) (h : pidsFresh k)
    (events : List Event) :
    (∀ n : Nat, n < events.length →
      (after isa fpu (events.take n) k).processCounter < 32767) →
    ∀ n : Nat, n ≤ events.length →
      pidsAdvance (after isa fpu (events.take n) k) (after isa fpu events k) := by
  induction events using List.reverseRecOn with
  | nil =>
    intro _ n _
    rw [List.take_nil]
    exact pidsAdvance_refl k h
  | append_singleton es e ih =>
    intro hlow n hn
    have hlow2 : ∀ n : Nat, n < es.length →
        (after isa fpu (es.take n) k).processCounter < 32767 := by
      intro m hm
      have := hlow m (by rw [List.length_append]; simp only [List.length_singleton]; omega)
      rwa [List.take_append_of_le_length (by omega)] at this
    have hlast : (after isa fpu es k).processCounter < 32767 := by
      have := hlow es.length (by rw [List.length_append]; simp only [List.length_singleton]; omega)
      rwa [List.take_append_of_le_length (le_refl _), List.take_length] at this
    have hes := ih hlow2
    have hfresh : pidsFresh (after isa fpu es k) := (hes es.length (le_refl _)).1
    have hstep := pidsAdvance_event isa fpu e _ hfresh hlast
    rw [List.length_append, List.length_singleton] at hn
    rw [after_append]
    by_cases hne : n ≤ es.length
    · rw [List.take_append_of_le_length hne]
      exact pidsAdvance_trans _ _ _ (hes n hne) hstep
    · have e1 : (es ++ [e]).take n = es ++ [e] :=
        List.take_of_length_le (by rw [List.length_append, List.length_singleton]; omega)
      rw [e1, after_append]
      exact pidsAdvance_refl _ hstep.1
theorem stopProcess_noVars (k : Kernel) (id : Int) (hv : k.noOfVars = 0) :
    (stopProcess k id).noOfVars = 0 := by
  unfold stopProcess
  dsimp only
  split
  · exact hv
  · split
    · exact hv
    · rw [deleteVars_noVars k id hv]
      show (forLoop 0 (changeProcessState k (getPid k id) TERMINATED).noOfProc
        (fun j k => if (k.processTable j).procID = id then shiftProcs k j else k)
        (changeProcessState k (getPid k id) TERMINATED)).noOfVars = 0
      unfold forLoop
      obtain ⟨T, hT⟩ := removeLoop_frame id
        ((changeProcessState k (getPid k id) TERMINATED).noOfProc - 0).toNat 0
        (changeProcessState k (getPid k id) TERMINATED)
      rw [hT]
      show (changeProcessState k (getPid k id) TERMINATED).noOfVars = 0
      unfold changeProcessState
      split
      · exact hv
      · exact hv

/-- On the disk of `pDisk` and a process table with room, `run p` starts a process in the
first free slot. -/
theorem runProcess_p (k : Kernel) (h0 : k.noOfProc < PROCESS_TABLE_SIZE)
    (he : k.eeprom = pDisk.eeprom) :
    (runProcess k (ascii "p")).noOfProc = k.noOfProc + 1 ∧
    ((runProcess k (ascii "p")).processTable k.noOfProc).procID = k.processCounter ∧
    ((runProcess k (ascii "p")).processTable k.noOfProc).state = RUNNING ∧
    (runProcess k (ascii "p")).processCounter = toInt16 (k.processCounter + 1) ∧
    (runProcess k (ascii "p")).eeprom = k.eeprom ∧
    (∀ i : Int, i ≠ k.noOfProc →
      (runProcess k (ascii "p")).processTable i = k.processTable i) ∧
    (runProcess k (ascii "p")).noOfVars = k.noOfVars := by
  have hg : getFileInFAT k (ascii "p") = (readFAT k, 0) := by
    apply getFileInFAT_first k (ascii "p") 0 (le_refl _)
    · rw [he]; decide
    · rw [he]; decide
    · unfold getFATEntry
      rw [he]
      decide
    · intro i hi0 hi1
      omega
  have hr := readFAT_eq k
  unfold runProcess
  rw [if_neg (by omega)]
  simp only [hg]
  rw [if_neg (by decide)]
  rw [hr]
  simp only [Kernel.print, Kernel.println, setCell_get]
  refine ⟨trivial, trivial, trivial, trivial, trivial, fun i hi => ?_, trivial⟩
  unfold setCell
  rw [if_neg hi]

theorem inBoundsFrom_append (isa : InstructionSet) (fpu : FPU) (es fs : List Event) :
    ∀ k : Kernel, inBoundsFrom isa fpu es k → inBoundsFrom isa fpu fs (after isa fpu es k) →
      inBoundsFrom isa fpu (es ++ fs) k := by
  induction es with
  | nil =>
    intro k _ h
    exact h
  | cons e es ih =>
    intro k h1 h2
    exact ⟨h1.1, ih _ h1.2 h2⟩

/-- The rounds of `runKill` on the disk of `pDisk`, from an empty process table and no
variables: every access lies inside the arrays, the table is empty again after each round and
the pid counter has counted the rounds, wrapping after 32767. -/
theorem after_runKill (isa : InstructionSet) (fpu : FPU) (n : Nat) :
    ∀ (c : Int) (k : Kernel), k.noOfProc = 0 → k.noOfVars = 0 → k.eeprom = pDisk.eeprom →
      k.processCounter = c → -32768 ≤ c → c ≤ 32767 → c + n ≤ 32768 →
      inBoundsFrom isa fpu (runKill c n) k ∧
      (after isa fpu (runKill c n) k).noOfProc = 0 ∧
      (after isa fpu (runKill c n) k).noOfVars = 0 ∧
      (after isa fpu (runKill c n) k).eeprom = pDisk.eeprom ∧
      (after isa fpu (runKill c n) k).processCounter = toInt16 (c + n) := by
  induction n with
  | zero =>
    intro c k h0 hv he hc hc0 hc1 hcn
    refine ⟨trivial, h0, hv, he, hc.trans ?_⟩
    unfold toInt16
    push_cast at hcn ⊢
    omega
  | succ n ih =>
    intro c k h0 hv he hc hc0 hc1 hcn
    push_cast at hcn
    have hfold : after isa fpu (runKill c (n + 1)) k
        = after isa fpu (runKill (c + 1) n) (stopProcess (runProcess k (ascii "p")) c) := rfl
    rw [hfold]
    obtain ⟨r1, r2, r3, r4, r5, -, r7⟩ := runProcess_p k (by rw [h0]; decide) he
    rw [hc, h0] at r2
    rw [hc] at r4
    rw [h0] at r1 r3
    rw [hv] at r7
    obtain ⟨t1, -, -, t4, t5⟩ := stopProcess_table (runProcess k (ascii "p")) c 1 0 r1
      (le_refl _) (by decide) r2 (fun i hi0 hi1 _ => by omega) (by rw [r3]; decide)
    have t6 := stopProcess_noVars (runProcess k (ascii "p")) c r7
    have hin1 : Event.inBounds isa fpu (Event.run (ascii "p")) k := by
      show runInBounds k (ascii "p")
      intro _
      refine ⟨by omega, ?_, by decide⟩
      rw [he]
      decide
    have hin2 : Event.inBounds isa fpu (Event.kill c) (runProcess k (ascii "p")) := by
      show tableInBounds _ ∧ varsInBounds _
      unfold tableInBounds varsInBounds
      rw [r1, r7]
      decide
    by_cases hw : c = 32767
    · have hn : n = 0 := by omega
      subst hn
      subst hw
      refine ⟨⟨hin1, hin2, trivial⟩, t1, t6, ?_, ?_⟩
      · show (stopProcess (runProcess k (ascii "p")) 32767).eeprom = _
        rw [t5, r5, he]
      · show (stopProcess (runProcess k (ascii "p")) 32767).processCounter = _
        rw [t4, r4]
        rfl
    · have hstep : toInt16 (c + 1) = c + 1 := by
        unfold toInt16
        omega
      rw [hstep] at r4
      obtain ⟨u0, u1, u2, u3, u4⟩ := ih (c + 1) (stopProcess (runProcess k (ascii "p")) c) t1 t6
        (by rw [t5, r5, he]) (by rw [t4, r4]) (by omega) (by omega) (by omega)
      refine ⟨⟨hin1, hin2, u0⟩, u1, u2, u3, u4.trans ?_⟩
      push_cast
      rw [show c + 1 + (n : Int) = c + ((n : Int) + 1) by omega]

theorem after_cons (isa : InstructionSet) (fpu : FPU) (e : Event) (es : List Event)
    (k : Kernel) : after isa fpu (e :: es) k = after isa fpu es (Event.apply isa fpu e k) := rfl

theorem after_app (isa : InstructionSet) (fpu : FPU) (es fs : List Event) (k : Kernel) :
    after isa fpu (es ++ fs) k = after isa fpu fs (after isa fpu es k) := by
  unfold after
  rw [List.foldl_append]

/-- Turns of slots from the end of the table on change nothing. -/
theorem after_idle (isa : InstructionSet) (fpu : FPU) (millis : Nat) (k : Kernel) (cnt : Nat) :
    ∀ i : Int, k.noOfProc ≤ i →
      after isa fpu ((List.range cnt).map (fun (j : Nat) => Event.slot millis (i + j))) k = k := by
  induction cnt with
  | zero =>
    intro i _
    rfl
  | succ cnt ih =>
    intro i hi
    rw [List.range_succ, List.map_append, after_app, ih i hi]
    show (if i + (cnt : Int) < k.noOfProc then
      if (k.processTable (i + (cnt : Int))).state = RUNNING
        then execute isa fpu millis k (i + (cnt : Int)) else k else k) = k
    rw [if_neg (by omega)]

/-- The loop of `runProcesses` is the sequence of the turns of its slots. -/
theorem runProcessesLoop_slots (isa : InstructionSet) (fpu : FPU) (millis : Nat) (fuel : Nat) :
    ∀ (i : Int) (k : Kernel), runProcessesLoop isa fpu millis fuel i k
      = after isa fpu ((List.range fuel).map (fun (j : Nat) => Event.slot millis (i + j))) k := by
  induction fuel with
  | zero =>
    intro i k
    rfl
  | succ fuel ih =>
    intro i k
    have hl : (List.range (fuel + 1)).map (fun (j : Nat) => Event.slot millis (i + j))
        = Event.slot millis i ::
          (List.range fuel).map (fun (j : Nat) => Event.slot millis (i + 1 + j)) := by
      rw [List.range_succ_eq_map, List.map_cons, List.map_map]
      congr 1
      · simp
      · apply List.map_congr_left
        intro j _
        show Event.slot millis (i + ((j + 1 : Nat) : Int)) = Event.slot millis (i + 1 + j)
        congr 1
        push_cast
        omega
    rw [hl, after_cons]
    unfold runProcessesLoop
    by_cases hi : i < k.noOfProc
    · rw [if_pos hi]
      dsimp only
      rw [ih]
      show _ = after isa fpu _ (if i < k.noOfProc then
        if (k.processTable i).state = RUNNING then execute isa fpu millis k i else k else k)
      rw [if_pos hi]
    · rw [if_neg hi]
      show _ = after isa fpu _ (if i < k.noOfProc then
        if (k.processTable i).state = RUNNING then execute isa fpu millis k i else k else k)
      rw [if_neg hi, after_idle isa fpu millis k fuel (i + 1) (by omega)]

/-- A pass of the scheduler is a sequence of events. -/
theorem runProcesses_slots (isa : InstructionSet) (fpu : FPU) (millis : Nat) (k : Kernel) :
    runProcesses isa fpu millis k
      = after isa fpu ((List.range (max k.noOfProc PROCESS_TABLE_SIZE).toNat).map
          (fun (j : Nat) => Event.slot millis j)) k := by
  unfold runProcesses
  rw [runProcessesLoop_slots]
  congr 2
  funext j
  rw [zero_add]

/-! ## Key uniqueness and the bounds of the variable table -/

theorem strlen_lt_of_zero_mem (s : List Nat) (h : 0 ∈ s) : strlen s < s.length := by
  unfold strlen cstr
  induction s with
  | nil => simp at h
  | cons c cs ih =>
    rw [List.takeWhile_cons]
    by_cases hc : c = 0
    · subst hc
      simp
    · have hm : 0 ∈ cs := by
        rcases List.mem_cons.mp h with e | e
        · exact absurd e.symm hc
        · exact e
      have := ih hm
      have hd : decide (c ≠ 0) = true := decide_eq_true hc
      rw [hd]
      simp only [List.length_cons, if_true]
      omega

theorem popString_length (st : Stack) (p sp size : Int) :
    (popString st p sp size).1.length = size.toNat := by
  unfold popString
  rw [popStringLoop_spec]
  simp

theorem dropVar_outside (k : Kernel) (name : Nat) (procID : Int) (h0 : 0 ≤ k.noOfVars)
    (hle : k.noOfVars ≤ MAX_VARIABLES) (i : Int) (hi : i < 0 ∨ MAX_VARIABLES ≤ i) :
    (dropVar k (findFileInMemory k name procID)).memoryTable i = k.memoryTable i := by
  unfold dropVar
  by_cases hx : findFileInMemory k name procID ≠ -1
  · rw [if_pos hx]
    have hidx : 0 ≤ findFileInMemory k name procID ∧
        findFileInMemory k name procID < k.noOfVars := by
      unfold findFileInMemory at hx ⊢
      rcases findVar_spec k.memoryTable name procID k.noOfVars.toNat 0 (le_refl _) with
        ⟨e, -⟩ | ⟨a, b, -⟩
      · exact absurd e hx
      · exact ⟨a, by omega⟩
    show (shiftVars k (findFileInMemory k name procID)).memoryTable i = k.memoryTable i
    rw [shiftVars_eq]
    show (if findFileInMemory k name procID ≤ i ∧
      i < findFileInMemory k name procID
        + ((k.noOfVars - findFileInMemory k name procID).toNat : Int)
      then k.memoryTable (i + 1) else k.memoryTable i) = k.memoryTable i
    rw [if_neg (by omega)]
  · rw [if_neg hx]

theorem savePayload_outside (fpu : FPU) (K : Kernel) (procID sp1 type size A : Int)
    (hA : 1 ≤ type ∧ type ≤ 4 → 0 ≤ A ∧ A + size ≤ MAXRAM)
    (hsize : type ≠ 3 → size = type)
    (hnul : type = 3 → 0 ∈ (popString K.stack procID sp1 size).1)
    (a : Int) (ha : a < 0 ∨ MAXRAM ≤ a) :
    (savePayload fpu K procID sp1 type size A).1.RAM a = K.RAM a := by
  unfold savePayload
  by_cases t1 : type = 1
  · rw [if_pos t1]
    have := hA (by omega)
    have := hsize (by omega)
    show saveChar K.RAM _ A a = K.RAM a
    unfold saveChar setCell
    rw [if_neg (by omega)]
  rw [if_neg t1]
  by_cases t2 : type = 2
  · rw [if_pos t2]
    have := hA (by omega)
    have := hsize (by omega)
    show saveInt K.RAM _ A a = K.RAM a
    unfold saveInt setCell
    rw [if_neg (by omega), if_neg (by omega)]
  rw [if_neg t2]
  by_cases t3 : type = 3
  · rw [if_pos t3]
    have hA3 := hA (by omega)
    have hz := hnul t3
    have hl := strlen_lt_of_zero_mem _ hz
    rw [popString_length] at hl
    have hsz : ((size.toNat : Nat) : Int) ≤ size ∨ size < 0 := by omega
    have hpos : 0 < size.toNat := by omega
    show saveString K.RAM (popString K.stack procID sp1 size).1 A a = K.RAM a
    unfold saveString setCell
    have hlen : (cstr (popString K.stack procID sp1 size).1).length
        = strlen (popString K.stack procID sp1 size).1 := rfl
    rw [if_neg (by omega)]
    exact (saveBytes_spec _ K.RAM A).1 a (by rw [hlen]; omega)
  rw [if_neg t3]
  by_cases t4 : type = 4
  · rw [if_pos t4]
    have := hA (by omega)
    have := hsize (by omega)
    show saveFloat K.RAM _ A a = K.RAM a
    unfold saveFloat setCell
    rw [if_neg (by omega), if_neg (by omega), if_neg (by omega), if_neg (by omega)]
  rw [if_neg t4]

theorem deleteVarsLoop_outside (procID : Int) (fuel : Nat) : ∀ (j : Int) (k : Kernel),
    0 ≤ j → k.noOfVars ≤ MAX_VARIABLES → ∀ i : Int, i < 0 ∨ MAX_VARIABLES ≤ i →
      (deleteVarsLoop procID fuel j k).memoryTable i = k.memoryTable i := by
  induction fuel with
  | zero =>
    intro j k _ _ i _
    rfl
  | succ fuel ih =>
    intro j k hj hle i hi
    unfold deleteVarsLoop
    by_cases hc : j < k.noOfVars
    · rw [if_pos hc]
      dsimp only
      by_cases hp : (k.memoryTable j).procID = procID
      · rw [if_pos hp]
        have hn : (shiftVars k j).noOfVars = k.noOfVars := shiftVars_noOfVars k j
        rw [ih (j + 1) _ (by omega) (by show (shiftVars k j).noOfVars - 1 ≤ _; omega) i hi]
        show (shiftVars k j).memoryTable i = k.memoryTable i
        rw [shiftVars_eq]
        show (if j ≤ i ∧ i < j + ((k.noOfVars - j).toNat : Int)
          then k.memoryTable (i + 1) else k.memoryTable i) = k.memoryTable i
        rw [if_neg (by omega)]
      · rw [if_neg hp]
        exact ih (j + 1) k (by omega) hle i hi
    · rw [if_neg hc]

set_option maxRecDepth 100000 in
/-- The SET of a CHAR on the full arena of `fifteenStrings`, which finds no space and writes
its payload at `RAM[-1]`, is not among the calls with accesses inside the arrays. -/
theorem setInBounds_excludes_no_space :
    ¬ setInBounds noFPU
      { fifteenStrings with stack := (pushValue fifteenStrings.stack 0 0 (Value.char 65)).1 }
      112 0 (pushValue fifteenStrings.stack 0 0 (Value.char 65)).2 ∧
    (setValue fifteenStrings 112 0 0 (Value.char 65)).1.RAM (-1) = 65 := by
  decide

theorem outsideView_eq (k r : Kernel)
    (h1 : ∀ a : Int, a < 0 ∨ PROCESS_TABLE_SIZE * STACKSIZE ≤ a → r.stack a = k.stack a)
    (h2 : ∀ i : Int, i < 0 ∨ PROCESS_TABLE_SIZE ≤ i → r.processTable i = k.processTable i)
    (h3 : ∀ i : Int, i < 0 ∨ MAX_VARIABLES ≤ i → r.memoryTable i = k.memoryTable i)
    (h4 : ∀ a : Int, a < 0 ∨ MAXRAM ≤ a → r.RAM a = k.RAM a)
    (h5 : ∀ i : Int, i < 0 ∨ MAX_PROCESSES ≤ i → r.FAT i = k.FAT i) :
    outsideView r = outsideView k := by
  unfold outsideView
  refine Prod.ext ?_ (Prod.ext ?_ (Prod.ext ?_ (Prod.ext ?_ ?_)))
  · funext a
    dsimp only
    split
    · rfl
    · exact h1 a (by omega)
  · funext a
    dsimp only
    split
    · rfl
    · exact h2 a (by omega)
  · funext a
    dsimp only
    split
    · rfl
    · exact h3 a (by omega)
  · funext a
    dsimp only
    split
    · rfl
    · exact h4 a (by omega)
  · funext a
    dsimp only
    split
    · rfl
    · exact h5 a (by omega)

theorem outsideView_cells (k r : Kernel) (h : outsideView r = outsideView k) :
    (∀ a : Int, a < 0 ∨ PROCESS_TABLE_SIZE * STACKSIZE ≤ a → r.stack a = k.stack a) ∧
    (∀ i : Int, i < 0 ∨ PROCESS_TABLE_SIZE ≤ i → r.processTable i = k.processTable i) ∧
    (∀ i : Int, i < 0 ∨ MAX_VARIABLES ≤ i → r.memoryTable i = k.memoryTable i) ∧
    (∀ a : Int, a < 0 ∨ MAXRAM ≤ a → r.RAM a = k.RAM a) ∧
    (∀ i : Int, i < 0 ∨ MAX_PROCESSES ≤ i → r.FAT i = k.FAT i) := by
  unfold outsideView at h
  simp only [Prod.mk.injEq] at h
  obtain ⟨h1, h2, h3, h4, h5⟩ := h
  refine ⟨fun a ha => ?_, fun a ha => ?_, fun a ha => ?_, fun a ha => ?_, fun a ha => ?_⟩
  · have := congrFun h1 a
    rwa [if_neg (by omega), if_neg (by omega)] at this
  · have := congrFun h2 a
    rwa [if_neg (by omega), if_neg (by omega)] at this
  · have := congrFun h3 a
    rwa [if_neg (by omega), if_neg (by omega)] at this
  · have := congrFun h4 a
    rwa [if_neg (by omega), if_neg (by omega)] at this
  · have := congrFun h5 a
    rwa [if_neg (by omega), if_neg (by omega)] at this

theorem outsideView_print (k : Kernel) (o : Out) : outsideView (k.print o) = outsideView k := rfl

theorem outsideView_println (k : Kernel) (s : String) :
    outsideView (k.println s) = outsideView k := rfl

theorem outsideView_cell (k : Kernel) (i : Int) (v : process)
    (hi : 0 ≤ i ∧ i < PROCESS_TABLE_SIZE) :
    outsideView { k with processTable := setCell k.processTable i v } = outsideView k := by
  apply outsideView_eq
  · intro a _; rfl
  · intro j hj
    show setCell k.processTable i v j = k.processTable j
    unfold setCell
    rw [if_neg (by omega)]
  · intro a _; rfl
  · intro a _; rfl
  · intro a _; rfl

theorem outsideView_setSp (k : Kernel) (i v : Int) (hi : 0 ≤ i ∧ i < PROCESS_TABLE_SIZE) :
    outsideView (setSp k i v) = outsideView k :=
  outsideView_cell k i _ hi

theorem outsideView_setPc (k : Kernel) (i v : Int) (hi : 0 ≤ i ∧ i < PROCESS_TABLE_SIZE) :
    outsideView (setPc k i v) = outsideView k :=
  outsideView_cell k i _ hi

theorem outsideView_stack (k : Kernel) (s : Stack)
    (h : ∀ a : Int, a < 0 ∨ PROCESS_TABLE_SIZE * STACKSIZE ≤ a → s a = k.stack a) :
    outsideView { k with stack := s } = outsideView k :=
  outsideView_eq k _ h (fun _ _ => rfl) (fun _ _ => rfl) (fun _ _ => rfl) (fun _ _ => rfl)

theorem pushByte_outside (st : Stack) (p sp : Int) (b : Nat)
    (h : 0 ≤ p ∧ p < PROCESS_TABLE_SIZE ∧ 0 ≤ sp ∧ sp + 1 ≤ STACKSIZE) (a : Int)
    (ha : a < 0 ∨ PROCESS_TABLE_SIZE * STACKSIZE ≤ a) :
    (pushByte st p sp b).1 a = st a := by
  have h10 : PROCESS_TABLE_SIZE = 10 := rfl
  have h16 : STACKSIZE = 16 := rfl
  unfold pushByte setCell
  dsimp only
  simp only [h10, h16] at h ha ⊢
  rw [if_neg (by omega)]

theorem pushByte_snd (st : Stack) (p sp : Int) (b : Nat) : (pushByte st p sp b).2 = sp + 1 := rfl

theorem pushChar_outside (st : Stack) (p sp : Int) (c : Nat)
    (h : 0 ≤ p ∧ p < PROCESS_TABLE_SIZE ∧ 0 ≤ sp ∧ sp + 2 ≤ STACKSIZE) (a : Int)
    (ha : a < 0 ∨ PROCESS_TABLE_SIZE * STACKSIZE ≤ a) :
    (pushChar st p sp c).1 a = st a := by
  unfold pushChar
  dsimp only
  rw [pushByte_outside _ _ _ _ (by rw [pushByte_snd]; omega) a ha,
    pushByte_outside _ _ _ _ (by omega) a ha]

theorem pushInt_outside (st : Stack) (p sp : Int) (i : Int)
    (h : 0 ≤ p ∧ p < PROCESS_TABLE_SIZE ∧ 0 ≤ sp ∧ sp + 3 ≤ STACKSIZE) (a : Int)
    (ha : a < 0 ∨ PROCESS_TABLE_SIZE * STACKSIZE ≤ a) :
    (pushInt st p sp i).1 a = st a := by
  unfold pushInt
  dsimp only
  rw [pushByte_outside _ _ _ _ (by simp only [pushByte_snd]; omega) a ha,
    pushByte_outside _ _ _ _ (by simp only [pushByte_snd]; omega) a ha,
    pushByte_outside _ _ _ _ (by omega) a ha]

theorem pushFloat_outside (st : Stack) (p sp : Int) (f : F32)
    (h : 0 ≤ p ∧ p < PROCESS_TABLE_SIZE ∧ 0 ≤ sp ∧ sp + 5 ≤ STACKSIZE) (a : Int)
    (ha : a < 0 ∨ PROCESS_TABLE_SIZE * STACKSIZE ≤ a) :
    (pushFloat st p sp f).1 a = st a := by
  unfold pushFloat
  dsimp only
  rw [pushByte_outside _ _ _ _ (by simp only [pushByte_snd]; omega) a ha,
    pushByte_outside _ _ _ _ (by simp only [pushByte_snd]; omega) a ha,
    pushByte_outside _ _ _ _ (by simp only [pushByte_snd]; omega) a ha,
    pushByte_outside _ _ _ _ (by simp only [pushByte_snd]; omega) a ha,
    pushByte_outside _ _ _ _ (by omega) a ha]

theorem pushString_snd (st : Stack) (p sp : Int) (s : List Nat) :
    (pushString st p sp s).2 = sp + strlen s + 3 := by
  unfold pushString
  dsimp only
  simp only [pushByte_snd, (pushBytes_spec p (cstr s) st sp).1]
  unfold strlen
  omega

theorem pushString_outside (st : Stack) (p sp : Int) (s : List Nat)
    (h : 0 ≤ p ∧ p < PROCESS_TABLE_SIZE ∧ 0 ≤ sp ∧ sp + strlen s + 3 ≤ STACKSIZE) (a : Int)
    (ha : a < 0 ∨ PROCESS_TABLE_SIZE * STACKSIZE ≤ a) :
    (pushString st p sp s).1 a = st a := by
  have h10 : PROCESS_TABLE_SIZE = 10 := rfl
  have h16 : STACKSIZE = 16 := rfl
  obtain ⟨b1, b2, -⟩ := pushBytes_spec p (cstr s) st sp
  have hl : ((cstr s).length : Int) = strlen s := rfl
  unfold pushString
  dsimp only
  rw [pushByte_outside _ _ _ _ (by simp only [pushByte_snd, b1, hl]; omega) a ha,
    pushByte_outside _ _ _ _ (by simp only [pushByte_snd, b1, hl]; omega) a ha,
    pushByte_outside _ _ _ _ (by simp only [b1, hl]; omega) a ha]
  apply b2
  simp only [hl, h10, h16] at h ha ⊢
  omega

theorem outsideView_fetch (k : Kernel) (index address : Int)
    (hi : 0 ≤ index ∧ index < PROCESS_TABLE_SIZE) :
    outsideView (fetch k index address).2 = outsideView k :=
  outsideView_setPc k index _ hi

theorem outsideView_fetchString (index address : Int)
    (hi : 0 ≤ index ∧ index < PROCESS_TABLE_SIZE) (cnt : Nat) : ∀ (k : Kernel) (s : List Nat),
    outsideView (fetchString index address cnt k s).2 = outsideView k := by
  induction cnt with
  | zero => intro k s; rfl
  | succ cnt ih =>
    intro k s
    unfold fetchString
    dsimp only
    split
    · exact outsideView_fetch k index address hi
    · rw [ih]
      exact outsideView_fetch k index address hi

theorem deleteVarsLoop_count (procID : Int) (fuel : Nat) : ∀ (j : Int) (k : Kernel),
    0 ≤ j → 0 ≤ k.noOfVars →
      0 ≤ (deleteVarsLoop procID fuel j k).noOfVars ∧
      (deleteVarsLoop procID fuel j k).noOfVars ≤ k.noOfVars := by
  induction fuel with
  | zero =>
    intro j k _ h0
    exact ⟨h0, le_refl _⟩
  | succ fuel ih =>
    intro j k hj h0
    unfold deleteVarsLoop
    by_cases hc : j < k.noOfVars
    · rw [if_pos hc]
      dsimp only
      by_cases hp : (k.memoryTable j).procID = procID
      · rw [if_pos hp]
        have hn : (shiftVars k j).noOfVars = k.noOfVars := shiftVars_noOfVars k j
        have key := ih (j + 1) { shiftVars k j with noOfVars := (shiftVars k j).noOfVars - 1 }
          (by omega) (by show 0 ≤ (shiftVars k j).noOfVars - 1; omega)
        exact ⟨key.1, le_trans key.2 (by show (shiftVars k j).noOfVars - 1 ≤ _; omega)⟩
      · rw [if_neg hp]
        exact ih (j + 1) k (by omega) h0
    · rw [if_neg hc]
      exact ⟨h0, le_refl _⟩

theorem varsInBounds_deleteVars (k : Kernel) (q : Int) (h : varsInBounds k) :
    varsInBounds (deleteVars k q) := by
  have := deleteVarsLoop_count q k.noOfVars.toNat 0 k (le_refl _) h.1
  exact ⟨this.1, le_trans this.2 h.2⟩

theorem outsideView_deleteVars (k : Kernel) (q : Int) (h : varsInBounds k) :
    outsideView (deleteVars k q) = outsideView k := by
  obtain ⟨tbl, m, e⟩ := deleteVars_frame k q
  have ht := deleteVarsLoop_outside q k.noOfVars.toNat 0 k (le_refl _) h.2
  apply outsideView_eq
  · intro a _; rw [e]
  · intro a _; rw [e]
  · exact ht
  · intro a _; rw [e]
  · intro a _; rw [e]

theorem deleteVars_noOfProc (k : Kernel) (q : Int) : (deleteVars k q).noOfProc = k.noOfProc := by
  obtain ⟨tbl, m, e⟩ := deleteVars_frame k q
  rw [e]

theorem deleteVars_processTable (k : Kernel) (q : Int) :
    (deleteVars k q).processTable = k.processTable := by
  obtain ⟨tbl, m, e⟩ := deleteVars_frame k q
  rw [e]

theorem outsideView_changeProcessState (k : Kernel) (i : Int) (state : Nat)
    (hi : 0 ≤ i ∧ i < PROCESS_TABLE_SIZE) :
    outsideView (changeProcessState k i state) = outsideView k := by
  unfold changeProcessState
  split
  · rfl
  · split
    · rfl
    · exact outsideView_cell k i _ hi

theorem getPid_range (k : Kernel) (id : Int) (h : tableInBounds k) :
    getPid k id = -1 ∨ (0 ≤ getPid k id ∧ getPid k id < PROCESS_TABLE_SIZE) := by
  unfold getPid
  rcases findPid_spec k.processTable id k.noOfProc.toNat 0 with ⟨e, -⟩ | ⟨a, b, -⟩
  · left; exact e
  · right
    have := h.1
    have := h.2
    exact ⟨a, by omega⟩

theorem outsideView_suspendProcess (k : Kernel) (id : Int) (h : tableInBounds k) :
    outsideView (suspendProcess k id) = outsideView k := by
  have hr := getPid_range (((k.print (Out.str "Suspending process ")).print (Out.int id)).print
    Out.ln) id h
  unfold suspendProcess
  dsimp only
  split
  · rfl
  · next hne =>
    split
    · rfl
    · rcases hr with e | hr
      · exact absurd e hne
      · exact outsideView_changeProcessState _ _ _ hr

theorem outsideView_resumeProcess (k : Kernel) (id : Int) (h : tableInBounds k) :
    outsideView (resumeProcess k id) = outsideView k := by
  have hr := getPid_range k id h
  unfold resumeProcess
  dsimp only
  split
  · rfl
  · next hne =>
    split
    · rfl
    · rcases hr with e | hr
      · exact absurd e hne
      · exact outsideView_changeProcessState _ _ _ hr

theorem removeLoop_outside (id : Int) (cnt : Nat) : ∀ (j : Int) (k : Kernel),
    0 ≤ j → k.noOfProc ≤ PROCESS_TABLE_SIZE → ∀ i : Int, i < 0 ∨ PROCESS_TABLE_SIZE ≤ i →
      (forLoopAux (fun j k => if (k.processTable j).procID = id then shiftProcs k j else k)
        cnt j k).processTable i = k.processTable i := by
  induction cnt with
  | zero => intro j k _ _ i _; rfl
  | succ cnt ih =>
    intro j k hj hle i hi
    simp only [forLoopAux]
    split
    · rw [ih (j + 1) (shiftProcs k j) (by omega) (by rw [shiftProcs_noOfProc]; exact hle) i hi,
        shiftProcs_eq]
      show (if j ≤ i ∧ i < j + ((k.noOfProc - j).toNat : Int) then k.processTable (i + 1)
        else k.processTable i) = k.processTable i
      rw [if_neg (by omega)]
    · exact ih (j + 1) k (by omega) hle i hi

theorem outsideView_stopProcess (k : Kernel) (id : Int) (ht : tableInBounds k)
    (hv : varsInBounds k) : outsideView (stopProcess k id) = outsideView k := by
  have hr := getPid_range k id ht
  unfold stopProcess
  dsimp only
  split
  · rfl
  · next hne =>
    split
    · rfl
    · rcases hr with e | hr
      · exact absurd e hne
      · have h1 : outsideView (deleteVars k id) = outsideView k := outsideView_deleteVars k id hv
        have h2 : outsideView (changeProcessState (deleteVars k id) (getPid k id) TERMINATED)
            = outsideView k :=
          (outsideView_changeProcessState _ _ _ hr).trans h1
        have hn : (changeProcessState (deleteVars k id) (getPid k id) TERMINATED).noOfProc
            = k.noOfProc := by
          have := congrArg (fun v => v.1) (pidView_changeProcessState (deleteVars k id)
            (getPid k id) TERMINATED)
          exact this.trans (deleteVars_noOfProc k id)
        obtain ⟨T, hT⟩ := removeLoop_frame id
          ((changeProcessState (deleteVars k id) (getPid k id) TERMINATED).noOfProc - 0).toNat 0
          (changeProcessState (deleteVars k id) (getPid k id) TERMINATED)
        have hout := removeLoop_outside id
          ((changeProcessState (deleteVars k id) (getPid k id) TERMINATED).noOfProc - 0).toNat 0
          (changeProcessState (deleteVars k id) (getPid k id) TERMINATED) (le_refl _)
          (by rw [hn]; exact ht.2)
        obtain ⟨c1, c2, c3, c4, c5⟩ := outsideView_cells _ _ h2
        have hfin : ∀ K3 : Kernel, outsideView ({ ((K3.print (Out.str "Process with PID: ")).print
            (Out.int id)).println " has been killed." with noOfProc := K3.noOfProc - 1 })
            = outsideView K3 := fun _ => rfl
        refine (hfin _).trans ?_
        unfold forLoop
        apply outsideView_eq
        · intro a ha
          rw [hT]
          exact c1 a ha
        · intro a ha
          rw [hout a ha]
          exact c2 a ha
        · intro a ha
          rw [hT]
          exact c3 a ha
        · intro a ha
          rw [hT]
          exact c4 a ha
        · intro a ha
          rw [hT]
          exact c5 a ha

theorem outsideView_readFAT (k : Kernel) : outsideView (readFAT k) = outsideView k := by
  have h := readFAT_eq k
  apply outsideView_eq
  · intro a _; rw [h]
  · intro a _; rw [h]
  · intro a _; rw [h]
  · intro a _; rw [h]
  · intro a ha
    rw [h]
    show (if 0 ≤ a ∧ a < MAX_PROCESSES then getFATEntry k a else k.FAT a) = k.FAT a
    rw [if_neg (by omega)]

theorem outsideView_runProcess (k : Kernel) (filename : List Nat) (h : runInBounds k filename) :
    outsideView (runProcess k filename) = outsideView k := by
  unfold runProcess
  split
  · rfl
  · next hfull =>
    have hf : (getFileInFAT k filename).1 = readFAT k := rfl
    have hr := readFAT_eq k
    have h0 := (h (by omega)).1
    dsimp only
    split
    · exact (outsideView_println _ _).trans (by rw [hf]; exact outsideView_readFAT k)
    · rw [hf]
      generalize ((readFAT k).FAT (getFileInFAT k filename).2).beginPosition = bp
      have hn : (readFAT k).noOfProc = k.noOfProc := by rw [hr]
      have hc := outsideView_cell { readFAT k with
        processCounter := toInt16 ((readFAT k).processCounter + 1) } (readFAT k).noOfProc
        { name := strcpy12 filename, procID := (readFAT k).processCounter, state := RUNNING,
          sp := 0, pc := 0, fp := 0, address := bp } (by rw [hn]; omega)
      exact hc.trans (outsideView_readFAT k)

theorem dropVar_fields (k : Kernel) (idx : Int) :
    (dropVar k idx).stack = k.stack ∧ (dropVar k idx).RAM = k.RAM ∧
    (dropVar k idx).FAT = k.FAT ∧ (dropVar k idx).processTable = k.processTable := by
  unfold dropVar
  split
  · show (shiftVars k idx).stack = _ ∧ (shiftVars k idx).RAM = _ ∧ (shiftVars k idx).FAT = _ ∧
      (shiftVars k idx).processTable = _
    rw [shiftVars_eq]
    exact ⟨rfl, rfl, rfl, rfl⟩
  · exact ⟨rfl, rfl, rfl, rfl⟩

theorem dropVar_count (k : Kernel) (name : Nat) (procID : Int) (h0 : 0 ≤ k.noOfVars) :
    0 ≤ (dropVar k (findFileInMemory k name procID)).noOfVars ∧
    (dropVar k (findFileInMemory k name procID)).noOfVars ≤ k.noOfVars := by
  unfold dropVar
  by_cases hx : findFileInMemory k name procID ≠ -1
  · rw [if_pos hx]
    have hidx : 0 ≤ findFileInMemory k name procID ∧
        findFileInMemory k name procID < k.noOfVars := by
      unfold findFileInMemory at hx ⊢
      rcases findVar_spec k.memoryTable name procID k.noOfVars.toNat 0 (le_refl _) with
        ⟨e, -⟩ | ⟨a, b, -⟩
      · exact absurd e hx
      · exact ⟨a, by omega⟩
    show 0 ≤ (shiftVars k _).noOfVars - 1 ∧ (shiftVars k _).noOfVars - 1 ≤ _
    rw [shiftVars_noOfVars]
    omega
  · rw [if_neg hx]
    exact ⟨h0, le_refl _⟩

theorem savePayload_eq (fpu : FPU) (K : Kernel) (procID sp1 type size A : Int) :
    (savePayload fpu K procID sp1 type size A).1
      = { K with RAM := (savePayload fpu K procID sp1 type size A).1.RAM } := by
  unfold savePayload
  split
  · rfl
  · split
    · rfl
    · split
      · rfl
      · split
        · rfl
        · rfl

theorem outsideView_addMemoryEntry (fpu : FPU) (k : Kernel) (name : Nat) (procID sp : Int)
    (hin : setInBounds fpu k name procID sp) :
    outsideView (addMemoryEntry fpu k name procID sp).1 = outsideView k := by
  obtain ⟨h0, hin⟩ := hin
  by_cases hfull : k.noOfVars ≥ MAX_VARIABLES
  · have e : (addMemoryEntry fpu k name procID sp).1
        = k.print (Out.str "Error. Not enough space in the memory table") := by
      unfold addMemoryEntry
      rw [if_pos hfull]
    rw [e]
    rfl
  · have hlt : k.noOfVars < MAX_VARIABLES := by omega
    obtain ⟨-, harena, hnul⟩ := hin hlt
    obtain ⟨d1, d2, d3, d4⟩ := dropVar_fields k (findFileInMemory k name procID)
    obtain ⟨d5, d6⟩ := dropVar_count k name procID h0
    have d7 := dropVar_outside k name procID h0 (by omega)
    have hM : MAX_VARIABLES = 20 := rfl
    revert harena hnul
    unfold insideArena lastVar
    simp only [addMemoryEntry, hfull, if_false, d1]
    generalize dropVar k (findFileInMemory k name procID) = D at d1 d2 d3 d4 d5 d6 d7
    generalize ((popByte k.stack procID sp).1 : Int) = type
    generalize hsize : (if type ≠ 3 then type
      else ((popByte k.stack procID (popByte k.stack procID sp).2).1 : Int)) = size
    generalize hsp1 : (if type ≠ 3 then (popByte k.stack procID sp).2
      else (popByte k.stack procID (popByte k.stack procID sp).2).2) = sp1
    obtain ⟨o, ho⟩ := newAdressFor_fst D size
    generalize (newAdressFor D size).2 = A
    rw [ho]
    simp only
    generalize hK : ({ D with
        memoryTable := setCell (bubbleSort Variable.adress D.noOfVars D.memoryTable) D.noOfVars
          { name := name, type := type, length := size, adress := A, procID := procID }
        out := o } : Kernel) = K
    intro harena hnul
    have k1 : K.memoryTable
        = setCell (bubbleSort Variable.adress D.noOfVars D.memoryTable) D.noOfVars
          { name := name, type := type, length := size, adress := A, procID := procID } := by
      rw [← hK]
    have k2 : K.noOfVars = D.noOfVars := by rw [← hK]
    have k3 : K.stack = k.stack := by rw [← hK]; exact d1
    have k4 : K.RAM = k.RAM := by rw [← hK]; exact d2
    have k5 : K.FAT = k.FAT := by rw [← hK]; exact d3
    have k6 : K.processTable = k.processTable := by rw [← hK]; exact d4
    obtain ⟨g1, g2, g3⟩ := savePayload_fields fpu K procID sp1 type size A
    have g4 := savePayload_eq fpu K procID sp1 type size A
    have g5 : (savePayload fpu K procID sp1 type size A).1.FAT = K.FAT := by rw [g4]
    have g6 : (savePayload fpu K procID sp1 type size A).1.processTable = K.processTable := by
      rw [g4]
    rw [g1, g2, k2, k1, show D.noOfVars + 1 - 1 = D.noOfVars by omega, setCell_get] at harena
    apply outsideView_eq
    · intro a _
      show (savePayload fpu K procID sp1 type size A).1.stack a = _
      rw [g3, k3]
    · intro a _
      show (savePayload fpu K procID sp1 type size A).1.processTable a = _
      rw [g6, k6]
    · intro a ha
      show (savePayload fpu K procID sp1 type size A).1.memoryTable a = _
      rw [g1, k1]
      unfold setCell
      rw [if_neg (by omega),
        (bubbleSort_cellsFrom Variable.adress D.noOfVars D.memoryTable).1 a (by omega)]
      exact d7 a ha
    · intro a ha
      show (savePayload fpu K procID sp1 type size A).1.RAM a = _
      rw [← k4]
      apply savePayload_outside fpu K procID sp1 type size A harena _ _ a ha
      · intro ht
        rw [if_pos ht] at hsize
        exact hsize.symm
      · intro ht
        have := hnul ht
        rw [if_neg (by rw [ht]; decide)] at hsize hsp1
        rw [k3, ← hsize, ← hsp1]
        exact this
    · intro a _
      show (savePayload fpu K procID sp1 type size A).1.FAT a = _
      rw [g5, k5]

theorem outsideView_getMemoryEntry (k : Kernel) (name : Nat) (procID sp : Int)
    (hin : getInBounds k name procID sp) :
    outsideView (getMemoryEntry k name procID sp).1 = outsideView k := by
  obtain ⟨-, -, hin⟩ := hin
  revert hin
  unfold getMemoryEntry
  dsimp only
  intro hin
  split
  · rfl
  · next hne =>
    obtain ⟨h1, h2, h3, h4⟩ := hin hne
    split
    · next ht =>
      have hr := (h1 ht).2 (by omega)
      exact outsideView_stack k _ (fun a ha => pushChar_outside _ _ _ _ hr a ha)
    · split
      · next ht =>
        have hr := (h2 ht).2 (by omega)
        exact outsideView_stack k _ (fun a ha => pushInt_outside _ _ _ _ hr a ha)
      · split
        · next ht =>
          have hr := (h3 ht).2.2
          rw [if_neg (by assumption), if_neg (by assumption), if_neg (by assumption),
            if_pos ht] at hr
          dsimp only at hr
          rw [pushString_snd] at hr
          have hr := hr (by omega)
          exact outsideView_stack k _ (fun a ha =>
            pushString_outside _ _ _ _ ⟨hr.1, hr.2.1, hr.2.2.1, hr.2.2.2⟩ a ha)
        · split
          · next ht =>
            have hr := (h4 ht).2 (by omega)
            exact outsideView_stack k _ (fun a ha => pushFloat_outside _ _ _ _ hr a ha)
          · rfl

theorem outsideView_pushResult (isa : InstructionSet) (fpu : FPU) (k : Kernel)
    (index procID sp type : Int) (v : FloatVal) (hi : 0 ≤ index ∧ index < PROCESS_TABLE_SIZE)
    (hrow : rowHolds procID sp (sp + resultWidth isa type)) :
    outsideView (pushResult isa fpu k index procID sp type v) = outsideView k := by
  unfold rowHolds resultWidth at hrow
  unfold pushResult
  split
  · next ht =>
    rw [if_pos ht] at hrow
    have hr := hrow (by omega)
    dsimp only
    rw [outsideView_setSp _ _ _ hi]
    exact outsideView_stack k _ (fun a ha => pushChar_outside _ _ _ _ hr a ha)
  · next ht =>
    rw [if_neg ht] at hrow
    split
    · next ht2 =>
      rw [if_pos ht2] at hrow
      have hr := hrow (by omega)
      dsimp only
      rw [outsideView_setSp _ _ _ hi]
      exact outsideView_stack k _ (fun a ha => pushInt_outside _ _ _ _ hr a ha)
    · next ht2 =>
      rw [if_neg ht2] at hrow
      split
      · next ht3 =>
        rw [if_pos ht3] at hrow
        have hr := hrow (by omega)
        dsimp only
        rw [outsideView_setSp _ _ _ hi]
        exact outsideView_stack k _ (fun a ha => pushFloat_outside _ _ _ _ hr a ha)
      · exact (outsideView_println _ _).trans (outsideView_setSp _ _ _ hi)

theorem popByte_snd (st : Stack) (p sp : Int) : (popByte st p sp).2 = sp - 1 := rfl

theorem popInt_snd (st : Stack) (p sp : Int) : (popInt st p sp).2 = sp - 2 := by
  show sp - 1 - 1 = sp - 2
  omega

theorem rowHolds_widen (p lo hi hi2 : Int) (h : rowHolds p lo hi) (h1 : lo < hi2)
    (h2 : hi2 ≤ hi) : 0 ≤ p ∧ p < PROCESS_TABLE_SIZE ∧ 0 ≤ lo ∧ hi2 ≤ STACKSIZE := by
  have := h (by omega)
  exact ⟨this.1, this.2.1, this.2.2.1, by omega⟩

theorem runInBounds_congr (k r : Kernel) (name : List Nat) (h1 : r.noOfProc = k.noOfProc)
    (h2 : r.eeprom = k.eeprom) (h : runInBounds k name) : runInBounds r name := by
  unfold runInBounds at h ⊢
  rw [h1, h2]
  exact h

theorem rowHolds_max (p lo s w : Int) (h : rowHolds p lo (max s (lo + w))) (hw : 0 < w) :
    0 ≤ p ∧ p < PROCESS_TABLE_SIZE ∧ 0 ≤ lo ∧ lo + w ≤ STACKSIZE :=
  rowHolds_widen p lo _ (lo + w) h (by omega) (le_max_right _ _)

/-- An instruction whose accesses lie inside the arrays writes no cell outside them. -/
theorem outsideView_execute (isa : InstructionSet) (fpu : FPU) (millis : Nat) (k : Kernel)
    (index : Int) (hin : executeInBounds isa fpu k index) :
    outsideView (execute isa fpu millis k index) = outsideView k := by
  unfold executeInBounds at hin
  simp only [fetch] at hin
  obtain ⟨hi0, hi1, hin⟩ := hin
  have hi : 0 ≤ index ∧ index < PROCESS_TABLE_SIZE := ⟨hi0, hi1⟩
  have hk1 : outsideView (setPc k index ((k.processTable index).pc + 1)) = outsideView k :=
    outsideView_setPc k index _ hi
  generalize hE : execute isa fpu millis k index = E
  unfold execute at hE
  simp only [fetch] at hE
  generalize EEPROM.read k.eeprom ((k.processTable index).address + (k.processTable index).pc)
    = cmd at hE hin
  by_cases c0 : cmd = isa.CHAR
  · rw [if_pos c0] at hE hin
    subst hE
    have hr := rowHolds_widen _ _ _ _ hin (by omega) (le_refl _)
    refine (outsideView_setSp _ _ _ hi).trans ?_
    refine (outsideView_stack _ _ (fun a ha => pushChar_outside _ _ _ _ hr a ha)).trans ?_
    simp only [outsideView_setPc _ _ _ hi]
  rw [if_neg c0] at hE hin
  by_cases c1 : cmd = isa.INT
  · rw [if_pos c1] at hE hin
    subst hE
    have hr := rowHolds_widen _ _ _ _ hin (by omega) (le_refl _)
    refine (outsideView_setSp _ _ _ hi).trans ?_
    refine (outsideView_stack _ _ (fun a ha => pushInt_outside _ _ _ _ hr a ha)).trans ?_
    simp only [outsideView_setPc _ _ _ hi]
  rw [if_neg c1] at hE hin
  by_cases c2 : cmd = isa.STRING
  · rw [if_pos c2] at hE hin
    subst hE
    obtain ⟨-, hrow⟩ := hin
    rw [pushString_snd] at hrow
    have hr := rowHolds_widen _ _ _ _ hrow (by omega) (le_refl _)
    refine (outsideView_setSp _ _ _ hi).trans ?_
    refine (outsideView_stack _ _ (fun a ha => pushString_outside _ _ _ _ hr a ha)).trans ?_
    simp only [outsideView_fetchString _ _ hi, outsideView_setPc _ _ _ hi]
  rw [if_neg c2] at hE hin
  by_cases c3 : cmd = isa.FLOAT
  · rw [if_pos c3] at hE hin
    subst hE
    have hr := rowHolds_widen _ _ _ _ hin (by omega) (le_refl _)
    refine (outsideView_setSp _ _ _ hi).trans ?_
    refine (outsideView_stack _ _ (fun a ha => pushFloat_outside _ _ _ _ hr a ha)).trans ?_
    simp only [outsideView_setPc _ _ _ hi]
  rw [if_neg c3] at hE hin
  by_cases c4 : cmd = isa.STOP
  · rw [if_pos c4] at hE hin
    subst hE
    obtain ⟨hv, ht⟩ := hin
    refine (outsideView_print _ _).trans ?_
    have hv2 : varsInBounds ((((setPc k index ((k.processTable index).pc + 1)).print
        (Out.str "Process with pid: ")).print (Out.int (k.processTable index).procID)).println
        " is finished.") := hv
    have ht2 : tableInBounds (deleteVars ((((setPc k index ((k.processTable index).pc + 1)).print
        (Out.str "Process with pid: ")).print (Out.int (k.processTable index).procID)).println
        " is finished.") (k.processTable index).procID) := by
      unfold tableInBounds
      rw [deleteVars_noOfProc]
      exact ht
    refine (outsideView_stopProcess _ _ ht2 (varsInBounds_deleteVars _ _ hv2)).trans ?_
    refine (outsideView_deleteVars _ _ hv2).trans ?_
    exact hk1
  rw [if_neg c4] at hE hin
  by_cases c5 : 51 ≤ cmd ∧ cmd ≤ 52
  · rw [if_pos c5] at hE
    subst hE
    simp only [apply_ite outsideView, outsideView_print, outsideView_setSp _ _ _ hi,
      outsideView_setPc _ _ _ hi, ite_self]
  rw [if_neg c5] at hE hin
  by_cases c6 : cmd = isa.SET
  · rw [if_pos c6] at hE hin
    subst hE
    refine (outsideView_setSp _ _ _ hi).trans ?_
    refine (outsideView_addMemoryEntry _ _ _ _ _ hin).trans ?_
    simp only [outsideView_setPc _ _ _ hi]
  rw [if_neg c6] at hE hin
  by_cases c7 : cmd = isa.GET
  · rw [if_pos c7] at hE hin
    subst hE
    refine (outsideView_setSp _ _ _ hi).trans ?_
    refine (outsideView_getMemoryEntry _ _ _ _ hin).trans ?_
    simp only [outsideView_setPc _ _ _ hi]
  rw [if_neg c7] at hE hin
  by_cases c8 : cmd = isa.DELAY
  · rw [if_pos c8] at hE
    subst hE
    exact hk1
  rw [if_neg c8] at hE hin
  by_cases c9 : cmd = isa.DELAYUNTIL
  · rw [if_pos c9] at hE hin
    subst hE
    simp only [popInt_snd, popByte_snd] at hin
    have hr := rowHolds_widen _ _ _ (((k.processTable index).sp - 1 - 2) + 3) hin (by omega)
      (by omega)
    split
    · refine (outsideView_setSp _ _ _ hi).trans ?_
      refine (outsideView_stack _ _ (fun a ha => pushInt_outside _ _ _ _ ?_ a ha)).trans ?_
      · simp only [popInt_snd, popByte_snd]
        exact hr
      · simp only [outsideView_setPc _ _ _ hi]
    · simp only [outsideView_setSp _ _ _ hi, outsideView_setPc _ _ _ hi]
  rw [if_neg c9] at hE hin
  by_cases c10 : cmd = isa.MILLIS
  · rw [if_pos c10] at hE hin
    subst hE
    have hr := rowHolds_widen _ _ _ _ hin (by omega) (le_refl _)
    refine (outsideView_setSp _ _ _ hi).trans ?_
    refine (outsideView_stack _ _ (fun a ha => pushInt_outside _ _ _ _ hr a ha)).trans ?_
    exact hk1
  rw [if_neg c10] at hE hin
  by_cases c11 : cmd = isa.PINMODE
  · rw [if_pos c11] at hE
    subst hE
    simp only [outsideView_print, outsideView_setSp _ _ _ hi, outsideView_setPc _ _ _ hi]
  rw [if_neg c11] at hE hin
  by_cases c12 : cmd = isa.DIGITALWRITE
  · rw [if_pos c12] at hE
    subst hE
    simp only [outsideView_print, outsideView_setSp _ _ _ hi, outsideView_setPc _ _ _ hi]
  rw [if_neg c12] at hE hin
  by_cases c13 : cmd = isa.FORK
  · rw [if_pos c13] at hE hin
    subst hE
    obtain ⟨hrow, -, hrun⟩ := hin
    have hr := rowHolds_max _ _ _ 3 hrow (by decide)
    refine (outsideView_setSp _ _ _ hi).trans ?_
    refine (outsideView_stack _ _ (fun a ha => pushInt_outside _ _ _ _ hr a ha)).trans ?_
    generalize popString (setPc k index ((k.processTable index).pc + 1)).stack
      (k.processTable index).procID
      (popByte (setPc k index ((k.processTable index).pc + 1)).stack (k.processTable index).procID
        (popByte (setPc k index ((k.processTable index).pc + 1)).stack
          (k.processTable index).procID (k.processTable index).sp).2).2
      ↑(popByte (setPc k index ((k.processTable index).pc + 1)).stack (k.processTable index).procID
        (popByte (setPc k index ((k.processTable index).pc + 1)).stack
          (k.processTable index).procID (k.processTable index).sp).2).1 = fn at hrun ⊢
    have hrun2 : runInBounds (setSp (setPc k index ((k.processTable index).pc + 1)) index fn.2)
        fn.1 := runInBounds_congr (setPc k index ((k.processTable index).pc + 1)) _ _ rfl rfl hrun
    refine (outsideView_runProcess _ _ hrun2).trans ?_
    simp only [outsideView_setSp _ _ _ hi, outsideView_setPc _ _ _ hi]
  rw [if_neg c13] at hE hin
  by_cases c14 : cmd = isa.WAITUNTILDONE
  · rw [if_pos c14] at hE hin
    subst hE
    obtain ⟨hrow, -, -⟩ := hin
    simp only [popInt_snd, popByte_snd] at hrow
    have hr := rowHolds_widen _ _ _ (((k.processTable index).sp - 1 - 2) + 3) hrow (by omega)
      (by omega)
    split
    · refine (outsideView_setSp _ _ _ hi).trans ?_
      refine (outsideView_stack _ _ (fun a ha => pushInt_outside _ _ _ _ ?_ a ha)).trans ?_
      · simp only [popInt_snd, popByte_snd]
        exact hr
      · simp only [outsideView_setSp _ _ _ hi, outsideView_setPc _ _ _ hi,
          outsideView_setPc _ _ _ ⟨hr.1, hr.2.1⟩]
    · simp only [outsideView_setSp _ _ _ hi, outsideView_setPc _ _ _ hi]
  rw [if_neg c14] at hE hin
  by_cases c15 : 7 ≤ cmd ∧ cmd ≤ 8
  · rw [if_pos c15] at hE hin
    subst hE
    obtain ⟨-, -, hrow⟩ := hin
    refine (outsideView_pushResult _ _ _ _ _ _ _ _ hi ?_).trans hk1
    intro hlt
    exact rowHolds_widen _ _ _ _ hrow hlt (le_max_right _ _)
  rw [if_neg c15] at hE hin
  by_cases c16 : 9 ≤ cmd ∧ cmd ≤ 10
  · rw [if_pos c16] at hE hin
    subst hE
    obtain ⟨-, -, hrow⟩ := hin
    refine (outsideView_pushResult _ _ _ _ _ _ _ _ hi ?_).trans hk1
    intro hlt
    exact rowHolds_widen _ _ _ _ hrow hlt (le_max_right _ _)
  rw [if_neg c16] at hE
  subst hE
  exact (outsideView_println _ _).trans hk1

theorem outsideView_event (isa : InstructionSet) (fpu : FPU) (e : Event) (k : Kernel)
    (h : Event.inBounds isa fpu e k) :
    outsideView (Event.apply isa fpu e k) = outsideView k := by
  cases e with
  | run name => exact outsideView_runProcess k name h
  | suspend id => exact outsideView_suspendProcess k id h
  | resume id => exact outsideView_resumeProcess k id h
  | kill id => exact outsideView_stopProcess k id h.1 h.2
  | slot millis i =>
    have h : i < k.noOfProc → 0 ≤ i ∧ i < PROCESS_TABLE_SIZE ∧
        ((k.processTable i).state = RUNNING → executeInBounds isa fpu k i) := h
    show outsideView (if i < k.noOfProc then
      if (k.processTable i).state = RUNNING then execute isa fpu millis k i else k else k) = _
    split
    · next hlt =>
      split
      · next hs => exact outsideView_execute isa fpu millis k i ((h hlt).2.2 hs)
      · rfl
    · rfl

/-- A sequence of events with accesses inside the arrays writes no cell outside them. -/
theorem outsideView_after (isa : InstructionSet) (fpu : FPU) (events : List Event) :
    ∀ k : Kernel, inBoundsFrom isa fpu events k →
      outsideView (after isa fpu events k) = outsideView k := by
  induction events with
  | nil => intro k _; rfl
  | cons e es ih =>
    intro k h
    rw [after_cons]
    exact (ih _ h.2).trans (outsideView_event isa fpu e k h.1)

/-- After `run p`, `kill` 32767 times on the disk of `pDisk`, with every access inside the
arrays, the table is empty and the pid counter is at 32767; after one more round it has
wrapped to -32768, and after 32768 further rounds it is back at 0. -/
theorem after_runKill_top :
    (inBoundsFrom instructionSet noFPU (runKill 0 32767) pDisk ∧
      (after instructionSet noFPU (runKill 0 32767) pDisk).noOfProc = 0 ∧
      (after instructionSet noFPU (runKill 0 32767) pDisk).noOfVars = 0 ∧
      (after instructionSet noFPU (runKill 0 32767) pDisk).eeprom = pDisk.eeprom ∧
      (after instructionSet noFPU (runKill 0 32767) pDisk).processCounter = 32767) ∧
    (inBoundsFrom instructionSet noFPU (runKill 0 32768) pDisk ∧
      (after instructionSet noFPU (runKill 0 32768) pDisk).noOfProc = 0 ∧
      (after instructionSet noFPU (runKill 0 32768) pDisk).noOfVars = 0 ∧
      (after instructionSet noFPU (runKill 0 32768) pDisk).eeprom = pDisk.eeprom ∧
      (after instructionSet noFPU (runKill 0 32768) pDisk).processCounter = -32768) ∧
    (inBoundsFrom instructionSet noFPU (runKill (-32768) 32768)
        (after instructionSet noFPU (runKill 0 32768) pDisk) ∧
      (after instructionSet noFPU (runKill (-32768) 32768)
        (after instructionSet noFPU (runKill 0 32768) pDisk)).noOfProc = 0 ∧
      (after instructionSet noFPU (runKill (-32768) 32768)
        (after instructionSet noFPU (runKill 0 32768) pDisk)).eeprom = pDisk.eeprom ∧
      (after instructionSet noFPU (runKill (-32768) 32768)
        (after instructionSet noFPU (runKill 0 32768) pDisk)).processCounter = 0) := by
  obtain ⟨a0, a1, a2, a3, a4⟩ := after_runKill instructionSet noFPU 32767 0 pDisk rfl rfl rfl
    rfl (by decide) (by decide) (by decide)
  obtain ⟨b0, b1, b2, b3, b4⟩ := after_runKill instructionSet noFPU 32768 0 pDisk rfl rfl rfl
    rfl (by decide) (by decide) (by decide)
  have b4 : (after instructionSet noFPU (runKill 0 32768) pDisk).processCounter = -32768 :=
    b4.trans (by decide)
  obtain ⟨c0, c1, -, c3, c4⟩ := after_runKill instructionSet noFPU 32768 (-32768) _ b1 b2 b3
    b4 (by decide) (by decide) (by decide)
  exact ⟨⟨a0, a1, a2, a3, a4.trans (by decide)⟩, ⟨b0, b1, b2, b3, b4⟩,
    ⟨c0, c1, c3, c4.trans (by decide)⟩⟩

/-- One or two `run p` on the disk of `pDisk` from an empty process table: the accesses lie
inside the arrays, the first process receives the value of the pid counter and the second
the 16-bit successor of that value. -/
theorem runProcess_twice (isa : InstructionSet) (fpu : FPU) (k : Kernel) (c : Int)
    (a1 : k.noOfProc = 0) (a2 : k.eeprom = pDisk.eeprom) (a3 : k.processCounter = c) :
    inBoundsFrom isa fpu [Event.run (ascii "p"), Event.run (ascii "p")] k ∧
    (after isa fpu [Event.run (ascii "p")] k).noOfProc = 1 ∧
    ((after isa fpu [Event.run (ascii "p")] k).processTable 0).procID = c ∧
    (after isa fpu [Event.run (ascii "p")] k).processCounter = toInt16 (c + 1) ∧
    (after isa fpu [Event.run (ascii "p"), Event.run (ascii "p")] k).noOfProc = 2 ∧
    ((after isa fpu [Event.run (ascii "p"), Event.run (ascii "p")] k).processTable 0).procID
      = c ∧
    ((after isa fpu [Event.run (ascii "p"), Event.run (ascii "p")] k).processTable 1).procID
      = toInt16 (c + 1) := by
  obtain ⟨r1, r2, -, r4, r5, -, -⟩ := runProcess_p k (by rw [a1]; decide) a2
  rw [a1] at r1 r2
  rw [a3] at r2 r4
  obtain ⟨s1, s2, -, -, -, s6, -⟩ := runProcess_p (runProcess k (ascii "p"))
    (by rw [r1]; decide) (by rw [r5, a2])
  rw [r1] at s1 s2
  rw [r4] at s2
  have s0 := s6 0 (by rw [r1]; decide)
  have hin1 : runInBounds k (ascii "p") := by
    intro _
    refine ⟨by omega, ?_, by decide⟩
    rw [a2]
    decide
  have hin2 : runInBounds (runProcess k (ascii "p")) (ascii "p") := by
    intro _
    refine ⟨by omega, ?_, by decide⟩
    rw [r5, a2]
    decide
  refine ⟨⟨hin1, hin2, trivial⟩, r1, r2, r4, s1, ?_, s2⟩
  show ((runProcess (runProcess k (ascii "p")) (ascii "p")).processTable 0).procID = c
  rw [s0]
  exact r2

end ArduinOS
